import Mathlib

/-!
# lsp-tk-lib: box layout, rectangle property and slot set

A shallow embedding of parts of the toolkit:

* `src/main/widgets/containers/Box.cpp`
* `src/main/prop/multi/Rectangle.cpp`
* `src/main/slot/SlotSet.cpp`

Conventions of the embedding.

* `ssize_t` and `size_t` values are integers (`Int`, and `Nat` for the unsigned
  fields of `padding_t`); the embedding is exact as long as no intermediate value
  leaves the 64-bit range.
* A pointer to a widget is `Option Widget` (`none` is `NULL`).
* An array of cells (`lltl::darray<cell_t>`, `lltl::parray<cell_t>`) is a `List`.
* What a child widget answers when the box calls one of its methods is a field of
  `Widget` named after the call.
-/

namespace lsp.tk

/-! ## Data model -/

/-- Status codes used by the embedded functions (`lsp-plug.in/common/status.h`). -/
inductive status_t
  | STATUS_OK
  | STATUS_UNKNOWN_ERR
  | STATUS_NO_MEM
  | STATUS_NOT_FOUND
  | STATUS_BAD_ARGUMENTS
  | STATUS_BAD_STATE
  deriving DecidableEq, Repr

/-- Widget orientation, `types.h`. -/
inductive orientation_t
  | O_HORIZONTAL
  | O_VERTICAL
  deriving DecidableEq, Repr

/-- The rectangle `ws::rectangle_t` (same fields as `realize_t` of `types.h`). -/
structure rectangle_t where
  nLeft : Int
  nTop : Int
  nWidth : Int
  nHeight : Int
  deriving DecidableEq, Repr

/-- Size limits `ws::size_limit_t` (same fields as `size_request_t` of `types.h`). -/
structure size_limit_t where
  nMinWidth : Int
  nMinHeight : Int
  nMaxWidth : Int
  nMaxHeight : Int
  deriving DecidableEq, Repr

/-- The structure `padding_t` of `types.h`; its fields are `size_t`. -/
structure padding_t where
  nLeft : Nat
  nRight : Nat
  nTop : Nat
  nBottom : Nat
  deriving DecidableEq, Repr

/-- A child widget as the box sees it: its identity and the answers it gives to the
calls the box makes on it. -/
structure Widget where
  /-- Identity of the object (its address). -/
  id : Nat
  /-- Answer of `visibility()->get()`. -/
  visible : Bool
  /-- Limits written by `size_request(&w->r)`. -/
  size_request : size_limit_t
  /-- Padding written by `padding()->get(&w->p)`. -/
  padding : padding_t
  /-- Limits written by `get_size_limits(&w->r)`. -/
  get_size_limits : size_limit_t
  /-- Padding written by `get_padding(&w->p)`. -/
  get_padding : padding_t
  /-- Answer of `allocation()->hexpand()`. -/
  hexpand : Bool
  /-- Answer of `allocation()->vexpand()`. -/
  vexpand : Bool
  deriving DecidableEq, Repr

/-- The cell `Box::cell_t`: size limits `r`, allocated area `a`, realized area `s`,
padding `p` and the widget. -/
structure cell_t where
  r : size_limit_t
  a : rectangle_t
  s : rectangle_t
  p : padding_t
  pWidget : Option Widget
  deriving DecidableEq, Repr

/-- The macro `lsp_max(a, b)`. -/
def lsp_max (a b : Int) : Int := if a > b then a else b

/-! ## Box.cpp -/

/-- The test `Box::hidden_widget`: a cell without a widget, or whose widget is not
visible (the cell pointer itself is never `NULL` for a cell of the array). -/
def hidden_widget (w : cell_t) : Bool :=
  match w.pWidget with
  | none => true
  | some wd => !wd.visible

/-- The loop of `Box::visible_items`, for a `parray` that never fails to grow. -/
def visible_items : List cell_t → List cell_t
  | [] => []
  | w :: ws =>
    match w.pWidget with
    | none => visible_items ws
    | some wd => if !wd.visible then visible_items ws else w :: visible_items ws

/-- The function `Box::find_widget`; `inside` is `Position::inside`, which is not part
of the embedded sources and is taken as a parameter. -/
def find_widget (inside : rectangle_t → Int → Int → Bool) :
    List cell_t → Int → Int → Option Widget
  | [], _, _ => none
  | w :: ws, x, y =>
    if hidden_widget w then find_widget inside ws x y
    else if inside w.s x y then w.pWidget
    else find_widget inside ws x y

/-- The limits `{-1, -1, -1, -1}` written at the start of a size request. -/
def no_limits : size_limit_t := ⟨-1, -1, -1, -1⟩

/-- The loop of `Box::size_request` from index `i` on, with the running estimates
`e_width` and `e_height`; returns the final estimates and the updated cells. -/
def size_request_loop (enOrientation : orientation_t) (nSpacing : Int) :
    List cell_t → Nat → Int → Int → Int × Int × List cell_t
  | [], _, e_width, e_height => (e_width, e_height, [])
  | w :: ws, i, e_width, e_height =>
    if hidden_widget w then
      let rest := size_request_loop enOrientation nSpacing ws (i + 1) e_width e_height
      (rest.1, rest.2.1, w :: rest.2.2)
    else
      match w.pWidget with
      | none =>
        let rest := size_request_loop enOrientation nSpacing ws (i + 1) e_width e_height
        (rest.1, rest.2.1, { w with r := no_limits } :: rest.2.2)
      | some wd =>
        let w1 : cell_t := { w with r := wd.size_request, p := wd.padding }
        let x_width : Int := (w1.p.nLeft : Int) + (w1.p.nRight : Int)
        let x_height : Int := (w1.p.nTop : Int) + (w1.p.nBottom : Int)
        let x_width := if w1.r.nMinWidth ≥ 0 then x_width + w1.r.nMinWidth else x_width
        let x_height := if w1.r.nMinHeight ≥ 0 then x_height + w1.r.nMinHeight else x_height
        let est : Int × Int :=
          if enOrientation = orientation_t.O_HORIZONTAL then
            let e_height := if x_height > e_height then x_height else e_height
            let e_width := e_width + x_width
            let e_width := if i > 0 then e_width + nSpacing else e_width
            (e_width, e_height)
          else
            let e_width := if x_width > e_width then x_width else e_width
            let e_height := e_height + x_height
            let e_height := if i > 0 then e_height + nSpacing else e_height
            (e_width, e_height)
        let rest := size_request_loop enOrientation nSpacing ws (i + 1) est.1 est.2
        (rest.1, rest.2.1, w1 :: rest.2.2)

/-- The function `Box::size_request`: the limits written to `r` and the cells after
the call. -/
def size_request (enOrientation : orientation_t) (nSpacing : Int)
    (vItems : List cell_t) : size_limit_t × List cell_t :=
  if vItems.length ≤ 0 then (no_limits, vItems)
  else
    let res := size_request_loop enOrientation nSpacing vItems 0 0 0
    ({ no_limits with nMinWidth := res.1, nMinHeight := res.2.1 }, res.2.2)

/-- Primary-axis extent of the allocation of a cell: `w->a.nWidth` in a horizontal
box, `w->a.nHeight` in a vertical one. -/
def a_size (horizontal : Bool) (w : cell_t) : Int :=
  if horizontal then w.a.nWidth else w.a.nHeight

/-- The statement `w->a.nWidth += d` (horizontal) or `w->a.nHeight += d` (vertical). -/
def add_size (horizontal : Bool) (w : cell_t) (d : Int) : cell_t :=
  if horizontal then { w with a := { w.a with nWidth := w.a.nWidth + d } }
  else { w with a := { w.a with nHeight := w.a.nHeight + d } }

/-- Answer of `allocation()->hexpand()` (horizontal) or `allocation()->vexpand()`
(vertical) of the widget of a cell. -/
def expands (horizontal : Bool) (w : cell_t) : Bool :=
  match w.pWidget with
  | none => false
  | some wd => if horizontal then wd.hexpand else wd.vexpand

/-- Body of the first pass of `Box::allocate_proportional` for one cell: fetch limits
and padding, then set the allocation to padding plus minimum size on the primary axis
and to the extent of `r` on the other axis. The list of visible cells holds no cell
without a widget; such a cell is left as it is. -/
def first_pass_cell (horizontal : Bool) (r : rectangle_t) (w : cell_t) : cell_t :=
  match w.pWidget with
  | none => w
  | some wd =>
    let w1 : cell_t := { w with r := wd.get_size_limits, p := wd.get_padding }
    if horizontal then
      { w1 with a := { w1.a with
          nWidth := ((w1.p.nLeft : Int) + (w1.p.nRight : Int)) + lsp_max 0 w1.r.nMinWidth,
          nHeight := r.nHeight } }
    else
      { w1 with a := { w1.a with
          nHeight := ((w1.p.nTop : Int) + (w1.p.nBottom : Int)) + lsp_max 0 w1.r.nMinHeight,
          nWidth := r.nWidth } }

/-- First pass of `Box::allocate_proportional`: the loop over the visible cells with
the running values of `n_left`, `n_expand` and `expand.size()`. The array `expand`
holds pointers to cells of `visible`; it is represented by its size, its members being
the cells for which `expands` holds. -/
def first_pass (horizontal : Bool) (r : rectangle_t) :
    List cell_t → Int → Int → Nat → List cell_t × Int × Int × Nat
  | [], n_left, n_expand, n_exp => ([], n_left, n_expand, n_exp)
  | w :: ws, n_left, n_expand, n_exp =>
    let w1 := first_pass_cell horizontal r w
    let n_left := n_left - a_size horizontal w1
    let rest :=
      if expands horizontal w1 then
        first_pass horizontal r ws n_left (n_expand + a_size horizontal w1) (n_exp + 1)
      else
        first_pass horizontal r ws n_left n_expand n_exp
    (w1 :: rest.1, rest.2)

/-- Second pass, no expanding widget: every visible cell grows by
`(size * n_left) / n_size`; returns the cells and the running `total`. -/
def split_all (horizontal : Bool) (n_left n_size : Int) :
    List cell_t → Int → List cell_t × Int
  | [], total => ([], total)
  | w :: ws, total =>
    let delta := (a_size horizontal w * n_left) / n_size
    let rest := split_all horizontal n_left n_size ws (total + delta)
    (add_size horizontal w delta :: rest.1, rest.2)

/-- Second pass, `n_expand == 0`: every expanding cell grows by the same `delta`. -/
def split_even (horizontal : Bool) (delta : Int) :
    List cell_t → Int → List cell_t × Int
  | [], total => ([], total)
  | w :: ws, total =>
    if expands horizontal w then
      let rest := split_even horizontal delta ws (total + delta)
      (add_size horizontal w delta :: rest.1, rest.2)
    else
      let rest := split_even horizontal delta ws total
      (w :: rest.1, rest.2)

/-- Second pass, otherwise: every expanding cell grows by
`(size * n_left) / n_expand`. -/
def split_expand (horizontal : Bool) (n_left n_expand : Int) :
    List cell_t → Int → List cell_t × Int
  | [], total => ([], total)
  | w :: ws, total =>
    if expands horizontal w then
      let delta := (a_size horizontal w * n_left) / n_expand
      let rest := split_expand horizontal n_left n_expand ws (total + delta)
      (add_size horizontal w delta :: rest.1, rest.2)
    else
      let rest := split_expand horizontal n_left n_expand ws total
      (w :: rest.1, rest.2)

/-- Second pass of `Box::allocate_proportional`: returns the cells and the new value
of `n_left`. -/
def second_pass (horizontal : Bool) (n_size : Int) (cells : List cell_t)
    (n_left n_expand : Int) (n_exp : Nat) : List cell_t × Int :=
  if n_left > 0 then
    let res :=
      if n_exp = 0 then split_all horizontal n_left n_size cells 0
      else if n_expand = 0 then split_even horizontal (n_left / (n_exp : Int)) cells 0
      else split_expand horizontal n_left n_expand cells 0
    (res.1, n_left - res.2)
  else (cells, n_left)

/-- The inner `for` loop of the fourth pass: each cell grows by one pixel, and the
loop is left after the cell at which `(n_left--) <= 0` holds. -/
def hand_out (horizontal : Bool) : List cell_t → Int → List cell_t × Int
  | [], n_left => ([], n_left)
  | w :: ws, n_left =>
    let w1 := add_size horizontal w 1
    if n_left ≤ 0 then (w1 :: ws, n_left - 1)
    else
      let rest := hand_out horizontal ws (n_left - 1)
      (w1 :: rest.1, rest.2)

/-- The loop `while (n_left > 0)` of the fourth pass, run for at most `fuel` rounds;
`none` when the rounds do not suffice. -/
def fourth_pass (horizontal : Bool) : Nat → List cell_t → Int → Option (List cell_t × Int)
  | fuel, cells, n_left =>
    if n_left > 0 then
      match fuel with
      | 0 => none
      | fuel + 1 =>
        let res := hand_out horizontal cells n_left
        fourth_pass horizontal fuel res.1 res.2
    else some (cells, n_left)

/-- The last loop of `Box::allocate_proportional`: positions from the cursors `l` and
`t`, the realized area by `Padding::enter` (not part of the embedded sources, taken as
the parameter `enter`), and the spacing added to every cell but the last. -/
def geometry_pass (enter : rectangle_t → padding_t → rectangle_t) (horizontal : Bool)
    (spacing : Int) : List cell_t → Int → Int → List cell_t
  | [], _, _ => []
  | w :: ws, l, t =>
    let w1 : cell_t := { w with a := { w.a with nLeft := l, nTop := t } }
    let w2 : cell_t := { w1 with s := enter w1.a w1.p }
    if horizontal then
      let w3 := if ws.length > 0 then add_size true w2 spacing else w2
      w3 :: geometry_pass enter horizontal spacing ws (l + w3.a.nWidth) t
    else
      let w3 := if ws.length > 0 then add_size false w2 spacing else w2
      w3 :: geometry_pass enter horizontal spacing ws l (t + w3.a.nHeight)

/-- The cells of `Box::allocate_proportional` after the fourth pass, before positions
and spacing are applied. `spacing` is the scaled spacing, `horizontal` the answer of
`sOrientation.horizontal()`. `expand.add` is taken to succeed. The result is `none`
when the loop of the fourth pass does not end. -/
def allocate_sizes (horizontal : Bool) (spacing : Int) (r : rectangle_t)
    (visible : List cell_t) : Option (List cell_t × Int) :=
  let n_left : Int := (if horizontal then r.nWidth else r.nHeight)
    - spacing * ((visible.length : Int) - 1)
  let n_size := n_left
  let p1 := first_pass horizontal r visible n_left 0 0
  let p2 := second_pass horizontal n_size p1.1 p1.2.1 p1.2.2.1 p1.2.2.2
  fourth_pass horizontal p2.2.toNat p2.1 p2.2

/-- The function `Box::allocate_proportional`: the status and the cells after the
call, `none` when the call does not return. -/
def allocate_proportional (enter : rectangle_t → padding_t → rectangle_t)
    (horizontal : Bool) (spacing : Int) (r : rectangle_t) (visible : List cell_t) :
    Option (status_t × List cell_t) :=
  match allocate_sizes horizontal spacing r visible with
  | none => none
  | some p4 =>
    some (status_t.STATUS_OK, geometry_pass enter horizontal spacing p4.1 r.nLeft r.nTop)

/-- Sum of the primary-axis extents of the allocations of a list of cells. -/
def total_size (horizontal : Bool) (cells : List cell_t) : Int :=
  (cells.map (a_size horizontal)).sum

/-! ## Rectangle.cpp -/

/-- The string class `LSPString`, as the list of its characters. -/
abbrev LSPString := List Char

/-- The character of a decimal digit. -/
def digit_char (d : Nat) : Char := Char.ofNat (48 + d)

/-- Decimal digits of `n`, most significant first, without leading zeros; `fuel`
bounds the number of digits. -/
def fmt_digits : Nat → Nat → LSPString
  | 0, _ => []
  | fuel + 1, n =>
    if n < 10 then [digit_char n]
    else fmt_digits fuel (n / 10) ++ [digit_char (n % 10)]

/-- The conversion `%ld` of `fmt_ascii` (the `printf` conversion of the C library):
the decimal digits of the value, preceded by a minus sign when it is negative. -/
def fmt_long (v : Int) : LSPString :=
  if v < 0 then '-' :: fmt_digits (v.natAbs + 1) v.natAbs
  else fmt_digits (v.natAbs + 1) v.natAbs

/-- The call `s.fmt_ascii("%ld %ld %ld %ld", left, top, width, height)`. -/
def fmt_rect (r : rectangle_t) : LSPString :=
  fmt_long r.nLeft ++ (' ' :: (fmt_long r.nTop ++ (' ' :: (fmt_long r.nWidth
    ++ (' ' :: fmt_long r.nHeight)))))

/-- A value held by a style under an atom: an integer (`PT_INT`) or a string
(`PT_STRING`). -/
inductive property_value_t
  | PT_INT (v : Int)
  | PT_STRING (s : LSPString)
  deriving DecidableEq, Repr

/-- Modelled from the spec: the style node (`Style`, not part of the embedded sources),
"mapping name→property_value". Names are atoms; a node maps an atom to the value it
holds, if any. -/
structure Style where
  values : Int → Option property_value_t

/-- Modelled from the spec: `Style::set_int` (not part of the embedded sources) stores
an integer under the atom. -/
def Style.set_int (st : Style) (id : Int) (v : Int) : Style :=
  ⟨fun a => if a = id then some (property_value_t.PT_INT v) else st.values a⟩

/-- Modelled from the spec: `Style::set_string` (not part of the embedded sources)
stores a string under the atom. -/
def Style.set_string (st : Style) (id : Int) (s : LSPString) : Style :=
  ⟨fun a => if a = id then some (property_value_t.PT_STRING s) else st.values a⟩

/-- Modelled from the spec: `Style::get_int` (not part of the embedded sources) reads
the integer held under the atom; `none` stands for a status other than `STATUS_OK`. -/
def Style.get_int (st : Style) (id : Int) : Option Int :=
  match st.values id with
  | some (property_value_t.PT_INT v) => some v
  | _ => none

/-- Modelled from the spec: `Style::get_string` (not part of the embedded sources)
reads the string held under the atom; `none` stands for a status other than
`STATUS_OK`. -/
def Style.get_string (st : Style) (id : Int) : Option LSPString :=
  match st.values id with
  | some (property_value_t.PT_STRING s) => some s
  | _ => none

/-- The array `vAtoms` of a rectangle property, indexed as `DESC`: the packed value
and the four components. An atom is negative while the property is not bound. -/
structure atoms_t where
  P_VALUE : Int
  P_LEFT : Int
  P_TOP : Int
  P_WIDTH : Int
  P_HEIGHT : Int
  deriving DecidableEq, Repr

/-- The property `Rectangle`: whether it is bound to a style (`pStyle != NULL`), its
atoms and the rectangle it holds. The style it is bound to is passed to the
operations and returned by them. -/
structure Rectangle where
  bound : Bool
  vAtoms : atoms_t
  sRect : rectangle_t
  deriving DecidableEq, Repr

/-- State after the constructor `Rectangle::Rectangle`, for the given binding. -/
def Rectangle.ctor (bound : Bool) (vAtoms : atoms_t) : Rectangle :=
  ⟨bound, vAtoms, ⟨0, 0, 0, 0⟩⟩

/-- The function `Rectangle::commit`. `parse_ints` is `Property::parse_ints` (not part
of the embedded sources): `parse_ints 4 s` is the list of the `n` integers it stores
into `v`. -/
def Rectangle.commit (parse_ints : Nat → LSPString → List Int) (R : Rectangle)
    (st : Style) (property : Int) : Rectangle :=
  if !R.bound || property < 0 then R
  else
    let R1 : Rectangle :=
      if property = R.vAtoms.P_LEFT then
        match st.get_int R.vAtoms.P_LEFT with
        | some v => { R with sRect := { R.sRect with nLeft := v } }
        | none => R
      else R
    let R2 : Rectangle :=
      if property = R1.vAtoms.P_TOP then
        match st.get_int R1.vAtoms.P_TOP with
        | some v => { R1 with sRect := { R1.sRect with nTop := v } }
        | none => R1
      else R1
    let R3 : Rectangle :=
      if property = R2.vAtoms.P_WIDTH then
        match st.get_int R2.vAtoms.P_WIDTH with
        | some v => { R2 with sRect := { R2.sRect with nWidth := lsp_max 0 v } }
        | none => R2
      else R2
    let R4 : Rectangle :=
      if property = R3.vAtoms.P_HEIGHT then
        match st.get_int R3.vAtoms.P_HEIGHT with
        | some v => { R3 with sRect := { R3.sRect with nHeight := lsp_max 0 v } }
        | none => R3
      else R3
    if property = R4.vAtoms.P_VALUE then
      match st.get_string R4.vAtoms.P_VALUE with
      | some s =>
        match parse_ints 4 s with
        | [v0, v1] => { R4 with sRect := ⟨0, 0, lsp_max 0 v0, lsp_max 0 v1⟩ }
        | [v0, v1, v2, v3] => { R4 with sRect := ⟨v0, v1, lsp_max 0 v2, lsp_max 0 v3⟩ }
        | _ => R4
      | none => R4
    else R4

/-- The function `Rectangle::sync`: the style after the call. -/
def Rectangle.sync (R : Rectangle) (st : Style) : Style :=
  if R.bound then
    let st1 := if R.vAtoms.P_LEFT ≥ 0 then st.set_int R.vAtoms.P_LEFT R.sRect.nLeft else st
    let st2 := if R.vAtoms.P_TOP ≥ 0 then st1.set_int R.vAtoms.P_TOP R.sRect.nTop else st1
    let st3 :=
      if R.vAtoms.P_WIDTH ≥ 0 then st2.set_int R.vAtoms.P_WIDTH R.sRect.nWidth else st2
    let st4 :=
      if R.vAtoms.P_HEIGHT ≥ 0 then st3.set_int R.vAtoms.P_HEIGHT R.sRect.nHeight else st3
    let s := fmt_rect R.sRect
    if R.vAtoms.P_VALUE ≥ 0 then st4.set_string R.vAtoms.P_VALUE s else st4
  else st

/-- The function `Rectangle::set_left`: the property and the style after the call. -/
def Rectangle.set_left (R : Rectangle) (st : Style) (v : Int) : Rectangle × Style :=
  let old := R.sRect.nLeft
  if old = v then (R, st)
  else
    let R1 : Rectangle := { R with sRect := { R.sRect with nLeft := v } }
    (R1, R1.sync st)

/-- The function `Rectangle::set_top`. -/
def Rectangle.set_top (R : Rectangle) (st : Style) (v : Int) : Rectangle × Style :=
  let old := R.sRect.nTop
  if old = v then (R, st)
  else
    let R1 : Rectangle := { R with sRect := { R.sRect with nTop := v } }
    (R1, R1.sync st)

/-- The function `Rectangle::set_width`. -/
def Rectangle.set_width (R : Rectangle) (st : Style) (v : Int) : Rectangle × Style :=
  let old := R.sRect.nWidth
  if old = v then (R, st)
  else
    let R1 : Rectangle := { R with sRect := { R.sRect with nWidth := v } }
    (R1, R1.sync st)

/-- The function `Rectangle::set_height`. -/
def Rectangle.set_height (R : Rectangle) (st : Style) (v : Int) : Rectangle × Style :=
  let old := R.sRect.nHeight
  if old = v then (R, st)
  else
    let R1 : Rectangle := { R with sRect := { R.sRect with nHeight := v } }
    (R1, R1.sync st)

/-- The function `Rectangle::set_position`. -/
def Rectangle.set_position (R : Rectangle) (st : Style) (left top : Int) :
    Rectangle × Style :=
  if R.sRect.nLeft = left ∧ R.sRect.nTop = top then (R, st)
  else
    let R1 : Rectangle := { R with sRect := { R.sRect with nLeft := left, nTop := top } }
    (R1, R1.sync st)

/-- The function `Rectangle::set_size`. -/
def Rectangle.set_size (R : Rectangle) (st : Style) (width height : Int) :
    Rectangle × Style :=
  let width := lsp_max 0 width
  let height := lsp_max 0 height
  if R.sRect.nWidth = width ∧ R.sRect.nHeight = height then (R, st)
  else
    let R1 : Rectangle :=
      { R with sRect := { R.sRect with nWidth := width, nHeight := height } }
    (R1, R1.sync st)

/-- The function `Rectangle::set(left, top, width, height)`. -/
def Rectangle.set (R : Rectangle) (st : Style) (left top width height : Int) :
    Rectangle × Style :=
  let width := lsp_max 0 width
  let height := lsp_max 0 height
  if R.sRect.nLeft = left ∧ R.sRect.nTop = top ∧ R.sRect.nWidth = width
      ∧ R.sRect.nHeight = height then (R, st)
  else
    let R1 : Rectangle := { R with sRect := ⟨left, top, width, height⟩ }
    (R1, R1.sync st)

/-- The function `Rectangle::set(const ws::rectangle_t *r)`. -/
def Rectangle.set_rect (R : Rectangle) (st : Style) (r : rectangle_t) :
    Rectangle × Style :=
  let width := lsp_max 0 r.nWidth
  let height := lsp_max 0 r.nHeight
  if R.sRect.nLeft = r.nLeft ∧ R.sRect.nTop = r.nTop ∧ R.sRect.nWidth = width
      ∧ R.sRect.nHeight = height then (R, st)
  else
    let R1 : Rectangle := { R with sRect := ⟨r.nLeft, r.nTop, width, height⟩ }
    (R1, R1.sync st)

/-- The value of a decimal digit character, `none` for any other character. -/
def digit_value (c : Char) : Option Nat :=
  if 48 ≤ c.toNat ∧ c.toNat ≤ 57 then some (c.toNat - 48) else none

/-- Reads a run of decimal digits, continuing the value `acc`; `none` when a character
is not a digit. -/
def parse_digits : Nat → LSPString → Option Nat
  | acc, [] => some acc
  | acc, c :: cs =>
    match digit_value c with
    | some d => parse_digits (acc * 10 + d) cs
    | none => none

/-- Reads one integer: an optional minus sign followed by at least one digit. -/
def parse_long : LSPString → Option Int
  | [] => none
  | c :: cs =>
    if c = '-' then
      if cs = [] then none
      else
        match parse_digits 0 cs with
        | some n => some (-(n : Int))
        | none => none
    else
      match parse_digits 0 (c :: cs) with
      | some n => some (n : Int)
      | none => none

/-- Splits a string at spaces; `cur` is the token being read, in reverse. Empty
tokens are dropped. -/
def split_spaces : LSPString → LSPString → List LSPString
  | cur, [] => if cur = [] then [] else [cur.reverse]
  | cur, c :: cs =>
    if c = ' ' then
      if cur = [] then split_spaces [] cs else cur.reverse :: split_spaces [] cs
    else split_spaces (c :: cur) cs

/-- Reads every token as an integer; `none` when one of them is not an integer. -/
def parse_tokens : List LSPString → Option (List Int)
  | [] => some []
  | t :: ts =>
    match parse_long t, parse_tokens ts with
    | some v, some vs => some (v :: vs)
    | _, _ => none

/-- Modelled from the spec: `Property::parse_ints` (not part of the embedded sources),
the parser of "the packed string" whose result "fans out to all sub-components". The
string is a sequence of decimal integers separated by spaces; the result is the list of
the integers read, and it is empty when there are more than `max` of them or when a
token is not an integer. -/
def parse_ints (max : Nat) (s : LSPString) : List Int :=
  let tokens := split_spaces [] s
  if tokens.length > max then []
  else
    match parse_tokens tokens with
    | some vs => vs
    | none => []

/-! ## SlotSet.cpp -/

/-- The structure `SlotSet::item_t`: the slot identifier `nType` and the slot `sSlot`.
The class `Slot` is not part of the embedded sources; `σ` is the type of its states. -/
structure item_t (σ : Type) where
  nType : Int
  sSlot : σ
  deriving DecidableEq, Repr

/-- What `SlotSet.cpp` uses of declarations outside the embedded sources: the state
of a freshly constructed `Slot`, the function `Slot::bind` (handler, argument and
enabled flag to the handler identifier and the new state of the slot) and the numeric
values of the status codes. -/
structure slot_api (σ : Type) where
  new_slot : σ
  bind : σ → Nat → Nat → Bool → Int × σ
  code : status_t → Int

/-- How the binary search loop of `SlotSet::slot` and `SlotSet::add` is left. -/
inductive search_t
  /-- The loop returned at index `idx`, where the identifier is stored. -/
  | found (idx : Int)
  /-- The loop ended with `first > last`. -/
  | absent (first : Int)
  /-- The loop read outside the array. -/
  | fault
  /-- The loop did not end within the given number of rounds. -/
  | timeout
  deriving DecidableEq, Repr

/-- The loop `while (first <= last)` shared by `SlotSet::slot` and both overloads of
`SlotSet::add`, run for at most `fuel` rounds. `(first + last) >> 1` is the floor of
the half. -/
def search {σ : Type} (vSlots : List (item_t σ)) (id : Int) :
    Nat → Int → Int → search_t
  | fuel, first, last =>
    if first ≤ last then
      match fuel with
      | 0 => search_t.timeout
      | fuel + 1 =>
        let idx : Int := (first + last) / 2
        if idx < 0 then search_t.fault
        else
          match vSlots.get? idx.toNat with
          | none => search_t.fault
          | some ptr =>
            if ptr.nType = id then search_t.found idx
            else if ptr.nType < id then search vSlots id fuel (idx + 1) last
            else search vSlots id fuel first (idx - 1)
    else search_t.absent first

/-- The search as the three functions start it: `first = 0`, `last = size - 1`. The
number of rounds allowed is the size of the array, which always suffices. -/
def find_slot {σ : Type} (vSlots : List (item_t σ)) (id : Int) : search_t :=
  search vSlots id vSlots.length 0 ((vSlots.length : Int) - 1)

/-- What a call returning `Slot *` yields: a fault of the search, `NULL`, or the
address of the slot of an item of the array. -/
inductive slot_ptr (σ : Type)
  | fault
  | null
  | slot (item : item_t σ)
  deriving DecidableEq, Repr

/-- The function `SlotSet::slot`. -/
def SlotSet.slot {σ : Type} (vSlots : List (item_t σ)) (id : Int) : slot_ptr σ :=
  match find_slot vSlots id with
  | search_t.found idx =>
    match vSlots.get? idx.toNat with
    | some ptr => slot_ptr.slot ptr
    | none => slot_ptr.fault
  | search_t.absent _ => slot_ptr.null
  | _ => slot_ptr.fault

/-- The call `vSlots.insert(first, ptr)` when it succeeds. -/
def insert_at {σ : Type} (vSlots : List (item_t σ)) (first : Nat) (ptr : item_t σ) :
    List (item_t σ) :=
  vSlots.take first ++ ptr :: vSlots.drop first

/-- The function `SlotSet::add(slot_t id)`: the returned pointer and the array after
the call. `alloc` tells whether `new item_t` succeeds and `ins` whether
`vSlots.insert` does. -/
def SlotSet.add {σ : Type} (api : slot_api σ) (vSlots : List (item_t σ)) (id : Int)
    (alloc ins : Bool) : slot_ptr σ × List (item_t σ) :=
  match find_slot vSlots id with
  | search_t.found idx =>
    match vSlots.get? idx.toNat with
    | some ptr => (slot_ptr.slot ptr, vSlots)
    | none => (slot_ptr.fault, vSlots)
  | search_t.absent first =>
    if !alloc then (slot_ptr.null, vSlots)
    else
      let ptr : item_t σ := ⟨id, api.new_slot⟩
      if !ins ∨ first < 0 ∨ first > vSlots.length then (slot_ptr.null, vSlots)
      else (slot_ptr.slot ptr, insert_at vSlots first.toNat ptr)
  | _ => (slot_ptr.fault, vSlots)

/-- The function `SlotSet::add(slot_t id, event_handler_t handler, void *arg,
bool enabled)`: the returned handler identifier (`none` for a fault of the search) and
the array after the call. A handler is the address of a function, `none` for `NULL`. -/
def SlotSet.add_handler {σ : Type} (api : slot_api σ) (vSlots : List (item_t σ))
    (id : Int) (handler : Option Nat) (arg : Nat) (enabled : Bool) (alloc ins : Bool) :
    Option Int × List (item_t σ) :=
  match handler with
  | none => (some (-(api.code status_t.STATUS_BAD_ARGUMENTS)), vSlots)
  | some h =>
    match find_slot vSlots id with
    | search_t.found idx =>
      match vSlots.get? idx.toNat with
      | some ptr =>
        let res := api.bind ptr.sSlot h arg enabled
        (some res.1, vSlots.set idx.toNat { ptr with sSlot := res.2 })
      | none => (none, vSlots)
    | search_t.absent first =>
      if !alloc then (some 0, vSlots)
      else
        let res := api.bind api.new_slot h arg enabled
        let ptr : item_t σ := ⟨id, res.2⟩
        let hid := res.1
        if hid < 0 then (some hid, vSlots)
        else if !ins ∨ first < 0 ∨ first > vSlots.length then
          (some (-(api.code status_t.STATUS_NO_MEM)), vSlots)
        else (some hid, insert_at vSlots first.toNat ptr)
    | _ => (none, vSlots)

/-- One call on a slot set: either overload of `add`, with its arguments and the
outcome of the allocations made during the call. -/
inductive slot_call
  | add (id : Int) (alloc ins : Bool)
  | add_handler (id : Int) (handler : Option Nat) (arg : Nat) (enabled : Bool)
      (alloc ins : Bool)
  deriving DecidableEq, Repr

/-- The array after one call. -/
def SlotSet.step {σ : Type} (api : slot_api σ) (vSlots : List (item_t σ)) :
    slot_call → List (item_t σ)
  | slot_call.add id alloc ins => (SlotSet.add api vSlots id alloc ins).2
  | slot_call.add_handler id handler arg enabled alloc ins =>
    (SlotSet.add_handler api vSlots id handler arg enabled alloc ins).2

/-- The array after a sequence of calls, first call first. -/
def SlotSet.run {σ : Type} (api : slot_api σ) :
    List (item_t σ) → List slot_call → List (item_t σ)
  | vSlots, [] => vSlots
  | vSlots, c :: cs => SlotSet.run api (SlotSet.step api vSlots c) cs

/-- The identifiers stored in the array, in array order. -/
def slot_ids {σ : Type} (vSlots : List (item_t σ)) : List Int :=
  vSlots.map (fun it => it.nType)

/-! ## Data used in the scenarios -/

/-- A child that asks for the minimum size `min_w` by `min_h`, has no padding and
does not expand. -/
def plain_widget (id : Nat) (visible : Bool) (min_w min_h : Int) : Widget :=
  { id := id, visible := visible,
    size_request := ⟨min_w, min_h, -1, -1⟩, padding := ⟨0, 0, 0, 0⟩,
    get_size_limits := ⟨min_w, min_h, -1, -1⟩, get_padding := ⟨0, 0, 0, 0⟩,
    hexpand := false, vexpand := false }

/-- The cell `Box::add` creates for a widget. -/
def new_cell (widget : Option Widget) : cell_t :=
  { r := ⟨-1, -1, -1, -1⟩, a := ⟨0, 0, 0, 0⟩, s := ⟨0, 0, 0, 0⟩, p := ⟨0, 0, 0, 0⟩,
    pWidget := widget }

/-- Three visible children of minimum size 32 by 32. -/
def three_children : List cell_t :=
  [new_cell (some (plain_widget 1 true 32 32)), new_cell (some (plain_widget 2 true 32 32)),
   new_cell (some (plain_widget 3 true 32 32))]

/-- What a visible child asks for on the horizontal axis: its left and right padding
plus its minimum width, when that is not negative. -/
def req_width (w : cell_t) : Int :=
  match w.pWidget with
  | none => 0
  | some wd => ((wd.padding.nLeft : Int) + (wd.padding.nRight : Int))
      + max 0 wd.size_request.nMinWidth

/-- What a visible child asks for on the vertical axis. -/
def req_height (w : cell_t) : Int :=
  match w.pWidget with
  | none => 0
  | some wd => ((wd.padding.nTop : Int) + (wd.padding.nBottom : Int))
      + max 0 wd.size_request.nMinHeight

/-! ## Rectangle: calls and what the style holds -/

/-- The property is bound: it has a style, and its five atoms are valid (not
negative) and pairwise different, as the atoms of five different names are. -/
def Rectangle.is_bound (R : Rectangle) : Prop :=
  R.bound = true
    ∧ [R.vAtoms.P_VALUE, R.vAtoms.P_LEFT, R.vAtoms.P_TOP, R.vAtoms.P_WIDTH,
        R.vAtoms.P_HEIGHT].Nodup
    ∧ ∀ a ∈ [R.vAtoms.P_VALUE, R.vAtoms.P_LEFT, R.vAtoms.P_TOP, R.vAtoms.P_WIDTH,
        R.vAtoms.P_HEIGHT], 0 ≤ a

instance (R : Rectangle) : Decidable R.is_bound := by
  unfold Rectangle.is_bound
  infer_instance

/-- The style holds the rectangle of the property: the four components as integers
and the packed string `"left top width height"`. -/
def Style.holds (st : Style) (R : Rectangle) : Prop :=
  st.get_int R.vAtoms.P_LEFT = some R.sRect.nLeft
    ∧ st.get_int R.vAtoms.P_TOP = some R.sRect.nTop
    ∧ st.get_int R.vAtoms.P_WIDTH = some R.sRect.nWidth
    ∧ st.get_int R.vAtoms.P_HEIGHT = some R.sRect.nHeight
    ∧ st.get_string R.vAtoms.P_VALUE = some (fmt_rect R.sRect)

/-- A call of one of the setters of `Rectangle`, with its arguments. -/
inductive rect_call
  | set_left (v : Int)
  | set_top (v : Int)
  | set_width (v : Int)
  | set_height (v : Int)
  | set_position (left top : Int)
  | set_size (width height : Int)
  | set (left top width height : Int)
  | set_rect (r : rectangle_t)
  deriving DecidableEq, Repr

/-- The property and the style after a call of a setter. -/
def Rectangle.call (R : Rectangle) (st : Style) : rect_call → Rectangle × Style
  | rect_call.set_left v => R.set_left st v
  | rect_call.set_top v => R.set_top st v
  | rect_call.set_width v => R.set_width st v
  | rect_call.set_height v => R.set_height st v
  | rect_call.set_position left top => R.set_position st left top
  | rect_call.set_size width height => R.set_size st width height
  | rect_call.set left top width height => R.set st left top width height
  | rect_call.set_rect r => R.set_rect st r

/-- The arguments of the call are the values the property already stores. -/
def rect_call.stored (R : Rectangle) : rect_call → Prop
  | rect_call.set_left v => v = R.sRect.nLeft
  | rect_call.set_top v => v = R.sRect.nTop
  | rect_call.set_width v => v = R.sRect.nWidth
  | rect_call.set_height v => v = R.sRect.nHeight
  | rect_call.set_position left top => left = R.sRect.nLeft ∧ top = R.sRect.nTop
  | rect_call.set_size width height => width = R.sRect.nWidth ∧ height = R.sRect.nHeight
  | rect_call.set left top width height =>
    left = R.sRect.nLeft ∧ top = R.sRect.nTop ∧ width = R.sRect.nWidth
      ∧ height = R.sRect.nHeight
  | rect_call.set_rect r => r = R.sRect

/-- The setters that replace a negative width or height argument by zero before they
compare it with the stored value: `set_size` and both overloads of `set`. -/
def rect_call.clamps : rect_call → Bool
  | rect_call.set_size _ _ => true
  | rect_call.set _ _ _ _ => true
  | rect_call.set_rect _ => true
  | _ => false

/-- The style that holds nothing. -/
def Style.empty : Style := ⟨fun _ => none⟩

/-- Atoms of a bound rectangle property, as used in the scenarios. -/
def example_atoms : atoms_t := ⟨0, 1, 2, 3, 4⟩

/-- A bound rectangle property after the constructor and the call `set_width(-5)`,
with the style it is bound to. -/
def negative_width_example : Rectangle × Style :=
  (Rectangle.ctor true example_atoms).set_width Style.empty (-5)

/-! ## SlotSet: the order of the array -/

/-- The array is sorted by identifier, strictly: every identifier is smaller than
all the identifiers stored after it. -/
def slots_sorted {σ : Type} (vSlots : List (item_t σ)) : Prop :=
  (slot_ids vSlots).Pairwise (fun a b => a < b)

/-- A slot set over slots that count their handlers: `bind` answers the number of
handlers bound before as handler identifier. Used in the scenarios. -/
def counting_api : slot_api Nat :=
  { new_slot := 0, bind := fun s _ _ _ => ((s : Int), s + 1), code := fun _ => 1 }

/-- What the search guarantees on a sorted array: either it returns at an index
holding the identifier, or it ends at a position with only smaller identifiers in front
and only larger ones from there on. -/
def search_ok {σ : Type} (v : List (item_t σ)) (id : Int) (res : search_t) : Prop :=
  (∃ (k : Nat) (p : item_t σ), res = search_t.found (k : Int) ∧ v.get? k = some p
      ∧ p.nType = id)
    ∨ (∃ f : Nat, res = search_t.absent (f : Int) ∧ f ≤ v.length
      ∧ (∀ it ∈ v.take f, it.nType < id) ∧ (∀ it ∈ v.drop f, id < it.nType))

/-! ## SlotSet.cpp: the calls that look a slot up -/

/-- The methods of `Slot` (not part of the embedded sources) that the functions of
`SlotSet` other than `add` call on the slot they find: each takes the state of the
slot and the arguments of the call and gives the returned value and the new state. A
handler is the address of a function, `none` for `NULL`. -/
structure slot_methods (σ : Type) where
  bind : σ → Option Nat → Nat → Bool → Int × σ
  intercept : σ → Option Nat → Nat → Bool → Int × σ
  unbind_id : σ → Int → Int × σ
  unbind : σ → Option Nat → Nat → Int × σ
  unbind_all : σ → Int × σ
  disable : σ → Int → Int × σ
  disable_all : σ → Int × σ
  enable : σ → Int → Int × σ
  enable_all : σ → Int × σ
  execute : σ → Nat → Nat → Int × σ

/-- The pattern `Slot *s = slot(id); return (s == NULL) ? null_value : s->method(...)`:
the returned value (`none` for a fault of the search) and the array after the call, in
which the slot found carries its new state. -/
def SlotSet.on_slot {σ : Type} (vSlots : List (item_t σ)) (id : Int) (null_value : Int)
    (method : σ → Int × σ) : Option Int × List (item_t σ) :=
  match find_slot vSlots id with
  | search_t.found idx =>
    match vSlots.get? idx.toNat with
    | some ptr =>
      let res := method ptr.sSlot
      (some res.1, vSlots.set idx.toNat { ptr with sSlot := res.2 })
    | none => (none, vSlots)
  | search_t.absent _ => (some null_value, vSlots)
  | _ => (none, vSlots)

/-- The function `SlotSet::bind`. -/
def SlotSet.bind {σ : Type} (api : slot_api σ) (m : slot_methods σ)
    (vSlots : List (item_t σ)) (id : Int) (handler : Option Nat) (arg : Nat)
    (enabled : Bool) : Option Int × List (item_t σ) :=
  SlotSet.on_slot vSlots id (-(api.code status_t.STATUS_NOT_FOUND))
    (fun s => m.bind s handler arg enabled)

/-- The function `SlotSet::intercept`. -/
def SlotSet.intercept {σ : Type} (api : slot_api σ) (m : slot_methods σ)
    (vSlots : List (item_t σ)) (id : Int) (handler : Option Nat) (arg : Nat)
    (enabled : Bool) : Option Int × List (item_t σ) :=
  SlotSet.on_slot vSlots id (-(api.code status_t.STATUS_NOT_FOUND))
    (fun s => m.intercept s handler arg enabled)

/-- The function `SlotSet::unbind(slot_t id, handler_id_t handler)`. -/
def SlotSet.unbind_id {σ : Type} (api : slot_api σ) (m : slot_methods σ)
    (vSlots : List (item_t σ)) (id : Int) (handler : Int) :
    Option Int × List (item_t σ) :=
  SlotSet.on_slot vSlots id (api.code status_t.STATUS_NOT_FOUND)
    (fun s => m.unbind_id s handler)

/-- The function `SlotSet::unbind(slot_t id, event_handler_t handler, void *arg)`. -/
def SlotSet.unbind {σ : Type} (api : slot_api σ) (m : slot_methods σ)
    (vSlots : List (item_t σ)) (id : Int) (handler : Option Nat) (arg : Nat) :
    Option Int × List (item_t σ) :=
  SlotSet.on_slot vSlots id (-(api.code status_t.STATUS_NOT_FOUND))
    (fun s => m.unbind s handler arg)

/-- The function `SlotSet::unbind_all`. -/
def SlotSet.unbind_all {σ : Type} (m : slot_methods σ) (vSlots : List (item_t σ))
    (id : Int) : Option Int × List (item_t σ) :=
  SlotSet.on_slot vSlots id 0 (fun s => m.unbind_all s)

/-- The function `SlotSet::disable`. -/
def SlotSet.disable {σ : Type} (api : slot_api σ) (m : slot_methods σ)
    (vSlots : List (item_t σ)) (id : Int) (handler : Int) :
    Option Int × List (item_t σ) :=
  SlotSet.on_slot vSlots id (api.code status_t.STATUS_NOT_FOUND)
    (fun s => m.disable s handler)

/-- The function `SlotSet::disable_all`. -/
def SlotSet.disable_all {σ : Type} (m : slot_methods σ) (vSlots : List (item_t σ))
    (id : Int) : Option Int × List (item_t σ) :=
  SlotSet.on_slot vSlots id 0 (fun s => m.disable_all s)

/-- The function `SlotSet::enable`. -/
def SlotSet.enable {σ : Type} (api : slot_api σ) (m : slot_methods σ)
    (vSlots : List (item_t σ)) (id : Int) (handler : Int) :
    Option Int × List (item_t σ) :=
  SlotSet.on_slot vSlots id (api.code status_t.STATUS_NOT_FOUND)
    (fun s => m.enable s handler)

/-- The function `SlotSet::enable_all`. -/
def SlotSet.enable_all {σ : Type} (m : slot_methods σ) (vSlots : List (item_t σ))
    (id : Int) : Option Int × List (item_t σ) :=
  SlotSet.on_slot vSlots id 0 (fun s => m.enable_all s)

/-- The function `SlotSet::execute`; `sender` and `data` are addresses. -/
def SlotSet.execute {σ : Type} (api : slot_api σ) (m : slot_methods σ)
    (vSlots : List (item_t σ)) (id : Int) (sender data : Nat) :
    Option Int × List (item_t σ) :=
  SlotSet.on_slot vSlots id (api.code status_t.STATUS_NOT_FOUND)
    (fun s => m.execute s sender data)

/-- Methods of the counting slots of `counting_api`: every method answers the number
of handlers and leaves the slot as it is, except `bind` and `intercept`, which count
one more handler. Used in the scenarios. -/
def counting_methods : slot_methods Nat :=
  { bind := fun s _ _ _ => ((s : Int), s + 1),
    intercept := fun s _ _ _ => ((s : Int), s + 1),
    unbind_id := fun s _ => ((s : Int), s),
    unbind := fun s _ _ => ((s : Int), s),
    unbind_all := fun s => ((s : Int), s),
    disable := fun s _ => ((s : Int), s),
    disable_all := fun s => ((s : Int), s),
    enable := fun s _ => ((s : Int), s),
    enable_all := fun s => ((s : Int), s),
    execute := fun s _ _ => ((s : Int), s) }

/-! ## Box.cpp: the list of children -/

/-- A box with the part of the widget tree its functions touch: the identity of the
box (`this`), its array of cells and, for every widget (by identity), the parent the
widget records, `none` for `NULL`. -/
structure box_t where
  self : Nat
  vItems : List cell_t
  pParent : Nat → Option Nat

/-- Modelled from the spec: `Widget::set_parent` (not part of the embedded sources)
records the "parent pointer (non-owning)" of the widget; a widget has one parent
pointer, so it has "at most one parent". -/
def set_parent (pParent : Nat → Option Nat) (widget : Nat) (parent : Option Nat) :
    Nat → Option Nat :=
  fun w => if w = widget then parent else pParent w

/-- The function `Box::add`: the status and the box after the call. `mem` tells
whether `vItems.append()` succeeds; `p` is the content of the padding of the new cell,
which `add` does not write. `STATUS_SUCCESS` is `STATUS_OK`. -/
def Box.add (b : box_t) (widget : Option Widget) (mem : Bool) (p : padding_t) :
    status_t × box_t :=
  if !mem then (status_t.STATUS_NO_MEM, b)
  else
    let cell : cell_t :=
      { r := ⟨-1, -1, -1, -1⟩, a := ⟨0, 0, 0, 0⟩, s := ⟨0, 0, 0, 0⟩, p := p,
        pWidget := widget }
    let vItems := b.vItems ++ [cell]
    match widget with
    | some wd =>
      (status_t.STATUS_OK,
        { b with vItems := vItems, pParent := set_parent b.pParent wd.id (some b.self) })
    | none => (status_t.STATUS_OK, { b with vItems := vItems })

/-- The test `cell->pWidget == child` for a child that is not `NULL`: the cell holds
the widget of that identity. -/
def holds_widget (cell : cell_t) (child : Nat) : Bool :=
  match cell.pWidget with
  | none => false
  | some wd => wd.id = child

/-- The loop of `Box::remove`: the array without the first cell that holds the child,
`none` when no cell holds it. -/
def remove_cell (child : Nat) : List cell_t → Option (List cell_t)
  | [] => none
  | cell :: cells =>
    if holds_widget cell child then some cells
    else
      match remove_cell child cells with
      | some rest => some (cell :: rest)
      | none => none

/-- The function `Box::remove` for a child that is not `NULL`: the status and the box
after the call. -/
def Box.remove (b : box_t) (child : Widget) : status_t × box_t :=
  match remove_cell child.id b.vItems with
  | some rest =>
    (status_t.STATUS_OK,
      { b with vItems := rest, pParent := set_parent b.pParent child.id none })
  | none => (status_t.STATUS_NOT_FOUND, b)

/-- The loop of `Box::remove_all` over the cells taken out of the box: every widget
gets the parent `NULL`. -/
def unparent_all (pParent : Nat → Option Nat) : List cell_t → Nat → Option Nat
  | [] => pParent
  | cell :: cells =>
    match cell.pWidget with
    | some wd => unparent_all (set_parent pParent wd.id none) cells
    | none => unparent_all pParent cells

/-- The function `Box::remove_all`. -/
def Box.remove_all (b : box_t) : status_t × box_t :=
  if b.vItems.length ≤ 0 then (status_t.STATUS_OK, b)
  else
    (status_t.STATUS_OK,
      { b with vItems := [], pParent := unparent_all b.pParent b.vItems })

/-- A call of one of the functions that change the list of children of a box. -/
inductive box_call
  | add (widget : Option Widget) (mem : Bool) (p : padding_t)
  | remove (child : Widget)
  | remove_all
  deriving DecidableEq, Repr

/-- The box after one call. -/
def Box.step (b : box_t) : box_call → box_t
  | box_call.add widget mem p => (Box.add b widget mem p).2
  | box_call.remove child => (Box.remove b child).2
  | box_call.remove_all => (Box.remove_all b).2

/-- The box after a sequence of calls, first call first. -/
def Box.run : box_t → List box_call → box_t
  | b, [] => b
  | b, c :: cs => Box.run (Box.step b c) cs

/-- The identities of the widgets held in the cells of an array, in array order. -/
def held_widgets (vItems : List cell_t) : List Nat :=
  vItems.filterMap (fun cell => cell.pWidget.map (fun wd => wd.id))

/-- No call of the sequence adds a widget that the box holds in a cell at the time of
the call. -/
def adds_new_widgets : box_t → List box_call → Bool
  | _, [] => true
  | b, c :: cs =>
    (match c with
      | box_call.add (some wd) _ _ => decide (wd.id ∉ held_widgets b.vItems)
      | _ => true)
    && adds_new_widgets (Box.step b c) cs

/-- An empty box: no cell, and no widget has the box as its parent. -/
def empty_box (self : Nat) : box_t :=
  { self := self, vItems := [], pParent := fun _ => none }

/-- Every widget occupies at most one cell of the box, and a widget is held in a
cell of the box exactly when the parent it records is the box. -/
def box_inv (b : box_t) : Prop :=
  (held_widgets b.vItems).Nodup
    ∧ ∀ w : Nat, w ∈ held_widgets b.vItems ↔ b.pParent w = some b.self

/-! ## Box::allocate_proportional: what the passes are compared with -/

/-- The minimum allocation of a visible child on the primary axis: its padding on that
axis plus its minimum size, when that is not negative. -/
def min_alloc (horizontal : Bool) (w : cell_t) : Int :=
  match w.pWidget with
  | none => 0
  | some wd =>
    if horizontal then
      ((wd.get_padding.nLeft : Int) + (wd.get_padding.nRight : Int))
        + max 0 wd.get_size_limits.nMinWidth
    else
      ((wd.get_padding.nTop : Int) + (wd.get_padding.nBottom : Int))
        + max 0 wd.get_size_limits.nMinHeight

/-- The extent of the rectangle on the primary axis. -/
def extent (horizontal : Bool) (r : rectangle_t) : Int :=
  if horizontal then r.nWidth else r.nHeight

/-- The leftover of the first pass: the extent less one spacing between neighbours and
less the minimum allocations of the children. -/
def leftover (horizontal : Bool) (spacing : Int) (r : rectangle_t)
    (visible : List cell_t) : Int :=
  extent horizontal r - spacing * ((visible.length : Int) - 1)
    - (visible.map (min_alloc horizontal)).sum

/-- The cells after the first pass of `Box::allocate_proportional`. -/
def after_first_pass (horizontal : Bool) (spacing : Int) (r : rectangle_t)
    (visible : List cell_t) : List cell_t × Int × Int × Nat :=
  first_pass horizontal r visible
    (extent horizontal r - spacing * ((visible.length : Int) - 1)) 0 0

/-- The cells and the value of `n_left` after the second pass (the distribution step)
of `Box::allocate_proportional`. -/
def after_second_pass (horizontal : Bool) (spacing : Int) (r : rectangle_t)
    (visible : List cell_t) : List cell_t × Int :=
  second_pass horizontal (extent horizontal r - spacing * ((visible.length : Int) - 1))
    (after_first_pass horizontal spacing r visible).1
    (after_first_pass horizontal spacing r visible).2.1
    (after_first_pass horizontal spacing r visible).2.2.1
    (after_first_pass horizontal spacing r visible).2.2.2

/-- The cell `c` is the cell `w` with `d` more pixels on the primary axis, for some
`d` that is not negative. -/
def grown (horizontal : Bool) (w c : cell_t) : Prop :=
  ∃ d : Int, 0 ≤ d ∧ c = add_size horizontal w d

/-- The cell `c` is the cell `w`, or `w` with one more pixel on the primary axis. -/
def grown_by_one (horizontal : Bool) (w c : cell_t) : Prop :=
  ∃ d : Int, (d = 0 ∨ d = 1) ∧ c = add_size horizontal w d

/-- The sizes of the cells on the primary axis with the spacing added to every cell
but the last. -/
def spaced_sizes (horizontal : Bool) (spacing : Int) : List cell_t → List Int
  | [] => []
  | [w] => [a_size horizontal w]
  | w :: ws => (a_size horizontal w + spacing) :: spaced_sizes horizontal spacing ws

/-- Where the allocation of a cell starts on the primary axis: `a.nLeft` in a
horizontal box, `a.nTop` in a vertical one. -/
def a_start (horizontal : Bool) (w : cell_t) : Int :=
  if horizontal then w.a.nLeft else w.a.nTop

/-- Where the allocation of a cell starts on the other axis. -/
def cross_start (horizontal : Bool) (w : cell_t) : Int :=
  if horizontal then w.a.nTop else w.a.nLeft

/-- The extent of the allocation of a cell on the other axis. -/
def cross_size (horizontal : Bool) (w : cell_t) : Int :=
  if horizontal then w.a.nHeight else w.a.nWidth

/-! ## Box.cpp: rendering -/

/-- A call that `Box::render` makes on the surface or on a child, colours left out:
`fill_rect` of an area, `fill_frame` of an outer rectangle around an inner one, and
`render(s, force)` of a child widget. -/
inductive draw_call
  | fill_rect (area : rectangle_t)
  | fill_frame (outer inner : rectangle_t)
  | render (widget : Nat) (force : Bool)
  deriving DecidableEq, Repr

/-- Modelled from the spec: `Widget::commit_redraw` (not part of the embedded sources)
clears the "dirty bit for pending redraw" of the widget. `pending` tells for every
widget, by identity, what `redraw_pending()` answers. -/
def commit_redraw (pending : Nat → Bool) (widget : Nat) : Nat → Bool :=
  fun w => if w = widget then false else pending w

/-- The loop of `Box::render` over the visible cells: the calls made, in order, and
the pending flags after it. A visible cell always holds a widget. -/
def render_loop (force : Bool) : List cell_t → (Nat → Bool) → List draw_call × (Nat → Bool)
  | [], pending => ([], pending)
  | wc :: rest, pending =>
    match wc.pWidget with
    | none => render_loop force rest pending
    | some w =>
      if force || pending w.id then
        let fill := if force then [draw_call.fill_frame wc.a wc.s] else []
        let res := render_loop force rest (commit_redraw pending w.id)
        (fill ++ draw_call.render w.id force :: res.1, res.2)
      else render_loop force rest pending

/-- The function `Box::render`: the calls made, in order, and the pending flags after
it. `redraw_surface` is the flag `REDRAW_SURFACE` of `nFlags`, `sSize` the rectangle
of the box, `mem` tells whether `visible_items` succeeds. -/
def Box.render (redraw_surface : Bool) (sSize : rectangle_t) (vItems : List cell_t)
    (force : Bool) (mem : Bool) (pending : Nat → Bool) :
    List draw_call × (Nat → Bool) :=
  let force := if redraw_surface then true else force
  if !mem then ([draw_call.fill_rect sSize], pending)
  else
    let visible := visible_items vItems
    if visible.isEmpty && force then ([draw_call.fill_rect sSize], pending)
    else render_loop force visible pending

/-- The visible children of a box in the words of the specification: the cells of the
box, in child order, that hold a widget and whose widget is visible. To be compared
with `visible_items`, the loop of the source. -/
def visible_children (vItems : List cell_t) : List cell_t :=
  vItems.filter (fun cell =>
    match cell.pWidget with
    | some wd => wd.visible
    | none => false)

/-- The calls of a full repaint: for every cell, in order, the frame of its allocated
area around its realized area, then the rendering of its widget with `force = true`. -/
def forced_calls (cells : List cell_t) : List draw_call :=
  (cells.map (fun wc =>
    match wc.pWidget with
    | some w => [draw_call.fill_frame wc.a wc.s, draw_call.render w.id true]
    | none => [])).flatten

/-- The calls of a selective repaint: the rendering with `force = false` of the
widgets whose redraw is pending, in the order of the cells. -/
def pending_calls (pending : Nat → Bool) (cells : List cell_t) : List draw_call :=
  (held_widgets cells).filterMap
    (fun w => if pending w then some (draw_call.render w false) else none)

/-! ## TabControl.cpp -/

/-- A tab as `TabControl::allocate_tabs` sees it: its identity, the answer of
`is_visible_child_of(this)`, and the integers the function obtains for it: the border
`tab_border` and the rounding gap `border_rgap` (both `size_t`, computed from the
scaled border size and radius), the text size `tp.Width` by `tp.Height` as stored into
the `ssize_t` fields of the record, and the text padding. -/
structure Tab where
  id : Nat
  visible_child : Bool
  tab_border : Nat
  border_rgap : Nat
  text_width : Int
  text_height : Int
  padding : padding_t
  deriving DecidableEq, Repr

/-- The record `TabControl::tab_t`: the bounds of the tab, the rectangle of its text
and the tab widget. -/
structure tab_t where
  bounds : rectangle_t
  text : rectangle_t
  widget : Tab
  deriving DecidableEq, Repr

/-- The width `allocate_tabs` computes for the bounds of a tab. -/
def tab_width (w : Tab) : Int :=
  2 * (w.border_rgap : Int) + w.text_width + (w.padding.nLeft : Int)
    + (w.padding.nRight : Int) + (w.tab_border : Int) * 2

/-- The height `allocate_tabs` computes for the bounds of a tab, before the tabs are
made of the same height. -/
def tab_height (w : Tab) : Int :=
  (w.border_rgap : Int) + w.text_height + (w.padding.nTop : Int)
    + (w.padding.nBottom : Int) + (w.tab_border : Int) * 2

/-- Step 1 of `TabControl::allocate_tabs`: the loop over `vWidgets` with the running
values of `x` and `max_h`; returns the records and the final `max_h`. `tabs->append()`
is taken to succeed. -/
def allocate_tabs_step1 (tab_spacing : Int) (top_align : Bool) :
    List (Option Tab) → Int → Int → List tab_t × Int
  | [], _, max_h => ([], max_h)
  | none :: ws, x, max_h => allocate_tabs_step1 tab_spacing top_align ws x max_h
  | some w :: ws, x, max_h =>
    if !w.visible_child then allocate_tabs_step1 tab_spacing top_align ws x max_h
    else
      let bounds : rectangle_t := ⟨x, 0, tab_width w, tab_height w⟩
      let tab : tab_t :=
        { widget := w, bounds := bounds,
          text := ⟨bounds.nLeft + (w.border_rgap : Int) + (w.tab_border : Int)
                    + (w.padding.nLeft : Int),
                  bounds.nTop + (w.padding.nTop : Int) + (w.tab_border : Int)
                    + (if top_align then (w.border_rgap : Int) else 0),
                  w.text_width, w.text_height⟩ }
      let rest := allocate_tabs_step1 tab_spacing top_align ws
        (x + (tab.bounds.nWidth + tab_spacing)) (lsp_max max_h tab.bounds.nHeight)
      (tab :: rest.1, rest.2)

/-- Body of step 2 of `TabControl::allocate_tabs` for one record: the bounds and the
text grow by `dy = max_h - bounds.nHeight`, and the text moves up by `dy` when the
heading is not aligned to the top. -/
def stretch_tab (top_align : Bool) (max_h : Int) (tab : tab_t) : tab_t :=
  let dy := max_h - tab.bounds.nHeight
  { tab with
    bounds := { tab.bounds with nHeight := tab.bounds.nHeight + dy },
    text := { tab.text with
      nHeight := tab.text.nHeight + dy,
      nTop := if !top_align then tab.text.nTop - dy else tab.text.nTop } }

/-- Step 2 of `TabControl::allocate_tabs`: every record gets the height `max_h`;
returns the records and the final `area->nWidth`. -/
def allocate_tabs_step2 (top_align : Bool) (max_h : Int) :
    List tab_t → Int → List tab_t × Int
  | [], width => ([], width)
  | tab :: ts, _ =>
    let tab1 := stretch_tab top_align max_h tab
    let rest := allocate_tabs_step2 top_align max_h ts
      (tab1.bounds.nLeft + tab1.bounds.nWidth)
    (tab1 :: rest.1, rest.2)

/-- The function `TabControl::allocate_tabs`: the heading area and the records.
`tab_spacing` is the scaled spacing of the tabs, `top_align` is
`sHeading.valign() <= 0`. -/
def allocate_tabs (tab_spacing : Int) (top_align : Bool) (vWidgets : List (Option Tab)) :
    rectangle_t × List tab_t :=
  let s1 := allocate_tabs_step1 tab_spacing top_align vWidgets 0 0
  let s2 := allocate_tabs_step2 top_align s1.2 s1.1 0
  (⟨0, 0, s2.2, s1.2⟩, s2.1)

/-- The tabs of `vWidgets` that are visible children, in the order of addition. -/
def visible_tabs : List (Option Tab) → List Tab
  | [] => []
  | none :: ws => visible_tabs ws
  | some w :: ws => if w.visible_child then w :: visible_tabs ws else visible_tabs ws

/-- The loop of `TabControl::current_tab`: the first tab that is a visible child. -/
def first_visible_tab : List (Option Tab) → Option Tab
  | [] => none
  | none :: ws => first_visible_tab ws
  | some it :: ws => if it.visible_child then some it else first_visible_tab ws

/-- The function `TabControl::current_tab`; `sSelected` is the selected tab, `none`
for `NULL`. -/
def current_tab (sSelected : Option Tab) (vWidgets : List (Option Tab)) : Option Tab :=
  match sSelected with
  | some it =>
    if vWidgets.contains (some it) && it.visible_child then some it
    else first_visible_tab vWidgets
  | none => first_visible_tab vWidgets

/-- The geometry `TabControl::realize` computes: the content bounds `sBounds`, the
heading strip `sTabArea` and the records of the tabs moved to the strip. `sSize` is
the rectangle stored by `WidgetContainer::realize(r)`, that is `r`; `hd_spacing` is
the scaled heading spacing; `tab_left` is the value the floating-point expression for
`sTabArea.nLeft` gives. -/
def TabControl.realize (r : rectangle_t) (tab_spacing hd_spacing : Int)
    (top_align : Bool) (tab_left : Int) (vWidgets : List (Option Tab)) :
    rectangle_t × rectangle_t × List tab_t :=
  let sSize := r
  let at0 := allocate_tabs tab_spacing top_align vWidgets
  let sTabArea := at0.1
  let tabs := at0.2
  let sBounds : rectangle_t := sSize
  let sBounds : rectangle_t :=
    { sBounds with nHeight := sBounds.nHeight - (sTabArea.nHeight + hd_spacing) }
  let sBounds : rectangle_t :=
    if top_align then { sBounds with nTop := sBounds.nTop + (sSize.nHeight - sBounds.nHeight) }
    else sBounds
  let sTabArea : rectangle_t := { sTabArea with nLeft := tab_left }
  let sTabArea : rectangle_t :=
    { sTabArea with
      nTop := sSize.nTop
        + (if top_align then 0 else sBounds.nTop + sBounds.nHeight + hd_spacing) }
  let tabs := tabs.map (fun tab =>
    { tab with
      bounds := { tab.bounds with
        nLeft := tab.bounds.nLeft + sTabArea.nLeft, nTop := tab.bounds.nTop + sTabArea.nTop },
      text := { tab.text with
        nLeft := tab.text.nLeft + sTabArea.nLeft, nTop := tab.text.nTop + sTabArea.nTop } })
  (sBounds, sTabArea, tabs)

/-- A visible tab with the text size `tw` by `th`, without border, rounding gap and
padding. Used in the scenarios. -/
def plain_tab (id : Nat) (tw th : Int) : Tab :=
  { id := id, visible_child := true, tab_border := 0, border_rgap := 0,
    text_width := tw, text_height := th, padding := ⟨0, 0, 0, 0⟩ }

/-! ## Box::allocate_proportional: the divisions -/

/-- Integer division as the machine performs it: there is no result when the divisor
is zero. -/
def checked_div (a b : Int) : Option Int :=
  if b = 0 then none else some (a / b)

/-- The loop `split_all` with checked divisions. -/
def split_all_checked (horizontal : Bool) (n_left n_size : Int) :
    List cell_t → Int → Option (List cell_t × Int)
  | [], total => some ([], total)
  | w :: ws, total =>
    match checked_div (a_size horizontal w * n_left) n_size with
    | none => none
    | some delta =>
      match split_all_checked horizontal n_left n_size ws (total + delta) with
      | none => none
      | some rest => some (add_size horizontal w delta :: rest.1, rest.2)

/-- The loop `split_expand` with checked divisions. -/
def split_expand_checked (horizontal : Bool) (n_left n_expand : Int) :
    List cell_t → Int → Option (List cell_t × Int)
  | [], total => some ([], total)
  | w :: ws, total =>
    if expands horizontal w then
      match checked_div (a_size horizontal w * n_left) n_expand with
      | none => none
      | some delta =>
        match split_expand_checked horizontal n_left n_expand ws (total + delta) with
        | none => none
        | some rest => some (add_size horizontal w delta :: rest.1, rest.2)
    else
      match split_expand_checked horizontal n_left n_expand ws total with
      | none => none
      | some rest => some (w :: rest.1, rest.2)

/-- The second pass of `Box::allocate_proportional` with checked divisions: `none`
when a division by zero is evaluated. -/
def second_pass_checked (horizontal : Bool) (n_size : Int) (cells : List cell_t)
    (n_left n_expand : Int) (n_exp : Nat) : Option (List cell_t × Int) :=
  if n_left > 0 then
    let res : Option (List cell_t × Int) :=
      if n_exp = 0 then split_all_checked horizontal n_left n_size cells 0
      else if n_expand = 0 then
        match checked_div n_left (n_exp : Int) with
        | none => none
        | some delta => some (split_even horizontal delta cells 0)
      else split_expand_checked horizontal n_left n_expand cells 0
    match res with
    | none => none
    | some res => some (res.1, n_left - res.2)
  else some (cells, n_left)

/-- The first and second pass of `Box::allocate_proportional` with checked
divisions. -/
def after_second_pass_checked (horizontal : Bool) (spacing : Int) (r : rectangle_t)
    (visible : List cell_t) : Option (List cell_t × Int) :=
  second_pass_checked horizontal
    (extent horizontal r - spacing * ((visible.length : Int) - 1))
    (after_first_pass horizontal spacing r visible).1
    (after_first_pass horizontal spacing r visible).2.1
    (after_first_pass horizontal spacing r visible).2.2.1
    (after_first_pass horizontal spacing r visible).2.2.2

/-! ## TabControl.cpp: the slots -/

/-- The part `// Bind slots` of `TabControl::init`, after `WidgetContainer::init`
returned `container_init`: the returned status as a number (`none` for a fault of the
search) and the slot array after the call. `SLOT_CHANGE` and `SLOT_SUBMIT` are the slot
identifiers, `slot_on_change` is the address of the static function of that name,
`self` the widget, and `enabled` the default value of the fourth argument of
`SlotSet::add`; `mem1` and `mem2` tell whether the allocation and the insertion
succeed in the first and in the second call of `SlotSet::add`. The function takes no
address of `slot_on_submit`: the source passes `slot_on_change` to both calls. -/
def TabControl.init {σ : Type} (api : slot_api σ) (container_init : status_t)
    (SLOT_CHANGE SLOT_SUBMIT : Int) (slot_on_change self : Nat) (enabled : Bool)
    (mem1 mem2 : Bool × Bool) (sSlots : List (item_t σ)) :
    Option Int × List (item_t σ) :=
  if container_init ≠ status_t.STATUS_OK then (some (api.code container_init), sSlots)
  else
    match SlotSet.add_handler api sSlots SLOT_CHANGE (some slot_on_change) self enabled
        mem1.1 mem1.2 with
    | (none, v) => (none, v)
    | (some id, v) =>
      let second : Option Int × List (item_t σ) :=
        if id ≥ 0 then
          SlotSet.add_handler api v SLOT_SUBMIT (some slot_on_change) self enabled
            mem2.1 mem2.2
        else (some id, v)
      match second with
      | (none, v2) => (none, v2)
      | (some id2, v2) =>
        if id2 < 0 then (some (-id2), v2)
        else (some (api.code status_t.STATUS_OK), v2)

/-- Modelled from the spec: a handler binding of a slot, "(handler function, opaque
argument, enabled flag)"; functions and arguments are addresses. -/
structure binding_t where
  handler : Nat
  arg : Nat
  enabled : Bool
  deriving DecidableEq, Repr

/-- Modelled from the spec: the class `Slot` (not part of the embedded sources) holds
the ordered list of its handler bindings; `bind` attaches a handler behind the others
and returns a handler identifier that is not negative, here the number of bindings
made before. `STATUS_OK` has the code 0, the other codes are positive. -/
def recording_api : slot_api (List binding_t) :=
  { new_slot := [],
    bind := fun s h a e => ((s.length : Int), s ++ [⟨h, a, e⟩]),
    code := fun c => if c = status_t.STATUS_OK then 0 else 1 }

/-- Modelled from the spec: the handlers that `SlotSet::execute` invokes for a slot
identifier, "all enabled handlers for that slot in registration order"; no handler
when `SlotSet::slot` returns `NULL`, `none` for a fault of the search. -/
def invoked (vSlots : List (item_t (List binding_t))) (id : Int) : Option (List Nat) :=
  match SlotSet.slot vSlots id with
  | slot_ptr.slot item => some ((item.sSlot.filter (fun b => b.enabled)).map
      (fun b => b.handler))
  | slot_ptr.null => some []
  | slot_ptr.fault => none

/-! ## Rectangle.cpp: namespace prop -/

/-- The style object a call of `prop::Rectangle` is made on: the argument `style` or
the style `pStyle` the property is bound to. -/
inductive style_ref
  | style
  | pStyle
  deriving DecidableEq, Repr

/-- A call on a style made by `prop::Rectangle::init` and `prop::Rectangle::override`.
The class `Style` is not part of the embedded sources: the calls are recorded with
their arguments, not interpreted. `begin_` and `end_` stand for `begin()` and
`end()`. -/
inductive style_call
  | begin_
  | create_int (id : Int) (v : Int)
  | override_int (id : Int) (v : Int)
  | set_string (id : Int) (s : LSPString)
  | end_
  deriving DecidableEq, Repr

/-- The function `prop::Rectangle::init(Style *style, const ws::rectangle_t *rect)`:
the returned status and the calls made on the styles, in order. -/
def prop.Rectangle.init_rect (R : Rectangle) (rect : rectangle_t) :
    status_t × List (style_ref × style_call) :=
  if !R.bound then (status_t.STATUS_BAD_STATE, [])
  else
    (status_t.STATUS_OK,
      [(style_ref.style, style_call.begin_),
       (style_ref.style, style_call.create_int R.vAtoms.P_LEFT rect.nLeft),
       (style_ref.style, style_call.create_int R.vAtoms.P_TOP rect.nTop),
       (style_ref.style, style_call.create_int R.vAtoms.P_WIDTH rect.nWidth),
       (style_ref.style, style_call.create_int R.vAtoms.P_HEIGHT rect.nHeight),
       (style_ref.pStyle, style_call.set_string R.vAtoms.P_VALUE (fmt_rect rect)),
       (style_ref.style, style_call.end_)])

/-- The function `prop::Rectangle::init(Style *style)`. -/
def prop.Rectangle.init (R : Rectangle) : status_t × List (style_ref × style_call) :=
  prop.Rectangle.init_rect R ⟨0, 0, 0, 0⟩

/-- The function `prop::Rectangle::init(Style *style, ssize_t left, ssize_t top,
ssize_t width, ssize_t height)`. -/
def prop.Rectangle.init_ltwh (R : Rectangle) (left top width height : Int) :
    status_t × List (style_ref × style_call) :=
  prop.Rectangle.init_rect R ⟨left, top, width, height⟩

/-- The function `prop::Rectangle::override(Style *style, const ws::rectangle_t
*rect)`. -/
def prop.Rectangle.override_rect (R : Rectangle) (rect : rectangle_t) :
    status_t × List (style_ref × style_call) :=
  if !R.bound then (status_t.STATUS_BAD_STATE, [])
  else
    (status_t.STATUS_OK,
      [(style_ref.style, style_call.begin_),
       (style_ref.style, style_call.override_int R.vAtoms.P_LEFT rect.nLeft),
       (style_ref.style, style_call.override_int R.vAtoms.P_TOP rect.nTop),
       (style_ref.style, style_call.override_int R.vAtoms.P_WIDTH rect.nWidth),
       (style_ref.style, style_call.override_int R.vAtoms.P_HEIGHT rect.nHeight),
       (style_ref.pStyle, style_call.set_string R.vAtoms.P_VALUE (fmt_rect rect)),
       (style_ref.style, style_call.end_)])

/-- The function `prop::Rectangle::override(Style *style)`: it returns
`init(style, &r)`. -/
def prop.Rectangle.override (R : Rectangle) : status_t × List (style_ref × style_call) :=
  prop.Rectangle.init_rect R ⟨0, 0, 0, 0⟩

/-- The function `prop::Rectangle::override(Style *style, ssize_t left, ssize_t top,
ssize_t width, ssize_t height)`: it returns `init(style, &r)`. -/
def prop.Rectangle.override_ltwh (R : Rectangle) (left top width height : Int) :
    status_t × List (style_ref × style_call) :=
  prop.Rectangle.init_rect R ⟨left, top, width, height⟩

/-! ## Rectangle.cpp: sequences of calls -/

/-- The property and the style after a sequence of calls of setters. -/
def Rectangle.calls (R : Rectangle) (st : Style) : List rect_call → Rectangle × Style
  | [] => (R, st)
  | c :: cs => Rectangle.calls (R.call st c).1 (R.call st c).2 cs

/-! ## FileDialog.cpp: the bookmark menu -/

/-- The call `vBookmarks.prepend(NULL)` on the array `lltl::parray<bm_entry_t>`
(library `lsp-lltl-lib`). The array is the list of its items, pointers to entries,
`none` for `NULL`. The call returns the address of the new slot, here its index, or
`NULL` when the allocation fails (`ok = false`). -/
def parray_prepend (v : List (Option Nat)) (x : Option Nat) (ok : Bool) :
    Option Nat × List (Option Nat) :=
  if ok then (some 0, x :: v) else (none, v)

/-- The call `vBookmarks.append(NULL)`: the new slot is the last one. -/
def parray_append (v : List (Option Nat)) (x : Option Nat) (ok : Bool) :
    Option Nat × List (Option Nat) :=
  if ok then (some v.length, v ++ [x]) else (none, v)

/-- The call `vBookmarks.premove(ptr)`: the first item equal to the pointer is
removed, the items behind it move one slot to the front. -/
def parray_premove : List (Option Nat) → Option Nat → List (Option Nat)
  | [], _ => []
  | x :: xs, ptr => if x = ptr then xs else x :: parray_premove xs ptr

/-- The assignment `*dst = bm` through the address of a slot: the slot with that
index receives the pointer. A slot behind the last item is not an item of the array,
and the items are left as they are. -/
def store_at (v : List (Option Nat)) (dst : Nat) (x : Option Nat) : List (Option Nat) :=
  if dst < v.length then v.set dst x else v

/-- The function `FileDialog::slot_on_bm_menu_first`: the returned status and the
array `vBookmarks` after the call. `sync_bookmarks` is the status returned by
`FileDialog::sync_bookmarks` for the array it finds, `ok` tells whether the
allocation of `prepend` succeeds. -/
def FileDialog.slot_on_bm_menu_first (sync_bookmarks : List (Option Nat) → status_t)
    (pPopupBookmark : Option Nat) (ok : Bool) (vBookmarks : List (Option Nat)) :
    status_t × List (Option Nat) :=
  match pPopupBookmark with
  | none => (status_t.STATUS_OK, vBookmarks)
  | some bm =>
    match parray_prepend vBookmarks none ok with
    | (none, v) => (status_t.STATUS_UNKNOWN_ERR, v)
    | (some dst, v) =>
      let v1 := parray_premove v (some bm)
      let v2 := store_at v1 dst (some bm)
      (sync_bookmarks v2, v2)

/-- The function `FileDialog::slot_on_bm_menu_last`. -/
def FileDialog.slot_on_bm_menu_last (sync_bookmarks : List (Option Nat) → status_t)
    (pPopupBookmark : Option Nat) (ok : Bool) (vBookmarks : List (Option Nat)) :
    status_t × List (Option Nat) :=
  match pPopupBookmark with
  | none => (status_t.STATUS_OK, vBookmarks)
  | some bm =>
    match parray_append vBookmarks none ok with
    | (none, v) => (status_t.STATUS_UNKNOWN_ERR, v)
    | (some dst, v) =>
      let v1 := parray_premove v (some bm)
      let v2 := store_at v1 dst (some bm)
      (sync_bookmarks v2, v2)

/-! # Theorems -/

/-! ## Box::allocate_proportional -/

/-- C1: evaluation at the failing input. Three visible children of minimum width 32,
spacing 8 and an allocated width of 137: the leftover 25 is not handed out exactly, the
cells end with the widths 49, 49 and 40 (spacing included), which sum to 138. -/
theorem C1_allocation_overshoots (enter : rectangle_t → padding_t → rectangle_t) :
    (allocate_proportional enter true 8 ⟨0, 0, 137, 32⟩ three_children).map
        (fun res => res.2.map (fun w => w.a.nWidth)) = some [49, 49, 40]
      ∧ (allocate_proportional enter true 8 ⟨0, 0, 137, 32⟩ three_children).map
        (fun res => total_size true res.2) = some 138 := by
  constructor <;> rfl

/-- C2: three visible children of minimum width 32, no padding, no expand flag,
spacing 8, allocated width 136: every child gets the width 40 before the spacing is
added, the cells get 48, 48 and 40 with it, and 40 + 40 + 40 + 2 * 8 = 136. -/
theorem C2_three_children_of_32 (enter : rectangle_t → padding_t → rectangle_t) :
    (allocate_sizes true 8 ⟨0, 0, 136, 32⟩ three_children).map
        (fun res => res.1.map (a_size true)) = some [40, 40, 40]
      ∧ (allocate_proportional enter true 8 ⟨0, 0, 136, 32⟩ three_children).map
        (fun res => (res.1, res.2.map (fun w => (w.a.nLeft, w.a.nWidth))))
          = some (status_t.STATUS_OK, [(0, 48), (48, 48), (96, 40)])
      ∧ (allocate_proportional enter true 8 ⟨0, 0, 136, 32⟩ three_children).map
        (fun res => total_size true res.2) = some 136 := by
  refine ⟨?_, ?_, ?_⟩ <;> rfl

/-! ## Box::size_request -/

/-- C3: evaluation at the failing input. In a horizontal box with spacing 8, a hidden
child in front of a visible child of minimum width 32 makes `size_request` answer the
minimum width 40, while the same list without the hidden child gives 32. -/
theorem C3_hidden_first_child_adds_spacing :
    (size_request orientation_t.O_HORIZONTAL 8
        [new_cell (some (plain_widget 1 false 10 10)),
         new_cell (some (plain_widget 2 true 32 32))]).1.nMinWidth = 40
      ∧ (size_request orientation_t.O_HORIZONTAL 8
        [new_cell (some (plain_widget 2 true 32 32))]).1.nMinWidth = 32 := by
  decide

theorem hidden_widget_false_iff (w : cell_t) :
    hidden_widget w = false ↔ ∃ wd, w.pWidget = some wd ∧ wd.visible = true := by
  unfold hidden_widget
  cases h : w.pWidget with
  | none => simp
  | some wd => simp

theorem lsp_max_eq (a b : Int) : lsp_max a b = max a b := by
  unfold lsp_max
  split <;> omega

theorem size_request_loop_horizontal_width (nSpacing : Int) :
    ∀ (ws : List cell_t) (i : Nat) (ew eh : Int),
      (∀ w ∈ ws, hidden_widget w = false) → 0 < i →
      (size_request_loop orientation_t.O_HORIZONTAL nSpacing ws i ew eh).1
        = ew + (ws.map req_width).sum + nSpacing * (ws.length : Int) := by
  intro ws
  induction ws with
  | nil => intro i ew eh _ _; simp [size_request_loop]
  | cons w ws ih =>
    intro i ew eh hvis hi
    have hw := hvis w (List.mem_cons_self _ _)
    have hws : ∀ x ∈ ws, hidden_widget x = false := fun x hx => hvis x (List.mem_cons_of_mem _ hx)
    obtain ⟨wd, hwd, _⟩ := (hidden_widget_false_iff w).1 hw
    simp only [size_request_loop, hw, hwd]
    simp only [Bool.false_eq_true, if_false, if_true, hi]
    rw [ih _ _ _ hws (Nat.succ_pos i)]
    simp only [req_width, hwd, List.map_cons, List.sum_cons, List.length_cons]
    split <;> push_cast <;> [rw [max_eq_right (by assumption)]; rw [max_eq_left (by omega)]] <;> ring

theorem size_request_loop_vertical_height (nSpacing : Int) :
    ∀ (ws : List cell_t) (i : Nat) (ew eh : Int),
      (∀ w ∈ ws, hidden_widget w = false) → 0 < i →
      (size_request_loop orientation_t.O_VERTICAL nSpacing ws i ew eh).2.1
        = eh + (ws.map req_height).sum + nSpacing * (ws.length : Int) := by
  intro ws
  induction ws with
  | nil => intro i ew eh _ _; simp [size_request_loop]
  | cons w ws ih =>
    intro i ew eh hvis hi
    have hw := hvis w (List.mem_cons_self _ _)
    have hws : ∀ x ∈ ws, hidden_widget x = false := fun x hx => hvis x (List.mem_cons_of_mem _ hx)
    obtain ⟨wd, hwd, _⟩ := (hidden_widget_false_iff w).1 hw
    simp only [size_request_loop, hw, hwd]
    simp only [Bool.false_eq_true, if_false, if_true, hi, reduceCtorEq]
    rw [ih _ _ _ hws (Nat.succ_pos i)]
    simp only [req_height, hwd, List.map_cons, List.sum_cons, List.length_cons]
    split <;> push_cast <;> [rw [max_eq_right (by assumption)]; rw [max_eq_left (by omega)]] <;> ring

theorem req_height_nonneg (w : cell_t) : 0 ≤ req_height w := by
  unfold req_height
  cases w.pWidget with
  | none => simp
  | some wd => have := le_max_left 0 wd.size_request.nMinHeight; simp only []; omega

theorem req_width_nonneg (w : cell_t) : 0 ≤ req_width w := by
  unfold req_width
  cases w.pWidget with
  | none => simp
  | some wd => have := le_max_left 0 wd.size_request.nMinWidth; simp only []; omega

theorem size_request_loop_horizontal_height (nSpacing : Int) :
    ∀ (ws : List cell_t) (i : Nat) (ew eh : Int),
      (∀ w ∈ ws, hidden_widget w = false) →
      eh ≤ (size_request_loop orientation_t.O_HORIZONTAL nSpacing ws i ew eh).2.1
      ∧ (∀ w ∈ ws, req_height w
          ≤ (size_request_loop orientation_t.O_HORIZONTAL nSpacing ws i ew eh).2.1)
      ∧ ((size_request_loop orientation_t.O_HORIZONTAL nSpacing ws i ew eh).2.1 = eh
          ∨ ∃ w ∈ ws, req_height w
            = (size_request_loop orientation_t.O_HORIZONTAL nSpacing ws i ew eh).2.1) := by
  intro ws
  induction ws with
  | nil => intro i ew eh _; simp [size_request_loop]
  | cons w ws ih =>
    intro i ew eh hvis
    have hw := hvis w (List.mem_cons_self _ _)
    have hws : ∀ x ∈ ws, hidden_widget x = false := fun x hx => hvis x (List.mem_cons_of_mem _ hx)
    obtain ⟨wd, hwd, _⟩ := (hidden_widget_false_iff w).1 hw
    have hreq : req_height w = ((wd.padding.nTop : Int) + (wd.padding.nBottom : Int))
        + (if wd.size_request.nMinHeight ≥ 0 then wd.size_request.nMinHeight else 0) := by
      simp only [req_height, hwd]
      split
      · rw [max_eq_right (by assumption)]
      · rw [max_eq_left (by omega)]
    simp only [size_request_loop, hw, hwd]
    simp only [Bool.false_eq_true, if_false, if_true]
    generalize hE : (if ((if wd.size_request.nMinHeight ≥ 0 then
        (wd.padding.nTop : Int) + (wd.padding.nBottom : Int) + wd.size_request.nMinHeight
        else (wd.padding.nTop : Int) + (wd.padding.nBottom : Int)) > eh) then
        (if wd.size_request.nMinHeight ≥ 0 then
        (wd.padding.nTop : Int) + (wd.padding.nBottom : Int) + wd.size_request.nMinHeight
        else (wd.padding.nTop : Int) + (wd.padding.nBottom : Int)) else eh) = E
    have hEmax : E = max (req_height w) eh := by
      rw [← hE, hreq]
      split_ifs <;> omega
    generalize hW : (if i > 0 then ew + (if wd.size_request.nMinWidth ≥ 0 then
        (wd.padding.nLeft : Int) + (wd.padding.nRight : Int) + wd.size_request.nMinWidth
        else (wd.padding.nLeft : Int) + (wd.padding.nRight : Int)) + nSpacing
        else ew + (if wd.size_request.nMinWidth ≥ 0 then
        (wd.padding.nLeft : Int) + (wd.padding.nRight : Int) + wd.size_request.nMinWidth
        else (wd.padding.nLeft : Int) + (wd.padding.nRight : Int))) = W
    obtain ⟨h1, h2, h3⟩ := ih (i + 1) W E hws
    refine ⟨by omega, ?_, ?_⟩
    · intro x hx
      rcases List.mem_cons.1 hx with rfl | hx
      · omega
      · exact h2 x hx
    · rcases h3 with h3 | ⟨x, hx, hxe⟩
      · rcases le_total (req_height w) eh with hle | hle
        · left; rw [h3, hEmax, max_eq_right hle]
        · right; exact ⟨w, List.mem_cons_self _ _, by rw [h3, hEmax, max_eq_left hle]⟩
      · right; exact ⟨x, List.mem_cons_of_mem _ hx, hxe⟩

theorem size_request_loop_vertical_width (nSpacing : Int) :
    ∀ (ws : List cell_t) (i : Nat) (ew eh : Int),
      (∀ w ∈ ws, hidden_widget w = false) →
      ew ≤ (size_request_loop orientation_t.O_VERTICAL nSpacing ws i ew eh).1
      ∧ (∀ w ∈ ws, req_width w
          ≤ (size_request_loop orientation_t.O_VERTICAL nSpacing ws i ew eh).1)
      ∧ ((size_request_loop orientation_t.O_VERTICAL nSpacing ws i ew eh).1 = ew
          ∨ ∃ w ∈ ws, req_width w
            = (size_request_loop orientation_t.O_VERTICAL nSpacing ws i ew eh).1) := by
  intro ws
  induction ws with
  | nil => intro i ew eh _; simp [size_request_loop]
  | cons w ws ih =>
    intro i ew eh hvis
    have hw := hvis w (List.mem_cons_self _ _)
    have hws : ∀ x ∈ ws, hidden_widget x = false := fun x hx => hvis x (List.mem_cons_of_mem _ hx)
    obtain ⟨wd, hwd, _⟩ := (hidden_widget_false_iff w).1 hw
    have hreq : req_width w = ((wd.padding.nLeft : Int) + (wd.padding.nRight : Int))
        + (if wd.size_request.nMinWidth ≥ 0 then wd.size_request.nMinWidth else 0) := by
      simp only [req_width, hwd]
      split
      · rw [max_eq_right (by assumption)]
      · rw [max_eq_left (by omega)]
    simp only [size_request_loop, hw, hwd]
    simp only [Bool.false_eq_true, if_false, if_true, reduceCtorEq]
    generalize hE : (if ((if wd.size_request.nMinWidth ≥ 0 then
        (wd.padding.nLeft : Int) + (wd.padding.nRight : Int) + wd.size_request.nMinWidth
        else (wd.padding.nLeft : Int) + (wd.padding.nRight : Int)) > ew) then
        (if wd.size_request.nMinWidth ≥ 0 then
        (wd.padding.nLeft : Int) + (wd.padding.nRight : Int) + wd.size_request.nMinWidth
        else (wd.padding.nLeft : Int) + (wd.padding.nRight : Int)) else ew) = E
    have hEmax : E = max (req_width w) ew := by
      rw [← hE, hreq]
      split_ifs <;> omega
    generalize hW : (if i > 0 then eh + (if wd.size_request.nMinHeight ≥ 0 then
        (wd.padding.nTop : Int) + (wd.padding.nBottom : Int) + wd.size_request.nMinHeight
        else (wd.padding.nTop : Int) + (wd.padding.nBottom : Int)) + nSpacing
        else eh + (if wd.size_request.nMinHeight ≥ 0 then
        (wd.padding.nTop : Int) + (wd.padding.nBottom : Int) + wd.size_request.nMinHeight
        else (wd.padding.nTop : Int) + (wd.padding.nBottom : Int))) = W
    obtain ⟨h1, h2, h3⟩ := ih (i + 1) E W hws
    refine ⟨by omega, ?_, ?_⟩
    · intro x hx
      rcases List.mem_cons.1 hx with rfl | hx
      · omega
      · exact h2 x hx
    · rcases h3 with h3 | ⟨x, hx, hxe⟩
      · rcases le_total (req_width w) ew with hle | hle
        · left; rw [h3, hEmax, max_eq_right hle]
        · right; exact ⟨w, List.mem_cons_self _ _, by rw [h3, hEmax, max_eq_left hle]⟩
      · right; exact ⟨x, List.mem_cons_of_mem _ hx, hxe⟩

theorem size_request_loop_horizontal_width_zero (nSpacing : Int) (w : cell_t)
    (ws : List cell_t) (ew eh : Int) (hvis : ∀ x ∈ w :: ws, hidden_widget x = false) :
    (size_request_loop orientation_t.O_HORIZONTAL nSpacing (w :: ws) 0 ew eh).1
      = ew + ((w :: ws).map req_width).sum + nSpacing * (ws.length : Int) := by
  have hw := hvis w (List.mem_cons_self _ _)
  have hws : ∀ x ∈ ws, hidden_widget x = false := fun x hx => hvis x (List.mem_cons_of_mem _ hx)
  obtain ⟨wd, hwd, _⟩ := (hidden_widget_false_iff w).1 hw
  simp only [size_request_loop, hw, hwd]
  simp only [Bool.false_eq_true, if_false, if_true, gt_iff_lt, lt_self_iff_false]
  rw [size_request_loop_horizontal_width _ _ _ _ _ hws (by decide)]
  simp only [req_width, hwd, List.map_cons, List.sum_cons]
  split <;> [rw [max_eq_right (by assumption)]; rw [max_eq_left (by omega)]] <;> ring

theorem size_request_loop_vertical_height_zero (nSpacing : Int) (w : cell_t)
    (ws : List cell_t) (ew eh : Int) (hvis : ∀ x ∈ w :: ws, hidden_widget x = false) :
    (size_request_loop orientation_t.O_VERTICAL nSpacing (w :: ws) 0 ew eh).2.1
      = eh + ((w :: ws).map req_height).sum + nSpacing * (ws.length : Int) := by
  have hw := hvis w (List.mem_cons_self _ _)
  have hws : ∀ x ∈ ws, hidden_widget x = false := fun x hx => hvis x (List.mem_cons_of_mem _ hx)
  obtain ⟨wd, hwd, _⟩ := (hidden_widget_false_iff w).1 hw
  simp only [size_request_loop, hw, hwd]
  simp only [Bool.false_eq_true, if_false, if_true, gt_iff_lt, lt_self_iff_false, reduceCtorEq]
  rw [size_request_loop_vertical_height _ _ _ _ _ hws (by decide)]
  simp only [req_height, hwd, List.map_cons, List.sum_cons]
  split <;> [rw [max_eq_right (by assumption)]; rw [max_eq_left (by omega)]] <;> ring

theorem size_request_max_fields (o : orientation_t) (nSpacing : Int) (l : List cell_t) :
    (size_request o nSpacing l).1.nMaxWidth = -1
      ∧ (size_request o nSpacing l).1.nMaxHeight = -1 := by
  unfold size_request
  split <;> simp [no_limits]

/-- C4: for a non-empty list of visible children, a horizontal box answers the sum of
the children's widths (padding plus non-negative minimum) plus one spacing between
neighbours as minimum width and the largest of the children's heights as minimum
height; a vertical box answers the symmetric values; the maximum width and height are
-1 for every list. -/
theorem C4_size_request_sum_and_max (nSpacing : Int) (vItems : List cell_t)
    (hne : vItems ≠ []) (hvis : ∀ w ∈ vItems, hidden_widget w = false) :
    ((size_request orientation_t.O_HORIZONTAL nSpacing vItems).1.nMinWidth
        = (vItems.map req_width).sum + nSpacing * ((vItems.length : Int) - 1)
      ∧ (∀ w ∈ vItems, req_height w
          ≤ (size_request orientation_t.O_HORIZONTAL nSpacing vItems).1.nMinHeight)
      ∧ (∃ w ∈ vItems, req_height w
          = (size_request orientation_t.O_HORIZONTAL nSpacing vItems).1.nMinHeight))
    ∧ ((size_request orientation_t.O_VERTICAL nSpacing vItems).1.nMinHeight
        = (vItems.map req_height).sum + nSpacing * ((vItems.length : Int) - 1)
      ∧ (∀ w ∈ vItems, req_width w
          ≤ (size_request orientation_t.O_VERTICAL nSpacing vItems).1.nMinWidth)
      ∧ (∃ w ∈ vItems, req_width w
          = (size_request orientation_t.O_VERTICAL nSpacing vItems).1.nMinWidth))
    ∧ (∀ (o : orientation_t) (l : List cell_t),
        (size_request o nSpacing l).1.nMaxWidth = -1
          ∧ (size_request o nSpacing l).1.nMaxHeight = -1) := by
  obtain ⟨w, ws, rfl⟩ := List.exists_cons_of_ne_nil hne
  have hlen : ¬ ((w :: ws).length ≤ 0) := by simp
  refine ⟨⟨?_, ?_, ?_⟩, ⟨?_, ?_, ?_⟩, fun o l => size_request_max_fields o nSpacing l⟩
  · simp only [size_request, hlen, if_false]
    rw [size_request_loop_horizontal_width_zero nSpacing w ws 0 0 hvis]
    simp only [List.length_cons]
    push_cast
    ring
  · simp only [size_request, hlen, if_false]
    exact (size_request_loop_horizontal_height nSpacing (w :: ws) 0 0 0 hvis).2.1
  · simp only [size_request, hlen, if_false]
    obtain ⟨h1, h2, h3⟩ := size_request_loop_horizontal_height nSpacing (w :: ws) 0 0 0 hvis
    rcases h3 with h3 | h3
    · refine ⟨w, List.mem_cons_self _ _, ?_⟩
      have := h2 w (List.mem_cons_self _ _)
      have := req_height_nonneg w
      omega
    · exact h3
  · simp only [size_request, hlen, if_false]
    rw [size_request_loop_vertical_height_zero nSpacing w ws 0 0 hvis]
    simp only [List.length_cons]
    push_cast
    ring
  · simp only [size_request, hlen, if_false]
    exact (size_request_loop_vertical_width nSpacing (w :: ws) 0 0 0 hvis).2.1
  · simp only [size_request, hlen, if_false]
    obtain ⟨h1, h2, h3⟩ := size_request_loop_vertical_width nSpacing (w :: ws) 0 0 0 hvis
    rcases h3 with h3 | h3
    · refine ⟨w, List.mem_cons_self _ _, ?_⟩
      have := h2 w (List.mem_cons_self _ _)
      have := req_width_nonneg w
      omega
    · exact h3

/-- Witness of C4: three visible children of minimum size 32 by 32 with spacing 8. -/
theorem C4_size_request_sum_and_max_witness :
    three_children ≠ [] ∧ (∀ w ∈ three_children, hidden_widget w = false)
      ∧ (size_request orientation_t.O_HORIZONTAL 8 three_children).1.nMinWidth
        = (three_children.map req_width).sum + 8 * ((three_children.length : Int) - 1)
      ∧ (size_request orientation_t.O_VERTICAL 8 three_children).1.nMinHeight
        = (three_children.map req_height).sum + 8 * ((three_children.length : Int) - 1) :=
  ⟨by decide, by decide,
    (C4_size_request_sum_and_max 8 three_children (by decide) (by decide)).1.1,
    (C4_size_request_sum_and_max 8 three_children (by decide) (by decide)).2.1.1⟩

/-! ## Box::find_widget -/

/-- The test of `Box::find_widget` on one cell: the cell is not hidden and its realized
rectangle contains the point. -/
theorem find_widget_cons (inside : rectangle_t → Int → Int → Bool) (w : cell_t)
    (ws : List cell_t) (x y : Int) :
    find_widget inside (w :: ws) x y
      = if hidden_widget w = false ∧ inside w.s x y = true then w.pWidget
        else find_widget inside ws x y := by
  simp only [find_widget]
  cases hidden_widget w <;> cases inside w.s x y <;> simp

/-- C5: `find_widget` answers the widget of the first cell, in child order, that holds
a visible widget and whose realized rectangle contains the point; it answers `NULL`
exactly when there is no such cell; the widget it answers is never hidden. -/
theorem C5_find_widget_skips_hidden (inside : rectangle_t → Int → Int → Bool)
    (vItems : List cell_t) (x y : Int) :
    (∀ wd, find_widget inside vItems x y = some wd →
        ∃ (pre : List cell_t) (w : cell_t) (post : List cell_t),
          vItems = pre ++ w :: post ∧ w.pWidget = some wd ∧ wd.visible = true
            ∧ inside w.s x y = true
            ∧ ∀ c ∈ pre, ¬ (hidden_widget c = false ∧ inside c.s x y = true))
      ∧ (find_widget inside vItems x y = none ↔
          ∀ c ∈ vItems, ¬ (hidden_widget c = false ∧ inside c.s x y = true))
      ∧ (∀ wd, find_widget inside vItems x y = some wd → wd.visible = true) := by
  induction vItems with
  | nil => simp [find_widget]
  | cons w ws ih =>
    obtain ⟨ih1, ih2, ih3⟩ := ih
    rw [find_widget_cons]
    by_cases hw : hidden_widget w = false ∧ inside w.s x y = true
    · rw [if_pos hw]
      obtain ⟨wd0, hwd0, hv0⟩ := (hidden_widget_false_iff w).1 hw.1
      refine ⟨?_, ?_, ?_⟩
      · intro wd h
        rw [hwd0] at h
        cases h
        exact ⟨[], w, ws, rfl, hwd0, hv0, hw.2, by simp⟩
      · rw [hwd0]
        constructor
        · intro h; cases h
        · intro h; exact absurd hw (h w (List.mem_cons_self _ _))
      · intro wd h
        rw [hwd0] at h
        cases h
        exact hv0
    · rw [if_neg hw]
      refine ⟨?_, ?_, ih3⟩
      · intro wd h
        obtain ⟨pre, c, post, he, h1, h2, h3, h4⟩ := ih1 wd h
        refine ⟨w :: pre, c, post, by rw [he]; rfl, h1, h2, h3, ?_⟩
        intro d hd
        rcases List.mem_cons.1 hd with rfl | hd
        · exact hw
        · exact h4 d hd
      · rw [ih2]
        constructor
        · intro h c hc
          rcases List.mem_cons.1 hc with rfl | hc
          · exact hw
          · exact h c hc
        · intro h c hc
          exact h c (List.mem_cons_of_mem _ hc)

/-! ## Rectangle: the packed string -/

theorem digit_char_spec (d : Nat) (hd : d < 10) :
    digit_value (digit_char d) = some d ∧ digit_char d ≠ ' ' ∧ digit_char d ≠ '-' := by
  interval_cases d <;> decide

theorem parse_digits_append (xs ys : LSPString) :
    ∀ acc : Nat, parse_digits acc (xs ++ ys)
      = (parse_digits acc xs).bind (fun a => parse_digits a ys) := by
  induction xs with
  | nil => intro acc; simp [parse_digits]
  | cons c cs ih =>
    intro acc
    simp only [List.cons_append, parse_digits]
    cases digit_value c with
    | none => simp
    | some d => exact ih _

theorem parse_digits_fmt_digits :
    ∀ (fuel n : Nat), n < fuel → parse_digits 0 (fmt_digits fuel n) = some n := by
  intro fuel
  induction fuel with
  | zero => intro n h; omega
  | succ fuel ih =>
    intro n h
    unfold fmt_digits
    split
    · rename_i h10
      simp [parse_digits, (digit_char_spec n h10).1]
    · rename_i h10
      rw [parse_digits_append, ih (n / 10) (by omega)]
      simp only [Option.some_bind, parse_digits, (digit_char_spec (n % 10) (by omega)).1]
      congr 1
      omega

theorem fmt_digits_chars :
    ∀ (fuel n : Nat), ∀ c ∈ fmt_digits fuel n, c ≠ ' ' ∧ c ≠ '-' := by
  intro fuel
  induction fuel with
  | zero => intro n c hc; simp [fmt_digits] at hc
  | succ fuel ih =>
    intro n c hc
    unfold fmt_digits at hc
    split at hc
    · rename_i h10
      rw [List.mem_singleton] at hc
      subst hc
      exact (digit_char_spec n h10).2
    · rcases List.mem_append.1 hc with hc | hc
      · exact ih _ c hc
      · rw [List.mem_singleton] at hc
        subst hc
        exact (digit_char_spec (n % 10) (by omega)).2

theorem fmt_digits_ne_nil (fuel n : Nat) : fmt_digits (fuel + 1) n ≠ [] := by
  unfold fmt_digits
  split <;> simp

theorem parse_long_fmt_long (v : Int) : parse_long (fmt_long v) = some v := by
  unfold fmt_long
  split
  · rename_i hneg
    simp only [parse_long, if_true, fmt_digits_ne_nil, if_false,
      parse_digits_fmt_digits _ _ (Nat.lt_succ_self _)]
    rw [Int.ofNat_natAbs_of_nonpos (le_of_lt hneg), neg_neg]
  · rename_i hpos
    have hne := fmt_digits_ne_nil v.natAbs v.natAbs
    have hch := fmt_digits_chars (v.natAbs + 1) v.natAbs
    have hp := parse_digits_fmt_digits (v.natAbs + 1) v.natAbs (Nat.lt_succ_self _)
    revert hne hch hp
    cases fmt_digits (v.natAbs + 1) v.natAbs with
    | nil => intro h; exact absurd rfl h
    | cons c cs =>
      intro _ hch hp
      have hc := (hch c (List.mem_cons_self _ _)).2
      simp only [parse_long, hc, if_false, hp]
      rw [Int.natAbs_of_nonneg (not_lt.1 hpos)]

theorem fmt_long_no_space (v : Int) : ∀ c ∈ fmt_long v, c ≠ ' ' := by
  intro c hc
  unfold fmt_long at hc
  split at hc
  · rcases List.mem_cons.1 hc with rfl | hc
    · decide
    · exact (fmt_digits_chars _ _ c hc).1
  · exact (fmt_digits_chars _ _ c hc).1

theorem fmt_long_ne_nil (v : Int) : fmt_long v ≠ [] := by
  unfold fmt_long
  split
  · simp
  · exact fmt_digits_ne_nil _ _

theorem split_spaces_token (tok : LSPString) (htok : ∀ c ∈ tok, c ≠ ' ') :
    ∀ (cur rest : LSPString), cur.reverse ++ tok ≠ [] →
      split_spaces cur (tok ++ ' ' :: rest)
        = (cur.reverse ++ tok) :: split_spaces [] rest := by
  induction tok with
  | nil =>
    intro cur rest hne
    have hcur : cur ≠ [] := by
      intro h
      apply hne
      simp [h]
    simp [split_spaces, hcur]
  | cons c cs ih =>
    intro cur rest hne
    have hc : c ≠ ' ' := htok c (List.mem_cons_self _ _)
    rw [List.cons_append]
    simp only [split_spaces, hc, if_false]
    rw [ih (fun d hd => htok d (List.mem_cons_of_mem _ hd)) (c :: cur) rest (by simp)]
    simp

theorem split_spaces_last (tok : LSPString) (htok : ∀ c ∈ tok, c ≠ ' ') :
    ∀ (cur : LSPString), cur.reverse ++ tok ≠ [] →
      split_spaces cur tok = [cur.reverse ++ tok] := by
  induction tok with
  | nil =>
    intro cur hne
    have hcur : cur ≠ [] := by
      intro h
      apply hne
      simp [h]
    simp [split_spaces, hcur]
  | cons c cs ih =>
    intro cur hne
    have hc : c ≠ ' ' := htok c (List.mem_cons_self _ _)
    simp only [split_spaces, hc, if_false]
    rw [ih (fun d hd => htok d (List.mem_cons_of_mem _ hd)) (c :: cur) (by simp)]
    simp

theorem parse_ints_fmt_rect (r : rectangle_t) :
    parse_ints 4 (fmt_rect r) = [r.nLeft, r.nTop, r.nWidth, r.nHeight] := by
  have hsplit : split_spaces [] (fmt_rect r)
      = [fmt_long r.nLeft, fmt_long r.nTop, fmt_long r.nWidth, fmt_long r.nHeight] := by
    unfold fmt_rect
    rw [split_spaces_token _ (fmt_long_no_space _) [] _ (by simpa using fmt_long_ne_nil _),
      split_spaces_token _ (fmt_long_no_space _) [] _ (by simpa using fmt_long_ne_nil _),
      split_spaces_token _ (fmt_long_no_space _) [] _ (by simpa using fmt_long_ne_nil _),
      split_spaces_last _ (fmt_long_no_space _) [] (by simpa using fmt_long_ne_nil _)]
    simp
  simp [parse_ints, hsplit, parse_tokens, parse_long_fmt_long]
theorem sync_holds (R : Rectangle) (st : Style) (hb : R.is_bound) :
    (R.sync st).holds R := by
  obtain ⟨hbound, hnd, hpos⟩ := hb
  simp only [List.nodup_cons, List.mem_cons, List.mem_singleton, not_or, List.not_mem_nil,
    not_false_eq_true, List.nodup_nil, and_true] at hnd
  simp only [List.mem_cons, List.mem_singleton, forall_eq_or_imp, forall_eq,
    List.not_mem_nil, false_implies, implies_true, and_true] at hpos
  obtain ⟨⟨h01, h02, h03, h04⟩, ⟨h12, h13, h14⟩, ⟨h23, h24⟩, h34⟩ := hnd
  obtain ⟨p0, p1, p2, p3, p4⟩ := hpos
  simp only [Style.holds, Rectangle.sync, hbound, if_true, ge_iff_le, p0, p1, p2, p3, p4,
    Style.get_int, Style.get_string, Style.set_int, Style.set_string]
  simp [h01, h02, h03, h04, h12, h13, h14, h23, h24, h34, Ne.symm h01, Ne.symm h02,
    Ne.symm h03, Ne.symm h04, Ne.symm h12, Ne.symm h13, Ne.symm h14, Ne.symm h23,
    Ne.symm h24, Ne.symm h34]

theorem lsp_max_zero_of_nonneg (v : Int) (h : 0 ≤ v) : lsp_max 0 v = v := by
  rw [lsp_max_eq, max_eq_right h]

/-- C7, as amended: when a setter changes the rectangle of a bound property, the style
afterwards holds the four components and the packed string of the new rectangle; a
setter called with the values already stored leaves the property and the style as
they are, provided, for `set_size` and `set`, that the stored width and height are
not negative. -/
theorem C7_setters_update_style (R : Rectangle) (st : Style) (c : rect_call)
    (hb : R.is_bound) :
    ((R.call st c).1 ≠ R → (R.call st c).2.holds (R.call st c).1)
      ∧ (c.stored R → (c.clamps = true → 0 ≤ R.sRect.nWidth ∧ 0 ≤ R.sRect.nHeight) →
          R.call st c = (R, st)) := by
  have key : ∀ r : rectangle_t,
      (({ R with sRect := r } : Rectangle).sync st).holds { R with sRect := r } :=
    fun r => sync_holds _ st hb
  cases c with
  | set_left v =>
    simp only [Rectangle.call, Rectangle.set_left, rect_call.stored]
    refine ⟨?_, fun h _ => by rw [if_pos h.symm]⟩
    split
    · intro h; exact absurd rfl h
    · intro _; exact key _
  | set_top v =>
    simp only [Rectangle.call, Rectangle.set_top, rect_call.stored]
    refine ⟨?_, fun h _ => by rw [if_pos h.symm]⟩
    split
    · intro h; exact absurd rfl h
    · intro _; exact key _
  | set_width v =>
    simp only [Rectangle.call, Rectangle.set_width, rect_call.stored]
    refine ⟨?_, fun h _ => by rw [if_pos h.symm]⟩
    split
    · intro h; exact absurd rfl h
    · intro _; exact key _
  | set_height v =>
    simp only [Rectangle.call, Rectangle.set_height, rect_call.stored]
    refine ⟨?_, fun h _ => by rw [if_pos h.symm]⟩
    split
    · intro h; exact absurd rfl h
    · intro _; exact key _
  | set_position left top =>
    simp only [Rectangle.call, Rectangle.set_position, rect_call.stored]
    refine ⟨?_, fun h _ => by rw [if_pos ⟨h.1.symm, h.2.symm⟩]⟩
    split
    · intro h; exact absurd rfl h
    · intro _; exact key _
  | set_size width height =>
    simp only [Rectangle.call, Rectangle.set_size, rect_call.stored, rect_call.clamps]
    refine ⟨?_, fun h hc => ?_⟩
    · split
      · intro h; exact absurd rfl h
      · intro _; exact key _
    · obtain ⟨hw, hh⟩ := hc trivial
      rw [if_pos]
      obtain ⟨h3, h4⟩ := h
      subst h3 h4
      exact ⟨(lsp_max_zero_of_nonneg _ hw).symm, (lsp_max_zero_of_nonneg _ hh).symm⟩
  | set left top width height =>
    simp only [Rectangle.call, Rectangle.set, rect_call.stored, rect_call.clamps]
    refine ⟨?_, fun h hc => ?_⟩
    · split
      · intro h; exact absurd rfl h
      · intro _; exact key _
    · obtain ⟨hw, hh⟩ := hc trivial
      rw [if_pos]
      obtain ⟨h1, h2, h3, h4⟩ := h
      subst h3 h4
      exact ⟨h1.symm, h2.symm, (lsp_max_zero_of_nonneg _ hw).symm,
        (lsp_max_zero_of_nonneg _ hh).symm⟩
  | set_rect r =>
    simp only [Rectangle.call, Rectangle.set_rect, rect_call.stored, rect_call.clamps]
    refine ⟨?_, fun h hc => ?_⟩
    · split
      · intro h; exact absurd rfl h
      · intro _; exact key _
    · obtain ⟨hw, hh⟩ := hc trivial
      rw [if_pos]
      subst h
      exact ⟨rfl, rfl, (lsp_max_zero_of_nonneg _ hw).symm,
        (lsp_max_zero_of_nonneg _ hh).symm⟩

/-- Witness of C7: `set_position(3, 4)` on a freshly bound property. -/
theorem C7_setters_update_style_witness :
    (Rectangle.ctor true example_atoms).is_bound
      ∧ (((Rectangle.ctor true example_atoms).call Style.empty
            (rect_call.set_position 3 4)).1 ≠ Rectangle.ctor true example_atoms →
          ((Rectangle.ctor true example_atoms).call Style.empty
            (rect_call.set_position 3 4)).2.holds
            ((Rectangle.ctor true example_atoms).call Style.empty
              (rect_call.set_position 3 4)).1)
      ∧ ((Rectangle.ctor true example_atoms).call Style.empty
            (rect_call.set_position 3 4)).2.get_string 0 = some "3 4 0 0".toList :=
  ⟨by decide,
    (C7_setters_update_style (Rectangle.ctor true example_atoms) Style.empty
      (rect_call.set_position 3 4) (by decide)).1,
    by decide⟩

/-- C7, counterexample: after `set_width(-5)` a bound property stores the width -5 and
the height 0 and the style holds the width -5; the call `set_size(-5, 0)`, whose
arguments are the stored values, writes the width 0 and the packed string
`"0 0 0 0"` to the style. -/
theorem C7_set_size_of_stored_values_writes :
    negative_width_example.1.is_bound
      ∧ (rect_call.set_size (-5) 0).stored negative_width_example.1
      ∧ negative_width_example.2.get_int 3 = some (-5)
      ∧ negative_width_example.2.get_string 0 = some "0 0 -5 0".toList
      ∧ (negative_width_example.1.call negative_width_example.2
          (rect_call.set_size (-5) 0)).2.get_int 3 = some 0
      ∧ (negative_width_example.1.call negative_width_example.2
          (rect_call.set_size (-5) 0)).2.get_string 0 = some "0 0 0 0".toList := by
  refine ⟨by decide, ⟨by decide, by decide⟩, by decide, by decide, by decide, by decide⟩

theorem sync_get_string (R : Rectangle) (st : Style) (hb : R.bound = true)
    (hv : 0 ≤ R.vAtoms.P_VALUE) :
    (R.sync st).values R.vAtoms.P_VALUE
      = some (property_value_t.PT_STRING (fmt_rect R.sRect)) := by
  simp [Rectangle.sync, hb, hv, Style.set_string]

/-- C6: the packed string written by `Rectangle::sync` for a rectangle of non-negative
width and height, read back by `Rectangle::commit` for the atom of the packed value,
gives the same left, top, width and height, whatever the receiving property held. -/
theorem C6_rectangle_round_trip (R R0 : Rectangle) (st : Style)
    (hb : R.bound = true) (hv : 0 ≤ R.vAtoms.P_VALUE)
    (hw : 0 ≤ R.sRect.nWidth) (hh : 0 ≤ R.sRect.nHeight)
    (hb0 : R0.bound = true) (ha0 : R0.vAtoms = R.vAtoms) :
    (R.sync st).get_string R.vAtoms.P_VALUE = some (fmt_rect R.sRect)
      ∧ parse_ints 4 (fmt_rect R.sRect)
        = [R.sRect.nLeft, R.sRect.nTop, R.sRect.nWidth, R.sRect.nHeight]
      ∧ (R0.commit parse_ints (R.sync st) R.vAtoms.P_VALUE).sRect = R.sRect := by
  have hs := sync_get_string R st hb hv
  have hgs : (R.sync st).get_string R.vAtoms.P_VALUE = some (fmt_rect R.sRect) := by
    simp [Style.get_string, hs]
  have hgi : (R.sync st).get_int R.vAtoms.P_VALUE = none := by
    simp [Style.get_int, hs]
  refine ⟨hgs, parse_ints_fmt_rect _, ?_⟩
  have hnot : ¬ (R.vAtoms.P_VALUE < 0) := not_lt.2 hv
  unfold Rectangle.commit
  simp only [hb0, ha0, Bool.not_true, Bool.false_or, decide_eq_true_eq, hnot, if_false]
  have e1 : ∀ (X : Rectangle) (a : Int) (f : Int → Rectangle),
      (if R.vAtoms.P_VALUE = a then
        (match (R.sync st).get_int a with
          | some v => f v
          | none => X) else X) = X := by
    intro X a f
    split
    · rename_i h
      rw [← h, hgi]
    · rfl
  simp only [e1, ha0, hgs, if_true, parse_ints_fmt_rect, lsp_max_zero_of_nonneg _ hw,
    lsp_max_zero_of_nonneg _ hh]

/-- Witness of C6: the rectangle (-12, 7, 105, 0) goes through the string
`"-12 7 105 0"`. -/
theorem C6_rectangle_round_trip_witness :
    (0 : Int) ≤ 105 ∧ (0 : Int) ≤ 0
      ∧ ((⟨true, example_atoms, ⟨-12, 7, 105, 0⟩⟩ : Rectangle).sync Style.empty).get_string 0
        = some "-12 7 105 0".toList
      ∧ ((Rectangle.ctor true example_atoms).commit parse_ints
          ((⟨true, example_atoms, ⟨-12, 7, 105, 0⟩⟩ : Rectangle).sync Style.empty) 0).sRect
        = ⟨-12, 7, 105, 0⟩ :=
  ⟨by decide, by decide, by decide,
    (C6_rectangle_round_trip ⟨true, example_atoms, ⟨-12, 7, 105, 0⟩⟩
      (Rectangle.ctor true example_atoms) Style.empty rfl (by decide) (by decide)
      (by decide) rfl rfl).2.2⟩

/-! ## Rectangle::commit -/

theorem is_bound_atoms (R : Rectangle) (hb : R.is_bound) :
    R.bound = true
      ∧ (R.vAtoms.P_VALUE ≠ R.vAtoms.P_LEFT ∧ R.vAtoms.P_VALUE ≠ R.vAtoms.P_TOP
        ∧ R.vAtoms.P_VALUE ≠ R.vAtoms.P_WIDTH ∧ R.vAtoms.P_VALUE ≠ R.vAtoms.P_HEIGHT)
      ∧ (R.vAtoms.P_LEFT ≠ R.vAtoms.P_TOP ∧ R.vAtoms.P_LEFT ≠ R.vAtoms.P_WIDTH
        ∧ R.vAtoms.P_LEFT ≠ R.vAtoms.P_HEIGHT)
      ∧ (R.vAtoms.P_TOP ≠ R.vAtoms.P_WIDTH ∧ R.vAtoms.P_TOP ≠ R.vAtoms.P_HEIGHT)
      ∧ R.vAtoms.P_WIDTH ≠ R.vAtoms.P_HEIGHT
      ∧ (0 ≤ R.vAtoms.P_VALUE ∧ 0 ≤ R.vAtoms.P_LEFT ∧ 0 ≤ R.vAtoms.P_TOP
        ∧ 0 ≤ R.vAtoms.P_WIDTH ∧ 0 ≤ R.vAtoms.P_HEIGHT) := by
  obtain ⟨hbound, hnd, hpos⟩ := hb
  simp only [List.nodup_cons, List.mem_cons, List.mem_singleton, not_or, List.not_mem_nil,
    not_false_eq_true, List.nodup_nil, and_true] at hnd
  simp only [List.mem_cons, List.mem_singleton, forall_eq_or_imp, forall_eq,
    List.not_mem_nil, false_implies, implies_true, and_true] at hpos
  obtain ⟨⟨h01, h02, h03, h04⟩, ⟨h12, h13, h14⟩, ⟨h23, h24⟩, h34⟩ := hnd
  exact ⟨hbound, ⟨h01, h02, h03, h04⟩, ⟨h12, h13, h14⟩, ⟨h23, h24⟩, h34, hpos⟩

/-- C8: `Rectangle::commit` on a bound property. Notified for the atom of the packed
value: four parsed integers (l, t, w, h) give the rectangle (l, t, max(0, w),
max(0, h)), two parsed integers (w, h) give (0, 0, max(0, w), max(0, h)), any other
number of parsed integers leaves the property as it is. Notified for the atom of one
component: that component takes the integer the style holds (clamped at zero for the
width and the height) and the other three components stay. -/
theorem C8_commit_fans_out (parse : Nat → LSPString → List Int) (R : Rectangle)
    (st : Style) (hb : R.is_bound) :
    (∀ s l t w h, st.get_string R.vAtoms.P_VALUE = some s → parse 4 s = [l, t, w, h] →
        R.commit parse st R.vAtoms.P_VALUE
          = { R with sRect := ⟨l, t, max 0 w, max 0 h⟩ })
      ∧ (∀ s w h, st.get_string R.vAtoms.P_VALUE = some s → parse 4 s = [w, h] →
        R.commit parse st R.vAtoms.P_VALUE
          = { R with sRect := ⟨0, 0, max 0 w, max 0 h⟩ })
      ∧ (∀ s, st.get_string R.vAtoms.P_VALUE = some s → (parse 4 s).length ≠ 2 →
        (parse 4 s).length ≠ 4 → R.commit parse st R.vAtoms.P_VALUE = R)
      ∧ (∀ v, st.get_int R.vAtoms.P_LEFT = some v →
        R.commit parse st R.vAtoms.P_LEFT = { R with sRect := { R.sRect with nLeft := v } })
      ∧ (∀ v, st.get_int R.vAtoms.P_TOP = some v →
        R.commit parse st R.vAtoms.P_TOP = { R with sRect := { R.sRect with nTop := v } })
      ∧ (∀ v, st.get_int R.vAtoms.P_WIDTH = some v →
        R.commit parse st R.vAtoms.P_WIDTH
          = { R with sRect := { R.sRect with nWidth := max 0 v } })
      ∧ (∀ v, st.get_int R.vAtoms.P_HEIGHT = some v →
        R.commit parse st R.vAtoms.P_HEIGHT
          = { R with sRect := { R.sRect with nHeight := max 0 v } })
      ∧ (∀ a ∈ [R.vAtoms.P_LEFT, R.vAtoms.P_TOP, R.vAtoms.P_WIDTH, R.vAtoms.P_HEIGHT],
        st.get_int a = none → R.commit parse st a = R) := by
  obtain ⟨hbound, ⟨h01, h02, h03, h04⟩, ⟨h12, h13, h14⟩, ⟨h23, h24⟩, h34,
    p0, p1, p2, p3, p4⟩ := is_bound_atoms R hb
  refine ⟨?_, ?_, ?_, ?_, ?_, ?_, ?_, ?_⟩
  · intro s l t w h hs hp
    simp [Rectangle.commit, hbound, not_lt.2 p0, h01, h02, h03, h04, hs, hp, lsp_max_eq]
  · intro s w h hs hp
    simp [Rectangle.commit, hbound, not_lt.2 p0, h01, h02, h03, h04, hs, hp, lsp_max_eq]
  · intro s hs hl2 hl4
    simp only [Rectangle.commit, hbound, not_lt.2 p0, h01, h02, h03, h04, hs, if_false,
      if_true, Bool.not_true, Bool.false_or, decide_False, Bool.false_eq_true]
    split
    · rename_i h; rw [h] at hl2; exact absurd rfl hl2
    · rename_i h; rw [h] at hl4; exact absurd rfl hl4
    · rfl
  · intro v hv
    simp [Rectangle.commit, hbound, not_lt.2 p1, h12, h13, h14, Ne.symm h01, hv]
  · intro v hv
    simp [Rectangle.commit, hbound, not_lt.2 p2, Ne.symm h12, h23, h24, Ne.symm h02, hv]
  · intro v hv
    simp [Rectangle.commit, hbound, not_lt.2 p3, Ne.symm h13, Ne.symm h23, h34,
      Ne.symm h03, hv, lsp_max_eq]
  · intro v hv
    simp [Rectangle.commit, hbound, not_lt.2 p4, Ne.symm h14, Ne.symm h24, Ne.symm h34,
      Ne.symm h04, hv, lsp_max_eq]
  · intro a ha hv
    simp only [List.mem_cons, List.mem_singleton, List.not_mem_nil, or_false] at ha
    rcases ha with rfl | rfl | rfl | rfl
    · simp [Rectangle.commit, hbound, not_lt.2 p1, h12, h13, h14, Ne.symm h01, hv]
    · simp [Rectangle.commit, hbound, not_lt.2 p2, Ne.symm h12, h23, h24, Ne.symm h02, hv]
    · simp [Rectangle.commit, hbound, not_lt.2 p3, Ne.symm h13, Ne.symm h23, h34,
        Ne.symm h03, hv]
    · simp [Rectangle.commit, hbound, not_lt.2 p4, Ne.symm h14, Ne.symm h24, Ne.symm h34,
        Ne.symm h04, hv]

/-- Witness of C8: a bound property notified for the packed value while the style
holds the string `"1 2 -3 4"`. -/
theorem C8_commit_fans_out_witness :
    (Rectangle.ctor true example_atoms).is_bound
      ∧ (Style.empty.set_string 0 "1 2 -3 4".toList).get_string 0 = some "1 2 -3 4".toList
      ∧ parse_ints 4 "1 2 -3 4".toList = [1, 2, -3, 4]
      ∧ (Rectangle.ctor true example_atoms).commit parse_ints
          (Style.empty.set_string 0 "1 2 -3 4".toList) 0
        = ⟨true, example_atoms, ⟨1, 2, 0, 4⟩⟩
      ∧ (Rectangle.ctor true example_atoms).commit parse_ints
          (Style.empty.set_string 0 "1 2 -3 4".toList) 0
        = ⟨true, example_atoms, ⟨1, 2, max 0 (-3), max 0 4⟩⟩ :=
  ⟨by decide, by decide, by decide, by decide,
    (C8_commit_fans_out parse_ints (Rectangle.ctor true example_atoms)
      (Style.empty.set_string 0 "1 2 -3 4".toList) (by decide)).1
      "1 2 -3 4".toList 1 2 (-3) 4 (by decide) (by decide)⟩

/-! ## SlotSet: binary search -/

theorem slots_sorted_iff {σ : Type} (v : List (item_t σ)) :
    slots_sorted v ↔ v.Pairwise (fun a b => a.nType < b.nType) := by
  unfold slots_sorted slot_ids
  rw [List.pairwise_map]

theorem sorted_split {σ : Type} :
    ∀ (v : List (item_t σ)) (k : Nat) (p : item_t σ),
      v.Pairwise (fun a b => a.nType < b.nType) → v.get? k = some p →
      (∀ it ∈ v.take k, it.nType < p.nType) ∧ (∀ it ∈ v.drop (k + 1), p.nType < it.nType) := by
  intro v
  induction v with
  | nil => intro k p _ h; simp at h
  | cons a v ih =>
    intro k p hs hk
    rw [List.pairwise_cons] at hs
    cases k with
    | zero =>
      simp only [List.get?_cons_zero, Option.some.injEq] at hk
      subst hk
      simpa using hs.1
    | succ k =>
      simp only [List.get?_cons_succ] at hk
      obtain ⟨h1, h2⟩ := ih k p hs.2 hk
      have hp : p ∈ v := List.get?_mem hk
      refine ⟨?_, ?_⟩
      · intro it hit
        simp only [List.take_succ_cons, List.mem_cons] at hit
        rcases hit with rfl | hit
        · exact hs.1 p hp
        · exact h1 it hit
      · intro it hit
        simp only [List.drop_succ_cons] at hit
        exact h2 it hit

theorem take_succ_of_get {σ : Type} :
    ∀ (v : List (item_t σ)) (k : Nat) (p : item_t σ), v.get? k = some p →
      v.take (k + 1) = v.take k ++ [p] ∧ v.drop k = p :: v.drop (k + 1) := by
  intro v
  induction v with
  | nil => intro k p h; simp at h
  | cons a v ih =>
    intro k p hk
    cases k with
    | zero =>
      simp only [List.get?_cons_zero, Option.some.injEq] at hk
      subst hk
      simp
    | succ k =>
      simp only [List.get?_cons_succ] at hk
      obtain ⟨h1, h2⟩ := ih k p hk
      simp [h1, h2]

theorem search_spec {σ : Type} (v : List (item_t σ)) (id : Int)
    (hs : v.Pairwise (fun a b => a.nType < b.nType)) :
    ∀ (fuel : Nat) (first last : Nat),
      first ≤ last → last ≤ v.length → last - first ≤ fuel →
      (∀ it ∈ v.take first, it.nType < id) → (∀ it ∈ v.drop last, id < it.nType) →
      search_ok v id (search v id fuel (first : Int) ((last : Int) - 1)) := by
  intro fuel
  induction fuel with
  | zero =>
    intro first last hfl hl hfuel h1 h2
    have : first = last := by omega
    subst this
    unfold search
    rw [if_neg (by omega)]
    exact Or.inr ⟨first, rfl, hl, h1, h2⟩
  | succ fuel ih =>
    intro first last hfl hl hfuel h1 h2
    unfold search
    by_cases hlt : (first : Int) ≤ (last : Int) - 1
    · rw [if_pos hlt]
      simp only []
      have hidx : ((first : Int) + ((last : Int) - 1)) / 2 = (((first + (last - 1)) / 2 : Nat) : Int) := by
        omega
      rw [hidx]
      set k := (first + (last - 1)) / 2 with hk
      have hk1 : first ≤ k := by omega
      have hk2 : k < last := by omega
      rw [if_neg (by omega)]
      simp only [Int.toNat_ofNat]
      obtain ⟨p, hp⟩ : ∃ p, v.get? k = some p := by
        have : k < v.length := by omega
        exact ⟨v.get ⟨k, this⟩, List.get?_eq_get this⟩
      rw [hp]
      simp only []
      obtain ⟨hpre, hpost⟩ := sorted_split v k p hs hp
      obtain ⟨htk, hdk⟩ := take_succ_of_get v k p hp
      by_cases heq : p.nType = id
      · rw [if_pos heq]
        exact Or.inl ⟨k, p, rfl, hp, heq⟩
      · rw [if_neg heq]
        by_cases hless : p.nType < id
        · rw [if_pos hless]
          have := ih (k + 1) last (by omega) hl (by omega) (by
            intro it hit
            rw [htk] at hit
            rcases List.mem_append.1 hit with hit | hit
            · exact lt_trans (hpre it hit) hless
            · rw [List.mem_singleton] at hit
              subst hit
              exact hless) h2
          simpa using this
        · rw [if_neg hless]
          have hgt : id < p.nType := lt_of_le_of_ne (not_lt.1 hless) (Ne.symm heq)
          have := ih first k hk1 (by omega) (by omega) h1 (by
            intro it hit
            rw [hdk] at hit
            rcases List.mem_cons.1 hit with rfl | hit
            · exact hgt
            · exact lt_trans hgt (hpost it hit))
          simpa using this
    · rw [if_neg hlt]
      have : first = last := by omega
      subst this
      exact Or.inr ⟨first, rfl, hl, h1, h2⟩

theorem find_slot_spec {σ : Type} (v : List (item_t σ)) (id : Int)
    (hs : v.Pairwise (fun a b => a.nType < b.nType)) :
    search_ok v id (find_slot v id) := by
  unfold find_slot
  have := search_spec v id hs v.length 0 v.length (Nat.zero_le _) (le_refl _) (by omega)
    (by simp) (by simp)
  simpa using this

theorem insert_at_sorted {σ : Type} (v : List (item_t σ)) (f : Nat) (ptr : item_t σ)
    (hs : v.Pairwise (fun a b => a.nType < b.nType))
    (h1 : ∀ it ∈ v.take f, it.nType < ptr.nType)
    (h2 : ∀ it ∈ v.drop f, ptr.nType < it.nType) :
    (insert_at v f ptr).Pairwise (fun a b => a.nType < b.nType) := by
  unfold insert_at
  rw [List.pairwise_append]
  refine ⟨hs.sublist (List.take_sublist _ _), ?_, ?_⟩
  · rw [List.pairwise_cons]
    exact ⟨h2, hs.sublist (List.drop_sublist _ _)⟩
  · intro a ha b hb
    rcases List.mem_cons.1 hb with rfl | hb
    · exact h1 a ha
    · exact lt_trans (h1 a ha) (h2 b hb)

theorem set_slot_ids {σ : Type} :
    ∀ (v : List (item_t σ)) (k : Nat) (p : item_t σ) (s : σ), v.get? k = some p →
      slot_ids (v.set k { p with sSlot := s }) = slot_ids v := by
  intro v
  induction v with
  | nil => intro k p s h; simp at h
  | cons a v ih =>
    intro k p s hk
    cases k with
    | zero =>
      simp only [List.get?_cons_zero, Option.some.injEq] at hk
      subst hk
      simp [slot_ids]
    | succ k =>
      simp only [List.get?_cons_succ] at hk
      have := ih k p s hk
      simp only [slot_ids, List.set_cons_succ, List.map_cons] at this ⊢
      rw [this]

theorem add_sorted {σ : Type} (api : slot_api σ) (v : List (item_t σ)) (id : Int)
    (alloc ins : Bool) (hs : slots_sorted v) :
    slots_sorted (SlotSet.add api v id alloc ins).2 := by
  have hp := (slots_sorted_iff v).1 hs
  unfold SlotSet.add
  rcases find_slot_spec v id hp with ⟨k, p, hres, hk, _⟩ | ⟨f, hres, hf, h1, h2⟩
  · rw [hres]
    simp only [Int.toNat_ofNat, hk]
    exact hs
  · rw [hres]
    simp only [Int.toNat_ofNat]
    split
    · exact hs
    · split
      · exact hs
      · exact (slots_sorted_iff _).2 (insert_at_sorted v f _ hp h1 h2)

theorem add_handler_sorted {σ : Type} (api : slot_api σ) (v : List (item_t σ)) (id : Int)
    (handler : Option Nat) (arg : Nat) (enabled alloc ins : Bool) (hs : slots_sorted v) :
    slots_sorted (SlotSet.add_handler api v id handler arg enabled alloc ins).2 := by
  have hp := (slots_sorted_iff v).1 hs
  unfold SlotSet.add_handler
  cases handler with
  | none => exact hs
  | some h =>
    simp only []
    rcases find_slot_spec v id hp with ⟨k, p, hres, hk, _⟩ | ⟨f, hres, hf, h1, h2⟩
    · rw [hres]
      simp only [Int.toNat_ofNat, hk]
      unfold slots_sorted
      rw [set_slot_ids v k p _ hk]
      exact hs
    · rw [hres]
      simp only [Int.toNat_ofNat]
      split
      · exact hs
      · split
        · exact hs
        · split
          · exact hs
          · exact (slots_sorted_iff _).2 (insert_at_sorted v f _ hp h1 h2)

theorem step_sorted {σ : Type} (api : slot_api σ) (v : List (item_t σ)) (c : slot_call)
    (hs : slots_sorted v) : slots_sorted (SlotSet.step api v c) := by
  cases c with
  | add id alloc ins => exact add_sorted api v id alloc ins hs
  | add_handler id handler arg enabled alloc ins =>
    exact add_handler_sorted api v id handler arg enabled alloc ins hs

theorem run_sorted {σ : Type} (api : slot_api σ) (calls : List slot_call) :
    ∀ v : List (item_t σ), slots_sorted v → slots_sorted (SlotSet.run api v calls) := by
  induction calls with
  | nil => intro v hs; exact hs
  | cons c cs ih => intro v hs; exact ih _ (step_sorted api v c hs)

/-- C9: after any sequence of calls of the two overloads of `SlotSet::add` on an empty
slot set, whatever the handlers, the behaviour of `Slot::bind` and the outcome of the
allocations, the identifiers stored in the array are strictly increasing. -/
theorem C9_slot_array_stays_sorted {σ : Type} (api : slot_api σ) (calls : List slot_call) :
    (slot_ids (SlotSet.run api [] calls)).Pairwise (fun a b => a < b) :=
  run_sorted api calls [] List.Pairwise.nil

/-! ## SlotSet::add and SlotSet::slot -/

theorem sorted_unique {σ : Type} :
    ∀ (v : List (item_t σ)), v.Pairwise (fun a b => a.nType < b.nType) →
      ∀ a ∈ v, ∀ b ∈ v, a.nType = b.nType → a = b := by
  intro v
  induction v with
  | nil => intro _ a ha; simp at ha
  | cons x v ih =>
    intro hs a ha b hb hab
    rw [List.pairwise_cons] at hs
    rcases List.mem_cons.1 ha with ha1 | ha1 <;> rcases List.mem_cons.1 hb with hb1 | hb1
    · rw [ha1, hb1]
    · have := hs.1 b hb1; rw [ha1] at hab; omega
    · have := hs.1 a ha1; rw [hb1] at hab; omega
    · exact ih hs.2 a ha1 b hb1 hab

theorem mem_take_or_drop {σ : Type} (v : List (item_t σ)) (f : Nat) (it : item_t σ)
    (h : it ∈ v) : it ∈ v.take f ∨ it ∈ v.drop f := by
  rw [← List.take_append_drop f v] at h
  exact List.mem_append.1 h

theorem find_slot_found {σ : Type} (v : List (item_t σ)) (id : Int)
    (hs : v.Pairwise (fun a b => a.nType < b.nType)) (it : item_t σ) (hit : it ∈ v)
    (hid : it.nType = id) :
    ∃ k : Nat, find_slot v id = search_t.found (k : Int) ∧ v.get? k = some it := by
  rcases find_slot_spec v id hs with ⟨k, p, hres, hk, hp⟩ | ⟨f, _, _, h1, h2⟩
  · have : it = p := sorted_unique v hs it hit p (List.get?_mem hk) (by rw [hid, hp])
    subst this
    exact ⟨k, hres, hk⟩
  · rcases mem_take_or_drop v f it hit with h | h
    · have := h1 it h; omega
    · have := h2 it h; omega

theorem find_slot_absent {σ : Type} (v : List (item_t σ)) (id : Int)
    (hs : v.Pairwise (fun a b => a.nType < b.nType)) (hno : ∀ it ∈ v, it.nType ≠ id) :
    ∃ f : Nat, find_slot v id = search_t.absent (f : Int) ∧ f ≤ v.length
      ∧ (∀ it ∈ v.take f, it.nType < id) ∧ (∀ it ∈ v.drop f, id < it.nType) := by
  rcases find_slot_spec v id hs with ⟨k, p, _, hk, hp⟩ | h
  · exact absurd hp (hno p (List.get?_mem hk))
  · exact h

theorem slot_found {σ : Type} (v : List (item_t σ)) (id : Int) (hs : slots_sorted v)
    (it : item_t σ) (hit : it ∈ v) (hid : it.nType = id) :
    SlotSet.slot v id = slot_ptr.slot it := by
  obtain ⟨k, hres, hk⟩ := find_slot_found v id ((slots_sorted_iff v).1 hs) it hit hid
  simp only [SlotSet.slot, hres, Int.toNat_ofNat, hk]

theorem slot_absent {σ : Type} (v : List (item_t σ)) (id : Int) (hs : slots_sorted v)
    (hno : ∀ it ∈ v, it.nType ≠ id) : SlotSet.slot v id = slot_ptr.null := by
  obtain ⟨f, hres, _⟩ := find_slot_absent v id ((slots_sorted_iff v).1 hs) hno
  simp [SlotSet.slot, hres]

theorem slot_null_iff {σ : Type} (v : List (item_t σ)) (id : Int) (hs : slots_sorted v) :
    SlotSet.slot v id = slot_ptr.null ↔ ∀ it ∈ v, it.nType ≠ id := by
  constructor
  · intro h it hit hid
    rw [slot_found v id hs it hit hid] at h
    cases h
  · exact slot_absent v id hs

theorem mem_insert_at {σ : Type} (v : List (item_t σ)) (f : Nat) (p it : item_t σ) :
    it ∈ insert_at v f p ↔ it = p ∨ it ∈ v := by
  unfold insert_at
  rw [List.mem_append, List.mem_cons]
  constructor
  · rintro (h | h | h)
    · exact Or.inr (List.mem_of_mem_take h)
    · exact Or.inl h
    · exact Or.inr (List.mem_of_mem_drop h)
  · rintro (h | h)
    · exact Or.inr (Or.inl h)
    · rcases mem_take_or_drop v f it h with h | h
      · exact Or.inl h
      · exact Or.inr (Or.inr h)

theorem add_found {σ : Type} (api : slot_api σ) (v : List (item_t σ)) (id : Int)
    (alloc ins : Bool) (hs : slots_sorted v) (it : item_t σ) (hit : it ∈ v)
    (hid : it.nType = id) :
    SlotSet.add api v id alloc ins = (slot_ptr.slot it, v) := by
  obtain ⟨k, hres, hk⟩ := find_slot_found v id ((slots_sorted_iff v).1 hs) it hit hid
  simp only [SlotSet.add, hres, Int.toNat_ofNat, hk]

theorem add_absent {σ : Type} (api : slot_api σ) (v : List (item_t σ)) (id : Int)
    (hs : slots_sorted v) (hno : ∀ it ∈ v, it.nType ≠ id) :
    ∃ k, k ≤ v.length ∧ SlotSet.add api v id true true
      = (slot_ptr.slot ⟨id, api.new_slot⟩, insert_at v k ⟨id, api.new_slot⟩) := by
  obtain ⟨f, hres, hf, _⟩ := find_slot_absent v id ((slots_sorted_iff v).1 hs) hno
  refine ⟨f, hf, ?_⟩
  simp only [SlotSet.add, hres, Bool.not_true, Bool.false_eq_true, if_false, false_or,
    Int.toNat_ofNat]
  rw [if_neg]
  omega

theorem add_members {σ : Type} (api : slot_api σ) (v : List (item_t σ)) (id : Int)
    (hs : slots_sorted v) (other : Int) :
    (∀ it ∈ (SlotSet.add api v id true true).2, it.nType ≠ other)
      ↔ (other ≠ id ∧ ∀ it ∈ v, it.nType ≠ other) := by
  by_cases hex : ∃ it ∈ v, it.nType = id
  · obtain ⟨it, hit, hid⟩ := hex
    rw [add_found api v id true true hs it hit hid]
    constructor
    · intro h
      exact ⟨fun he => h it hit (by rw [hid, he]), h⟩
    · intro h
      exact h.2
  · have hno : ∀ it ∈ v, it.nType ≠ id := fun it hit hid => hex ⟨it, hit, hid⟩
    obtain ⟨k, _, hadd⟩ := add_absent api v id hs hno
    rw [hadd]
    simp only [mem_insert_at]
    constructor
    · intro h
      exact ⟨fun he => h _ (Or.inl rfl) he.symm, fun it hit => h it (Or.inr hit)⟩
    · rintro ⟨h1, h2⟩ it (rfl | hit)
      · exact fun he => h1 he.symm
      · exact h2 it hit

theorem run_add_members {σ : Type} (api : slot_api σ) (other : Int) :
    ∀ (ids : List Int) (v : List (item_t σ)), slots_sorted v →
      ((∀ it ∈ SlotSet.run api v (ids.map (fun i => slot_call.add i true true)),
          it.nType ≠ other)
        ↔ (other ∉ ids ∧ ∀ it ∈ v, it.nType ≠ other)) := by
  intro ids
  induction ids with
  | nil => intro v _; simp [SlotSet.run]
  | cons i ids ih =>
    intro v hs
    simp only [List.map_cons, SlotSet.run, SlotSet.step]
    rw [ih _ (add_sorted api v i true true hs), add_members api v i hs other]
    simp only [List.mem_cons, not_or]
    tauto

/-- C10: on a sorted array, `SlotSet::add(id)` with successful allocations returns the
slot stored under `id` and leaves the array as it is when there is one; otherwise it
inserts one item with that identifier and a new slot, all other items staying in place
and in order; the array stays sorted; a following `SlotSet::slot(id)` returns the slot
that `add` returned; and `slot(other)` is `NULL` exactly when `other` is neither `id`
nor the identifier of an item stored before the call; after any sequence of successful
calls of `add` on an empty slot set, `slot(other)` is `NULL` exactly for the
identifiers that were not added. -/
theorem C10_add_creates_or_finds {σ : Type} (api : slot_api σ) (v : List (item_t σ))
    (id : Int) (hs : slots_sorted v) :
    (∀ it ∈ v, it.nType = id → ∀ alloc ins : Bool,
        SlotSet.add api v id alloc ins = (slot_ptr.slot it, v))
      ∧ ((∀ it ∈ v, it.nType ≠ id) → ∃ k, k ≤ v.length ∧
          SlotSet.add api v id true true
            = (slot_ptr.slot ⟨id, api.new_slot⟩,
                v.take k ++ ⟨id, api.new_slot⟩ :: v.drop k))
      ∧ slots_sorted (SlotSet.add api v id true true).2
      ∧ (∃ it, it.nType = id ∧ (SlotSet.add api v id true true).1 = slot_ptr.slot it
          ∧ SlotSet.slot (SlotSet.add api v id true true).2 id = slot_ptr.slot it)
      ∧ (∀ other, SlotSet.slot (SlotSet.add api v id true true).2 other = slot_ptr.null
          ↔ (other ≠ id ∧ other ∉ slot_ids v))
      ∧ (∀ (ids : List Int) (other : Int),
          SlotSet.slot (SlotSet.run api [] (ids.map (fun i => slot_call.add i true true)))
              other = slot_ptr.null
            ↔ other ∉ ids) := by
  have hs2 := add_sorted api v id true true hs
  refine ⟨fun it hit hid alloc ins => add_found api v id alloc ins hs it hit hid,
    fun hno => add_absent api v id hs hno, hs2, ?_, ?_, ?_⟩
  · by_cases hex : ∃ it ∈ v, it.nType = id
    · obtain ⟨it, hit, hid⟩ := hex
      refine ⟨it, hid, ?_, ?_⟩
      · rw [add_found api v id true true hs it hit hid]
      · rw [add_found api v id true true hs it hit hid]
        exact slot_found v id hs it hit hid
    · have hno : ∀ it ∈ v, it.nType ≠ id := fun it hit hid => hex ⟨it, hit, hid⟩
      obtain ⟨k, _, hadd⟩ := add_absent api v id hs hno
      refine ⟨⟨id, api.new_slot⟩, rfl, by rw [hadd], ?_⟩
      apply slot_found _ id hs2 _ _ rfl
      rw [hadd]
      exact (mem_insert_at _ _ _ _).2 (Or.inl rfl)
  · intro other
    rw [slot_null_iff _ other hs2, add_members api v id hs other]
    simp [slot_ids]
  · intro ids other
    rw [slot_null_iff _ other (run_sorted api _ [] List.Pairwise.nil),
      run_add_members api other ids [] List.Pairwise.nil]
    simp

/-- Witness of C10: adding 4 to the sorted array of the slots 3 and 5. -/
theorem C10_add_creates_or_finds_witness :
    slots_sorted ([⟨3, 0⟩, ⟨5, 0⟩] : List (item_t Nat))
      ∧ SlotSet.add counting_api [⟨3, 0⟩, ⟨5, 0⟩] 4 true true
        = (slot_ptr.slot ⟨4, 0⟩, [⟨3, 0⟩, ⟨4, 0⟩, ⟨5, 0⟩])
      ∧ slots_sorted (SlotSet.add counting_api [⟨3, 0⟩, ⟨5, 0⟩] 4 true true).2 :=
  ⟨by unfold slots_sorted; decide, by decide,
    (C10_add_creates_or_finds counting_api [⟨3, 0⟩, ⟨5, 0⟩] 4
      (by unfold slots_sorted; decide)).2.2.1⟩

/-! ## SlotSet: the search on any array -/

theorem search_total {σ : Type} (v : List (item_t σ)) (id : Int) :
    ∀ (fuel : Nat) (first last : Nat),
      first ≤ last → last ≤ v.length → last - first ≤ fuel →
      (∃ (k : Nat) (p : item_t σ),
          search v id fuel (first : Int) ((last : Int) - 1) = search_t.found (k : Int)
            ∧ v.get? k = some p ∧ p.nType = id)
        ∨ (∃ f : Nat,
          search v id fuel (first : Int) ((last : Int) - 1) = search_t.absent (f : Int)
            ∧ f ≤ v.length) := by
  intro fuel
  induction fuel with
  | zero =>
    intro first last hfl hl hfuel
    have : first = last := by omega
    subst this
    unfold search
    rw [if_neg (by omega)]
    exact Or.inr ⟨first, rfl, hl⟩
  | succ fuel ih =>
    intro first last hfl hl hfuel
    unfold search
    by_cases hlt : (first : Int) ≤ (last : Int) - 1
    · rw [if_pos hlt]
      simp only []
      have hidx : ((first : Int) + ((last : Int) - 1)) / 2
          = (((first + (last - 1)) / 2 : Nat) : Int) := by
        omega
      rw [hidx]
      set k := (first + (last - 1)) / 2 with hk
      have hk1 : first ≤ k := by omega
      have hk2 : k < last := by omega
      rw [if_neg (by omega)]
      simp only [Int.toNat_ofNat]
      obtain ⟨p, hp⟩ : ∃ p, v.get? k = some p := by
        have : k < v.length := by omega
        exact ⟨v.get ⟨k, this⟩, List.get?_eq_get this⟩
      rw [hp]
      simp only []
      by_cases heq : p.nType = id
      · rw [if_pos heq]
        exact Or.inl ⟨k, p, rfl, hp, heq⟩
      · rw [if_neg heq]
        by_cases hless : p.nType < id
        · rw [if_pos hless]
          have := ih (k + 1) last (by omega) hl (by omega)
          simpa using this
        · rw [if_neg hless]
          have := ih first k hk1 (by omega) (by omega)
          simpa using this
    · rw [if_neg hlt]
      have : first = last := by omega
      subst this
      exact Or.inr ⟨first, rfl, hl⟩

theorem find_slot_total {σ : Type} (v : List (item_t σ)) (id : Int) :
    (∃ (k : Nat) (p : item_t σ), find_slot v id = search_t.found (k : Int)
        ∧ v.get? k = some p ∧ p.nType = id)
      ∨ (∃ f : Nat, find_slot v id = search_t.absent (f : Int) ∧ f ≤ v.length) := by
  unfold find_slot
  have := search_total v id v.length 0 v.length (Nat.zero_le _) (le_refl _) (by omega)
  simpa using this

theorem find_slot_missing {σ : Type} (v : List (item_t σ)) (id : Int)
    (hno : ∀ it ∈ v, it.nType ≠ id) :
    ∃ f : Nat, find_slot v id = search_t.absent (f : Int) ∧ f ≤ v.length := by
  rcases find_slot_total v id with ⟨k, p, _, hk, hp⟩ | h
  · exact absurd hp (hno p (List.get?_mem hk))
  · exact h

/-! ## SlotSet::add with a handler -/

/-- C11: `SlotSet::add(id, handler, arg, enabled)` with a `NULL` handler returns
`-STATUS_BAD_ARGUMENTS`, a negative value as the status code is positive, and leaves
the array as it is, for every array, identifier and allocation outcome; with a handler
that is not `NULL` and successful allocations it returns the handler identifier given
by `Slot::bind`, which is not negative when `Slot::bind` succeeds. -/
theorem C11_add_without_handler_fails {σ : Type} (api : slot_api σ)
    (v : List (item_t σ)) (id : Int) (arg : Nat) (enabled : Bool) :
    (∀ alloc ins : Bool,
        SlotSet.add_handler api v id none arg enabled alloc ins
          = (some (-(api.code status_t.STATUS_BAD_ARGUMENTS)), v))
      ∧ (0 < api.code status_t.STATUS_BAD_ARGUMENTS →
          -(api.code status_t.STATUS_BAD_ARGUMENTS) < 0)
      ∧ (∀ h : Nat, (∀ s : σ, 0 ≤ (api.bind s h arg enabled).1) →
          ∃ hid : Int,
            (SlotSet.add_handler api v id (some h) arg enabled true true).1 = some hid
              ∧ 0 ≤ hid
              ∧ ((∃ it ∈ v, it.nType = id ∧ hid = (api.bind it.sSlot h arg enabled).1)
                ∨ hid = (api.bind api.new_slot h arg enabled).1)) := by
  refine ⟨fun _ _ => rfl, fun h => by omega, ?_⟩
  intro h hbind
  rcases find_slot_total v id with ⟨k, p, hres, hk, hp⟩ | ⟨f, hres, hf⟩
  · refine ⟨(api.bind p.sSlot h arg enabled).1, ?_, hbind _, Or.inl ⟨p, List.get?_mem hk, hp, rfl⟩⟩
    simp only [SlotSet.add_handler, hres, Int.toNat_ofNat, hk]
  · refine ⟨(api.bind api.new_slot h arg enabled).1, ?_, hbind _, Or.inr rfl⟩
    simp only [SlotSet.add_handler, hres, Int.toNat_ofNat, Bool.not_true,
      Bool.false_eq_true, if_false, false_or]
    rw [if_neg (not_lt.2 (hbind _)), if_neg]
    omega

/-- Witness of C11: binding a handler to the slot 4 of a set holding the slots 3
and 5, over slots whose `bind` answers the number of handlers bound before. -/
theorem C11_add_without_handler_fails_witness :
    (0 : Int) < counting_api.code status_t.STATUS_BAD_ARGUMENTS
      ∧ (∀ s : Nat, 0 ≤ (counting_api.bind s 7 9 true).1)
      ∧ SlotSet.add_handler counting_api [⟨3, 0⟩, ⟨5, 0⟩] 4 none 9 true true true
        = (some (-1), [⟨3, 0⟩, ⟨5, 0⟩])
      ∧ SlotSet.add_handler counting_api [⟨3, 0⟩, ⟨5, 0⟩] 4 (some 7) 9 true true true
        = (some 0, [⟨3, 0⟩, ⟨4, 1⟩, ⟨5, 0⟩])
      ∧ ∃ hid : Int,
          (SlotSet.add_handler counting_api [⟨3, 0⟩, ⟨5, 0⟩] 4 (some 7) 9 true true true).1
            = some hid ∧ 0 ≤ hid :=
  ⟨by decide, fun s => Int.ofNat_nonneg s, by decide, by decide,
    (fun ⟨hid, h1, h2, _⟩ => ⟨hid, h1, h2⟩)
      ((C11_add_without_handler_fails counting_api [⟨3, 0⟩, ⟨5, 0⟩] 4 9 true).2.2 7
        (fun s => Int.ofNat_nonneg s))⟩

/-! ## SlotSet: calls on a slot that was never added -/

theorem on_slot_missing {σ : Type} (v : List (item_t σ)) (id : Int) (null_value : Int)
    (method : σ → Int × σ) (hno : ∀ it ∈ v, it.nType ≠ id) :
    SlotSet.on_slot v id null_value method = (some null_value, v) := by
  obtain ⟨f, hres, _⟩ := find_slot_missing v id hno
  simp only [SlotSet.on_slot, hres]

theorem slot_missing {σ : Type} (v : List (item_t σ)) (id : Int)
    (hno : ∀ it ∈ v, it.nType ≠ id) : SlotSet.slot v id = slot_ptr.null := by
  obtain ⟨f, hres, _⟩ := find_slot_missing v id hno
  simp only [SlotSet.slot, hres]

/-- C12: on every array that holds no slot for `id`, `SlotSet::slot` is `NULL`; `bind`,
`intercept` and `unbind(id, handler, arg)` return `-STATUS_NOT_FOUND`;
`unbind(id, handler_id)`, `enable`, `disable` and `execute` return `STATUS_NOT_FOUND`;
`unbind_all`, `enable_all` and `disable_all` return 0; and each of them leaves the
array as it is, so that no slot is created. -/
theorem C12_missing_slot_not_found {σ : Type} (api : slot_api σ) (m : slot_methods σ)
    (v : List (item_t σ)) (id : Int) (hno : ∀ it ∈ v, it.nType ≠ id) :
    SlotSet.slot v id = slot_ptr.null
      ∧ (∀ handler arg enabled, SlotSet.bind api m v id handler arg enabled
          = (some (-(api.code status_t.STATUS_NOT_FOUND)), v))
      ∧ (∀ handler arg enabled, SlotSet.intercept api m v id handler arg enabled
          = (some (-(api.code status_t.STATUS_NOT_FOUND)), v))
      ∧ (∀ handler arg, SlotSet.unbind api m v id handler arg
          = (some (-(api.code status_t.STATUS_NOT_FOUND)), v))
      ∧ (∀ handler, SlotSet.unbind_id api m v id handler
          = (some (api.code status_t.STATUS_NOT_FOUND), v))
      ∧ (∀ handler, SlotSet.enable api m v id handler
          = (some (api.code status_t.STATUS_NOT_FOUND), v))
      ∧ (∀ handler, SlotSet.disable api m v id handler
          = (some (api.code status_t.STATUS_NOT_FOUND), v))
      ∧ (∀ sender data, SlotSet.execute api m v id sender data
          = (some (api.code status_t.STATUS_NOT_FOUND), v))
      ∧ SlotSet.unbind_all m v id = (some 0, v)
      ∧ SlotSet.enable_all m v id = (some 0, v)
      ∧ SlotSet.disable_all m v id = (some 0, v) :=
  ⟨slot_missing v id hno,
    fun _ _ _ => on_slot_missing v id _ _ hno,
    fun _ _ _ => on_slot_missing v id _ _ hno,
    fun _ _ => on_slot_missing v id _ _ hno,
    fun _ => on_slot_missing v id _ _ hno,
    fun _ => on_slot_missing v id _ _ hno,
    fun _ => on_slot_missing v id _ _ hno,
    fun _ _ => on_slot_missing v id _ _ hno,
    on_slot_missing v id _ _ hno,
    on_slot_missing v id _ _ hno,
    on_slot_missing v id _ _ hno⟩

/-- Witness of C12: the slot 4 in a set that holds the slots 3 and 5. -/
theorem C12_missing_slot_not_found_witness :
    (∀ it ∈ ([⟨3, 0⟩, ⟨5, 0⟩] : List (item_t Nat)), it.nType ≠ 4)
      ∧ SlotSet.execute counting_api counting_methods [⟨3, 0⟩, ⟨5, 0⟩] 4 0 0
        = (some (counting_api.code status_t.STATUS_NOT_FOUND), [⟨3, 0⟩, ⟨5, 0⟩])
      ∧ SlotSet.execute counting_api counting_methods [⟨3, 0⟩, ⟨5, 0⟩] 4 0 0
        = (some 1, [⟨3, 0⟩, ⟨5, 0⟩])
      ∧ SlotSet.bind counting_api counting_methods [⟨3, 0⟩, ⟨5, 0⟩] 5 (some 7) 0 true
        = (some 0, [⟨3, 0⟩, ⟨5, 1⟩]) :=
  ⟨by decide,
    (C12_missing_slot_not_found counting_api counting_methods [⟨3, 0⟩, ⟨5, 0⟩] 4
      (by decide)).2.2.2.2.2.2.2.1 0 0,
    by decide, by decide⟩

/-! ## Box::add, Box::remove, Box::remove_all -/

/-- C13: when the allocation of the cell succeeds, `Box::add` of a widget that is not
`NULL` returns `STATUS_OK`; the array of cells becomes the old array followed by one
cell that holds the widget, with the limits -1, a zero allocation and a zero realized
rectangle; the old cells keep their content and order; the widget records the box as
its parent, and the parent of every other widget stays. -/
theorem C13_add_appends_child (b : box_t) (wd : Widget) (p : padding_t) :
    (Box.add b (some wd) true p).1 = status_t.STATUS_OK
      ∧ (Box.add b (some wd) true p).2.vItems
        = b.vItems ++ [⟨⟨-1, -1, -1, -1⟩, ⟨0, 0, 0, 0⟩, ⟨0, 0, 0, 0⟩, p, some wd⟩]
      ∧ (Box.add b (some wd) true p).2.vItems.take b.vItems.length = b.vItems
      ∧ (Box.add b (some wd) true p).2.pParent wd.id = some b.self
      ∧ (∀ w, w ≠ wd.id → (Box.add b (some wd) true p).2.pParent w = b.pParent w)
      ∧ (Box.add b (some wd) true p).2.self = b.self := by
  refine ⟨rfl, rfl, ?_, ?_, ?_, rfl⟩
  · simp [Box.add]
  · simp [Box.add, set_parent]
  · intro w hw
    simp [Box.add, set_parent, hw]

theorem held_widgets_append (v : List cell_t) (cell : cell_t) :
    held_widgets (v ++ [cell])
      = held_widgets v ++ (match cell.pWidget with
          | some wd => [wd.id]
          | none => []) := by
  unfold held_widgets
  rw [List.filterMap_append]
  cases h : cell.pWidget <;> simp [List.filterMap, h]

theorem remove_cell_held (child : Nat) :
    ∀ (v rest : List cell_t), remove_cell child v = some rest →
      child ∈ held_widgets v ∧ held_widgets rest = (held_widgets v).erase child := by
  intro v
  induction v with
  | nil => intro rest h; simp [remove_cell] at h
  | cons cell cells ih =>
    intro rest h
    unfold remove_cell at h
    cases hw : cell.pWidget with
    | none =>
      have hh : holds_widget cell child = false := by simp [holds_widget, hw]
      rw [hh] at h
      simp only [Bool.false_eq_true, if_false] at h
      cases hr : remove_cell child cells with
      | none => rw [hr] at h; cases h
      | some r =>
        rw [hr] at h
        simp only [Option.some.injEq] at h
        subst h
        obtain ⟨h1, h2⟩ := ih r hr
        simp only [held_widgets, List.filterMap_cons, hw, Option.map_none'] at h1 h2 ⊢
        exact ⟨h1, h2⟩
    | some wd =>
      by_cases hid : wd.id = child
      · have hh : holds_widget cell child = true := by simp [holds_widget, hw, hid]
        rw [hh] at h
        simp only [if_true, Option.some.injEq] at h
        subst h
        simp only [held_widgets, List.filterMap_cons, hw, Option.map_some', hid,
          List.mem_cons, true_or, List.erase_cons_head, and_self]
      · have hh : holds_widget cell child = false := by simp [holds_widget, hw, hid]
        rw [hh] at h
        simp only [Bool.false_eq_true, if_false] at h
        cases hr : remove_cell child cells with
        | none => rw [hr] at h; cases h
        | some r =>
          rw [hr] at h
          simp only [Option.some.injEq] at h
          subst h
          obtain ⟨h1, h2⟩ := ih r hr
          simp only [held_widgets, List.filterMap_cons, hw, Option.map_some'] at h1 h2 ⊢
          refine ⟨List.mem_cons_of_mem _ h1, ?_⟩
          rw [List.erase_cons_tail (by simpa using hid), h2]

theorem unparent_all_apply :
    ∀ (cells : List cell_t) (pParent : Nat → Option Nat) (w : Nat),
      unparent_all pParent cells w
        = if w ∈ held_widgets cells then none else pParent w := by
  intro cells
  induction cells with
  | nil => intro pParent w; simp [unparent_all, held_widgets]
  | cons cell cells ih =>
    intro pParent w
    unfold unparent_all
    cases hw : cell.pWidget with
    | none =>
      simp only [ih, held_widgets, List.filterMap_cons, hw, Option.map_none']
    | some wd =>
      simp only [ih, held_widgets, List.filterMap_cons, hw, Option.map_some',
        List.mem_cons, set_parent]
      by_cases h1 : w = wd.id
      · simp [h1]
      · simp only [h1, false_or, if_false]

theorem add_keeps_inv (b : box_t) (widget : Option Widget) (mem : Bool) (p : padding_t)
    (hinv : box_inv b)
    (hnew : ∀ wd, widget = some wd → wd.id ∉ held_widgets b.vItems) :
    box_inv (Box.add b widget mem p).2 := by
  obtain ⟨hnd, hpar⟩ := hinv
  unfold Box.add
  cases mem with
  | false => exact ⟨hnd, hpar⟩
  | true =>
    cases widget with
    | none =>
      simp only [Bool.not_true, Bool.false_eq_true, if_false, box_inv,
        held_widgets_append, List.append_nil]
      exact ⟨hnd, hpar⟩
    | some wd =>
      have hn := hnew wd rfl
      simp only [Bool.not_true, Bool.false_eq_true, if_false, box_inv,
        held_widgets_append]
      refine ⟨?_, ?_⟩
      · rw [List.nodup_append]
        refine ⟨hnd, List.nodup_singleton _, ?_⟩
        intro a ha hb
        rw [List.mem_singleton] at hb
        subst hb
        exact hn ha
      · intro w
        simp only [List.mem_append, List.mem_singleton, set_parent]
        by_cases h1 : w = wd.id
        · simp [h1]
        · simp only [h1, or_false, if_false]
          exact hpar w

theorem remove_keeps_inv (b : box_t) (child : Widget) (hinv : box_inv b) :
    box_inv (Box.remove b child).2 := by
  obtain ⟨hnd, hpar⟩ := hinv
  unfold Box.remove
  cases hr : remove_cell child.id b.vItems with
  | none => exact ⟨hnd, hpar⟩
  | some rest =>
    obtain ⟨_, h2⟩ := remove_cell_held child.id b.vItems rest hr
    simp only [box_inv, h2]
    refine ⟨hnd.erase _, ?_⟩
    intro w
    rw [hnd.mem_erase_iff]
    simp only [set_parent]
    by_cases h1 : w = child.id
    · simp [h1]
    · simp only [h1, ne_eq, not_false_eq_true, true_and, if_false]
      exact hpar w

theorem remove_all_keeps_inv (b : box_t) (hinv : box_inv b) :
    box_inv (Box.remove_all b).2 := by
  obtain ⟨hnd, hpar⟩ := hinv
  unfold Box.remove_all
  split
  · exact ⟨hnd, hpar⟩
  · simp only [box_inv, held_widgets, List.filterMap_nil, List.nodup_nil, true_and,
      List.not_mem_nil, false_iff]
    intro w
    rw [unparent_all_apply]
    split
    · simp
    · rename_i h
      exact fun hp => h ((hpar w).2 hp)

theorem run_keeps_inv :
    ∀ (calls : List box_call) (b : box_t), box_inv b → adds_new_widgets b calls = true →
      box_inv (Box.run b calls) := by
  intro calls
  induction calls with
  | nil => intro b h _; exact h
  | cons c cs ih =>
    intro b hinv hnew
    simp only [adds_new_widgets, Bool.and_eq_true] at hnew
    obtain ⟨h1, h2⟩ := hnew
    apply ih _ _ h2
    cases c with
    | add widget mem p =>
      apply add_keeps_inv b widget mem p hinv
      intro wd hwd
      subst hwd
      simpa using h1
    | remove child => exact remove_keeps_inv b child hinv
    | remove_all => exact remove_all_keeps_inv b hinv

/-- C14, as amended: after any sequence of calls of `Box::add`, `Box::remove` and
`Box::remove_all` on an empty box in which `add` is never called with a widget that
the box holds at that time, every widget occupies at most one cell of the box, and a
widget is held in a cell of the box exactly when its parent is the box. -/
theorem C14_child_has_one_place (self : Nat) (calls : List box_call)
    (hnew : adds_new_widgets (empty_box self) calls = true) :
    (held_widgets (Box.run (empty_box self) calls).vItems).Nodup
      ∧ (∀ w : Nat, w ∈ held_widgets (Box.run (empty_box self) calls).vItems
          ↔ (Box.run (empty_box self) calls).pParent w
              = some (Box.run (empty_box self) calls).self) :=
  run_keeps_inv calls (empty_box self)
    ⟨List.nodup_nil, fun w => by simp [empty_box, held_widgets]⟩ hnew

/-- Witness of C14: two widgets are added, the first one is removed and added
again. -/
theorem C14_child_has_one_place_witness :
    adds_new_widgets (empty_box 0)
        [box_call.add (some (plain_widget 1 true 32 32)) true ⟨0, 0, 0, 0⟩,
         box_call.add (some (plain_widget 2 true 32 32)) true ⟨0, 0, 0, 0⟩,
         box_call.remove (plain_widget 1 true 32 32),
         box_call.add (some (plain_widget 1 true 32 32)) true ⟨0, 0, 0, 0⟩] = true
      ∧ held_widgets (Box.run (empty_box 0)
        [box_call.add (some (plain_widget 1 true 32 32)) true ⟨0, 0, 0, 0⟩,
         box_call.add (some (plain_widget 2 true 32 32)) true ⟨0, 0, 0, 0⟩,
         box_call.remove (plain_widget 1 true 32 32),
         box_call.add (some (plain_widget 1 true 32 32)) true ⟨0, 0, 0, 0⟩]).vItems = [2, 1]
      ∧ (held_widgets (Box.run (empty_box 0)
        [box_call.add (some (plain_widget 1 true 32 32)) true ⟨0, 0, 0, 0⟩,
         box_call.add (some (plain_widget 2 true 32 32)) true ⟨0, 0, 0, 0⟩,
         box_call.remove (plain_widget 1 true 32 32),
         box_call.add (some (plain_widget 1 true 32 32)) true ⟨0, 0, 0, 0⟩]).vItems).Nodup :=
  ⟨by decide, by decide,
    (C14_child_has_one_place 0
      [box_call.add (some (plain_widget 1 true 32 32)) true ⟨0, 0, 0, 0⟩,
       box_call.add (some (plain_widget 2 true 32 32)) true ⟨0, 0, 0, 0⟩,
       box_call.remove (plain_widget 1 true 32 32),
       box_call.add (some (plain_widget 1 true 32 32)) true ⟨0, 0, 0, 0⟩]
      (by decide)).1⟩

/-- C14, counterexample: `Box::add` called twice with the same widget on an empty box
leaves the widget in two cells; a following `Box::remove` of the widget takes one of
the cells away and sets the parent of the widget to `NULL`, while the other cell still
holds the widget. -/
theorem C14_widget_added_twice :
    held_widgets (Box.run (empty_box 0)
        [box_call.add (some (plain_widget 1 true 32 32)) true ⟨0, 0, 0, 0⟩,
         box_call.add (some (plain_widget 1 true 32 32)) true ⟨0, 0, 0, 0⟩]).vItems = [1, 1]
      ∧ held_widgets (Box.run (empty_box 0)
        [box_call.add (some (plain_widget 1 true 32 32)) true ⟨0, 0, 0, 0⟩,
         box_call.add (some (plain_widget 1 true 32 32)) true ⟨0, 0, 0, 0⟩,
         box_call.remove (plain_widget 1 true 32 32)]).vItems = [1]
      ∧ (Box.run (empty_box 0)
        [box_call.add (some (plain_widget 1 true 32 32)) true ⟨0, 0, 0, 0⟩,
         box_call.add (some (plain_widget 1 true 32 32)) true ⟨0, 0, 0, 0⟩,
         box_call.remove (plain_widget 1 true 32 32)]).pParent 1 = none := by
  refine ⟨by decide, by decide, by decide⟩

/-! ## Box::allocate_proportional: the passes -/

theorem allocate_sizes_eq (horizontal : Bool) (spacing : Int) (r : rectangle_t)
    (visible : List cell_t) :
    allocate_sizes horizontal spacing r visible
      = fourth_pass horizontal (after_second_pass horizontal spacing r visible).2.toNat
          (after_second_pass horizontal spacing r visible).1
          (after_second_pass horizontal spacing r visible).2 := rfl

theorem add_size_zero (horizontal : Bool) (w : cell_t) : add_size horizontal w 0 = w := by
  cases horizontal <;> simp [add_size]

theorem add_size_add (horizontal : Bool) (w : cell_t) (d e : Int) :
    add_size horizontal (add_size horizontal w d) e = add_size horizontal w (d + e) := by
  cases horizontal <;> simp [add_size, add_assoc]

theorem a_size_add_size (horizontal : Bool) (w : cell_t) (d : Int) :
    a_size horizontal (add_size horizontal w d) = a_size horizontal w + d := by
  cases horizontal <;> simp [add_size, a_size]

theorem expands_add_size (horizontal : Bool) (w : cell_t) (d : Int) :
    expands horizontal (add_size horizontal w d) = expands horizontal w := by
  cases horizontal <;> simp [add_size, expands]

theorem add_size_fields (horizontal : Bool) (w : cell_t) (d : Int) :
    (add_size horizontal w d).r = w.r ∧ (add_size horizontal w d).s = w.s
      ∧ (add_size horizontal w d).p = w.p ∧ (add_size horizontal w d).pWidget = w.pWidget
      ∧ (add_size horizontal w d).a.nLeft = w.a.nLeft
      ∧ (add_size horizontal w d).a.nTop = w.a.nTop
      ∧ (add_size true w d).a.nHeight = w.a.nHeight
      ∧ (add_size false w d).a.nWidth = w.a.nWidth := by
  cases horizontal <;> simp [add_size]

theorem grown_refl (horizontal : Bool) (w : cell_t) : grown horizontal w w :=
  ⟨0, le_refl _, (add_size_zero horizontal w).symm⟩

theorem grown_trans (horizontal : Bool) (a b c : cell_t) (h1 : grown horizontal a b)
    (h2 : grown horizontal b c) : grown horizontal a c := by
  obtain ⟨d, hd, rfl⟩ := h1
  obtain ⟨e, he, rfl⟩ := h2
  exact ⟨d + e, by omega, add_size_add horizontal a d e⟩

theorem forall₂_comp {α : Type} {R S T : α → α → Prop}
    (hRS : ∀ x y z, R x y → S y z → T x z) :
    ∀ (a b c : List α), List.Forall₂ R a b → List.Forall₂ S b c → List.Forall₂ T a c := by
  intro a
  induction a with
  | nil =>
    intro b c h1 h2
    cases h1
    cases h2
    exact List.Forall₂.nil
  | cons x xs ih =>
    intro b c h1 h2
    cases h1 with
    | cons hxy hrest =>
      cases h2 with
      | cons hyz hrest2 =>
        exact List.Forall₂.cons (hRS _ _ _ hxy hyz) (ih _ _ hrest hrest2)

theorem forall₂_refl {α : Type} {R : α → α → Prop} (hR : ∀ x, R x x) :
    ∀ a : List α, List.Forall₂ R a a := by
  intro a
  induction a with
  | nil => exact List.Forall₂.nil
  | cons x xs ih => exact List.Forall₂.cons (hR x) ih

theorem first_pass_cell_widget (horizontal : Bool) (r : rectangle_t) (w : cell_t) :
    (first_pass_cell horizontal r w).pWidget = w.pWidget := by
  unfold first_pass_cell
  cases h : w.pWidget with
  | none => simp [h]
  | some wd => cases horizontal <;> simp [h]

theorem first_pass_cell_size (horizontal : Bool) (r : rectangle_t) (w : cell_t)
    (hw : hidden_widget w = false) :
    a_size horizontal (first_pass_cell horizontal r w) = min_alloc horizontal w := by
  obtain ⟨wd, hwd, _⟩ := (hidden_widget_false_iff w).1 hw
  cases horizontal <;> simp [first_pass_cell, min_alloc, a_size, hwd, lsp_max_eq]

theorem first_pass_cell_cross (r : rectangle_t) (w : cell_t)
    (hw : hidden_widget w = false) :
    (first_pass_cell true r w).a.nHeight = r.nHeight
      ∧ (first_pass_cell false r w).a.nWidth = r.nWidth := by
  obtain ⟨wd, hwd, _⟩ := (hidden_widget_false_iff w).1 hw
  simp [first_pass_cell, hwd]

theorem first_pass_cell_expands (horizontal : Bool) (r : rectangle_t) (w : cell_t) :
    expands horizontal (first_pass_cell horizontal r w) = expands horizontal w := by
  simp only [expands, first_pass_cell_widget]

theorem min_alloc_nonneg (horizontal : Bool) (w : cell_t) : 0 ≤ min_alloc horizontal w := by
  unfold min_alloc
  cases w.pWidget with
  | none => simp
  | some wd =>
    cases horizontal
    · have := le_max_left 0 wd.get_size_limits.nMinHeight
      simp only [Bool.false_eq_true, if_false]
      omega
    · have := le_max_left 0 wd.get_size_limits.nMinWidth
      simp only [if_true]
      omega

theorem first_pass_eq (horizontal : Bool) (r : rectangle_t) :
    ∀ (ws : List cell_t) (n_left n_expand : Int) (n_exp : Nat),
      first_pass horizontal r ws n_left n_expand n_exp
        = (ws.map (first_pass_cell horizontal r),
            n_left - total_size horizontal (ws.map (first_pass_cell horizontal r)),
            n_expand + total_size horizontal
              ((ws.map (first_pass_cell horizontal r)).filter (expands horizontal)),
            n_exp + ((ws.map (first_pass_cell horizontal r)).filter
              (expands horizontal)).length) := by
  intro ws
  induction ws with
  | nil => intro n_left n_expand n_exp; simp [first_pass, total_size]
  | cons w ws ih =>
    intro n_left n_expand n_exp
    unfold first_pass
    simp only [ih]
    cases he : expands horizontal (first_pass_cell horizontal r w) with
    | true =>
      simp only [if_true, List.map_cons, List.filter_cons_of_pos he, total_size,
        List.sum_cons, List.length_cons]
      refine Prod.ext rfl (Prod.ext ?_ (Prod.ext ?_ ?_)) <;> simp only [] <;> omega
    | false =>
      have hne : ¬ (expands horizontal (first_pass_cell horizontal r w) = true) := by
        rw [he]; simp
      simp only [Bool.false_eq_true, if_false, List.map_cons, total_size, List.sum_cons,
        List.filter_cons_of_neg hne]
      refine Prod.ext rfl (Prod.ext ?_ rfl)
      simp only []
      omega

theorem forall₂_map_self {α : Type} {R : α → α → Prop} (f : α → α) :
    ∀ l : List α, (∀ x ∈ l, R x (f x)) → List.Forall₂ R l (l.map f) := by
  intro l
  induction l with
  | nil => intro _; exact List.Forall₂.nil
  | cons x xs ih =>
    intro h
    exact List.Forall₂.cons (h x (List.mem_cons_self _ _))
      (ih (fun y hy => h y (List.mem_cons_of_mem _ hy)))

theorem split_all_eq (horizontal : Bool) (n_left n_size : Int) :
    ∀ (cells : List cell_t) (total : Int),
      split_all horizontal n_left n_size cells total
        = (cells.map (fun w =>
              add_size horizontal w ((a_size horizontal w * n_left) / n_size)),
            total + (cells.map (fun w => (a_size horizontal w * n_left) / n_size)).sum) := by
  intro cells
  induction cells with
  | nil => intro total; simp [split_all]
  | cons w ws ih =>
    intro total
    unfold split_all
    simp only [ih, List.map_cons, List.sum_cons]
    refine Prod.ext rfl ?_
    simp only []
    omega

theorem split_even_eq (horizontal : Bool) (delta : Int) :
    ∀ (cells : List cell_t) (total : Int),
      split_even horizontal delta cells total
        = (cells.map (fun w =>
              if expands horizontal w then add_size horizontal w delta else w),
            total + delta * ((cells.filter (expands horizontal)).length : Int)) := by
  intro cells
  induction cells with
  | nil => intro total; simp [split_even]
  | cons w ws ih =>
    intro total
    unfold split_even
    cases he : expands horizontal w with
    | true =>
      simp only [if_true, ih, List.map_cons, he, List.filter_cons_of_pos he,
        List.length_cons]
      refine Prod.ext rfl ?_
      simp only []
      push_cast
      ring
    | false =>
      have hne : ¬ (expands horizontal w = true) := by rw [he]; simp
      simp only [Bool.false_eq_true, if_false, ih, List.map_cons, he,
        List.filter_cons_of_neg hne]

theorem split_expand_eq (horizontal : Bool) (n_left n_expand : Int) :
    ∀ (cells : List cell_t) (total : Int),
      split_expand horizontal n_left n_expand cells total
        = (cells.map (fun w =>
              if expands horizontal w then
                add_size horizontal w ((a_size horizontal w * n_left) / n_expand)
              else w),
            total + ((cells.filter (expands horizontal)).map
              (fun w => (a_size horizontal w * n_left) / n_expand)).sum) := by
  intro cells
  induction cells with
  | nil => intro total; simp [split_expand]
  | cons w ws ih =>
    intro total
    unfold split_expand
    cases he : expands horizontal w with
    | true =>
      simp only [if_true, ih, List.map_cons, he, List.filter_cons_of_pos he,
        List.sum_cons]
      refine Prod.ext rfl ?_
      simp only []
      omega
    | false =>
      have hne : ¬ (expands horizontal w = true) := by rw [he]; simp
      simp only [Bool.false_eq_true, if_false, ih, List.map_cons, he,
        List.filter_cons_of_neg hne]

theorem shares_mul_le (horizontal : Bool) (n_left d : Int) (hd : 0 < d) :
    ∀ cells : List cell_t,
      (cells.map (fun w => (a_size horizontal w * n_left) / d)).sum * d
        ≤ n_left * total_size horizontal cells := by
  intro cells
  induction cells with
  | nil => simp [total_size]
  | cons w ws ih =>
    simp only [List.map_cons, List.sum_cons, total_size] at ih ⊢
    have h1 : (a_size horizontal w * n_left) / d * d ≤ a_size horizontal w * n_left :=
      Int.ediv_mul_le _ (ne_of_gt hd)
    nlinarith [h1, ih]

theorem shares_le (horizontal : Bool) (n_left d : Int) (hd : 0 < d) (hl : 0 ≤ n_left)
    (cells : List cell_t) (hsum : total_size horizontal cells ≤ d) :
    (cells.map (fun w => (a_size horizontal w * n_left) / d)).sum ≤ n_left := by
  have h1 := shares_mul_le horizontal n_left d hd cells
  have h2 : n_left * total_size horizontal cells ≤ n_left * d :=
    mul_le_mul_of_nonneg_left hsum hl
  exact le_of_mul_le_mul_right (le_trans h1 h2) hd

theorem total_size_nonneg (horizontal : Bool) :
    ∀ cells : List cell_t, (∀ w ∈ cells, 0 ≤ a_size horizontal w) →
      0 ≤ total_size horizontal cells := by
  intro cells
  induction cells with
  | nil => intro _; simp [total_size]
  | cons w ws ih =>
    intro h
    have h1 := h w (List.mem_cons_self _ _)
    have h2 := ih (fun x hx => h x (List.mem_cons_of_mem _ hx))
    simp only [total_size, List.map_cons, List.sum_cons] at h2 ⊢
    omega

theorem total_size_filter_le (horizontal : Bool) (f : cell_t → Bool) :
    ∀ cells : List cell_t, (∀ w ∈ cells, 0 ≤ a_size horizontal w) →
      total_size horizontal (cells.filter f) ≤ total_size horizontal cells := by
  intro cells
  induction cells with
  | nil => intro _; simp [total_size]
  | cons w ws ih =>
    intro h
    have h1 := h w (List.mem_cons_self _ _)
    have h2 := ih (fun x hx => h x (List.mem_cons_of_mem _ hx))
    cases hf : f w with
    | true =>
      rw [List.filter_cons_of_pos hf]
      simp only [total_size, List.map_cons, List.sum_cons] at h2 ⊢
      omega
    | false =>
      have hne : ¬ (f w = true) := by rw [hf]; simp
      rw [List.filter_cons_of_neg hne]
      simp only [total_size, List.map_cons, List.sum_cons] at h2 ⊢
      omega

/-- What the second pass does to cells whose allocations are not negative, when
`n_left` is what the first pass leaves: cells only grow, `n_left` does not grow and
does not become negative when it was positive, and nothing changes when it was not
positive. -/
theorem second_pass_spec (horizontal : Bool) (n_size : Int) (cells : List cell_t)
    (hpos : ∀ w ∈ cells, 0 ≤ a_size horizontal w) :
    List.Forall₂ (grown horizontal) cells
        (second_pass horizontal n_size cells (n_size - total_size horizontal cells)
          (total_size horizontal (cells.filter (expands horizontal)))
          (cells.filter (expands horizontal)).length).1
      ∧ (0 < n_size - total_size horizontal cells →
          0 ≤ (second_pass horizontal n_size cells (n_size - total_size horizontal cells)
            (total_size horizontal (cells.filter (expands horizontal)))
            (cells.filter (expands horizontal)).length).2)
      ∧ (second_pass horizontal n_size cells (n_size - total_size horizontal cells)
            (total_size horizontal (cells.filter (expands horizontal)))
            (cells.filter (expands horizontal)).length).2
          ≤ n_size - total_size horizontal cells
      ∧ (n_size - total_size horizontal cells ≤ 0 →
          second_pass horizontal n_size cells (n_size - total_size horizontal cells)
            (total_size horizontal (cells.filter (expands horizontal)))
            (cells.filter (expands horizontal)).length
            = (cells, n_size - total_size horizontal cells)) := by
  have hA := total_size_nonneg horizontal cells hpos
  have hfpos : ∀ w ∈ cells.filter (expands horizontal), 0 ≤ a_size horizontal w :=
    fun w hw => hpos w (List.mem_of_mem_filter hw)
  have hE := total_size_nonneg horizontal _ hfpos
  generalize hL : n_size - total_size horizontal cells = L at *
  unfold second_pass
  by_cases hl : L > 0
  · have hl0 : 0 ≤ L := le_of_lt hl
    have hS : 0 < n_size := by omega
    simp only [hl, if_true]
    by_cases hk : (cells.filter (expands horizontal)).length = 0
    · simp only [hk, if_true, split_all_eq, zero_add]
      have hle := shares_le horizontal L n_size hS hl0 cells (by omega)
      have hnn : 0 ≤ (cells.map (fun w => (a_size horizontal w * L) / n_size)).sum :=
        List.sum_nonneg (by
          intro x hx
          obtain ⟨w, hw, rfl⟩ := List.mem_map.1 hx
          exact Int.ediv_nonneg (mul_nonneg (hpos w hw) hl0) (le_of_lt hS))
      refine ⟨?_, fun _ => by omega, by omega, fun h => by omega⟩
      apply forall₂_map_self
      intro w hw
      exact ⟨_, Int.ediv_nonneg (mul_nonneg (hpos w hw) hl0) (le_of_lt hS), rfl⟩
    · simp only [hk, if_false]
      have hkpos : 0 < ((cells.filter (expands horizontal)).length : Int) := by
        have : 0 < (cells.filter (expands horizontal)).length := Nat.pos_of_ne_zero hk
        exact_mod_cast this
      by_cases he : total_size horizontal (cells.filter (expands horizontal)) = 0
      · simp only [he, if_true, split_even_eq, zero_add]
        have hq : 0 ≤ L / ((cells.filter (expands horizontal)).length : Int) :=
          Int.ediv_nonneg hl0 (le_of_lt hkpos)
        have hm : L / ((cells.filter (expands horizontal)).length : Int)
            * ((cells.filter (expands horizontal)).length : Int) ≤ L :=
          Int.ediv_mul_le _ (ne_of_gt hkpos)
        have hm0 : 0 ≤ L / ((cells.filter (expands horizontal)).length : Int)
            * ((cells.filter (expands horizontal)).length : Int) :=
          mul_nonneg hq (le_of_lt hkpos)
        refine ⟨?_, fun _ => by omega, by omega, fun h => by omega⟩
        apply forall₂_map_self
        intro w _
        split
        · exact ⟨_, hq, rfl⟩
        · exact grown_refl horizontal w
      · simp only [he, if_false, split_expand_eq, zero_add]
        have hEpos : 0 < total_size horizontal (cells.filter (expands horizontal)) :=
          lt_of_le_of_ne hE (Ne.symm he)
        have hle := shares_le horizontal L _ hEpos hl0
          (cells.filter (expands horizontal)) (le_refl _)
        have hnn : 0 ≤ ((cells.filter (expands horizontal)).map (fun w =>
            (a_size horizontal w * L)
              / total_size horizontal (cells.filter (expands horizontal)))).sum :=
          List.sum_nonneg (by
            intro x hx
            obtain ⟨w, hw, rfl⟩ := List.mem_map.1 hx
            exact Int.ediv_nonneg (mul_nonneg (hfpos w hw) hl0) (le_of_lt hEpos))
        refine ⟨?_, fun _ => by omega, by omega, fun h => by omega⟩
        apply forall₂_map_self
        intro w hw
        split
        · exact ⟨_, Int.ediv_nonneg (mul_nonneg (hpos w hw) hl0) (le_of_lt hEpos), rfl⟩
        · exact grown_refl horizontal w
  · simp only [hl, if_false]
    exact ⟨forall₂_refl (grown_refl horizontal) cells, fun h => h.elim,
      le_refl _, fun _ => trivial⟩

theorem grown_by_one_grown (horizontal : Bool) (w c : cell_t)
    (h : grown_by_one horizontal w c) : grown horizontal w c := by
  obtain ⟨d, hd, rfl⟩ := h
  exact ⟨d, by omega, rfl⟩

theorem hand_out_spec (horizontal : Bool) :
    ∀ (cells : List cell_t) (n_left : Int),
      List.Forall₂ (grown_by_one horizontal) cells (hand_out horizontal cells n_left).1
        ∧ total_size horizontal (hand_out horizontal cells n_left).1
          = total_size horizontal cells + (n_left - (hand_out horizontal cells n_left).2)
        ∧ (cells ≠ [] → (hand_out horizontal cells n_left).2 ≤ n_left - 1)
        ∧ (0 ≤ n_left → -1 ≤ (hand_out horizontal cells n_left).2)
        ∧ (0 ≤ n_left → n_left < cells.length →
            (hand_out horizontal cells n_left).2 = -1) := by
  intro cells
  induction cells with
  | nil =>
    intro n_left
    simp only [hand_out, total_size, List.map_nil, List.sum_nil, List.length_nil]
    refine ⟨List.Forall₂.nil, by omega, fun h => absurd rfl h, fun h => by omega,
      fun h1 h2 => ?_⟩
    have : n_left < 0 := by exact_mod_cast h2
    omega
  | cons w ws ih =>
    intro n_left
    unfold hand_out
    by_cases hn : n_left ≤ 0
    · simp only [hn, if_true, total_size, List.map_cons, List.sum_cons, a_size_add_size]
      refine ⟨List.Forall₂.cons ⟨1, Or.inr rfl, rfl⟩
        (forall₂_refl (fun x => ⟨0, Or.inl rfl, (add_size_zero horizontal x).symm⟩) ws),
        by omega, fun _ => le_refl _, fun h => by omega, fun h _ => by omega⟩
    · obtain ⟨h1, h2, h3, h4, h5⟩ := ih (n_left - 1)
      simp only [hn, if_false, total_size, List.map_cons, List.sum_cons, a_size_add_size]
      simp only [total_size] at h2
      refine ⟨List.Forall₂.cons ⟨1, Or.inr rfl, rfl⟩ h1, by omega, ?_,
        fun _ => h4 (by omega), ?_⟩
      · intro _
        cases ws with
        | nil => simp only [hand_out]; omega
        | cons x xs => have := h3 (by simp); omega
      · intro hn0 hlen
        apply h5 (by omega)
        simp only [List.length_cons] at hlen
        push_cast at hlen
        omega

/-- The loop of the fourth pass on a list that is not empty ends within `fuel` rounds
when `n_left` is at most `fuel`; the cells only grow, by `n_left` pixels less what is
left of it in total, and `n_left` ends at zero or below, and at -1 or above when it
started at zero or above. -/
theorem fourth_pass_spec (horizontal : Bool) :
    ∀ (fuel : Nat) (cells : List cell_t) (n_left : Int),
      cells ≠ [] → n_left ≤ fuel →
      ∃ (out : List cell_t) (n1 : Int),
        fourth_pass horizontal fuel cells n_left = some (out, n1)
          ∧ List.Forall₂ (grown horizontal) cells out
          ∧ total_size horizontal out = total_size horizontal cells + (n_left - n1)
          ∧ n1 ≤ 0
          ∧ (0 ≤ n_left → -1 ≤ n1)
          ∧ (n_left ≤ 0 → out = cells ∧ n1 = n_left) := by
  intro fuel
  induction fuel with
  | zero =>
    intro cells n_left _ hf
    have hn : ¬ (n_left > 0) := by
      have : n_left ≤ 0 := by exact_mod_cast hf
      omega
    refine ⟨cells, n_left, ?_, forall₂_refl (grown_refl horizontal) cells, by omega,
      by omega, fun h => by omega, fun _ => ⟨rfl, rfl⟩⟩
    unfold fourth_pass
    rw [if_neg hn]
  | succ fuel ih =>
    intro cells n_left hne hf
    by_cases hn : n_left > 0
    · obtain ⟨h1, h2, h3, h4, _⟩ := hand_out_spec horizontal cells n_left
      have hne1 : (hand_out horizontal cells n_left).1 ≠ [] := by
        intro h
        rw [h] at h1
        cases h1
        exact hne rfl
      have hf1 : (hand_out horizontal cells n_left).2 ≤ (fuel : Int) := by
        have := h3 hne
        push_cast at hf
        omega
      obtain ⟨out, n1, e1, e2, e3, e4, e5, _⟩ := ih _ _ hne1 hf1
      refine ⟨out, n1, ?_, ?_, by omega, e4, fun _ => ?_, fun h => by omega⟩
      · unfold fourth_pass
        rw [if_pos hn]
        exact e1
      · exact forall₂_comp (fun x y z hxy hyz =>
          grown_trans horizontal x y z (grown_by_one_grown horizontal x y hxy) hyz)
          _ _ _ h1 e2
      · by_cases hz : 0 ≤ (hand_out horizontal cells n_left).2
        · exact e5 hz
        · have := h4 (by omega)
          have hle : (hand_out horizontal cells n_left).2 ≤ 0 := by omega
          have hfp : fourth_pass horizontal fuel (hand_out horizontal cells n_left).1
              (hand_out horizontal cells n_left).2
              = some ((hand_out horizontal cells n_left).1,
                  (hand_out horizontal cells n_left).2) := by
            unfold fourth_pass
            rw [if_neg (by omega)]
          rw [hfp] at e1
          simp only [Option.some.injEq, Prod.mk.injEq] at e1
          omega
    · refine ⟨cells, n_left, ?_, forall₂_refl (grown_refl horizontal) cells, by omega,
        by omega, fun h => by omega, fun _ => ⟨rfl, rfl⟩⟩
      unfold fourth_pass
      rw [if_neg hn]

/-- When fewer pixels are left than there are cells, the fourth pass gives every cell
at most one pixel. -/
theorem fourth_pass_short (horizontal : Bool) (fuel : Nat) (cells : List cell_t)
    (n_left : Int) (h0 : 0 ≤ n_left) (hlen : n_left < cells.length)
    (hf : n_left ≤ fuel) :
    ∃ (out : List cell_t) (n1 : Int),
      fourth_pass horizontal fuel cells n_left = some (out, n1)
        ∧ List.Forall₂ (grown_by_one horizontal) cells out := by
  by_cases hn : n_left > 0
  · cases fuel with
    | zero =>
      have : n_left ≤ 0 := by exact_mod_cast hf
      omega
    | succ fuel =>
      obtain ⟨h1, _, _, _, h5⟩ := hand_out_spec horizontal cells n_left
      have hm := h5 h0 hlen
      refine ⟨(hand_out horizontal cells n_left).1, -1, ?_, h1⟩
      unfold fourth_pass
      rw [if_pos hn]
      simp only []
      unfold fourth_pass
      rw [hm, if_neg (by omega)]
  · refine ⟨cells, n_left, ?_,
      forall₂_refl (fun x => ⟨0, Or.inl rfl, (add_size_zero horizontal x).symm⟩) cells⟩
    unfold fourth_pass
    rw [if_neg hn]

/-! ## Box::allocate_proportional: positions -/

theorem geometry_pass_spec (enter : rectangle_t → padding_t → rectangle_t)
    (horizontal : Bool) (spacing : Int) :
    ∀ (cells : List cell_t) (l t : Int),
      (geometry_pass enter horizontal spacing cells l t).map (a_size horizontal)
          = spaced_sizes horizontal spacing cells
        ∧ (∀ c ∈ (geometry_pass enter horizontal spacing cells l t).head?,
            a_start horizontal c = if horizontal then l else t)
        ∧ List.Chain' (fun c d => a_start horizontal d
            = a_start horizontal c + a_size horizontal c)
            (geometry_pass enter horizontal spacing cells l t)
        ∧ List.Forall₂ (fun w c => cross_start horizontal c = (if horizontal then t else l)
            ∧ cross_size horizontal c = cross_size horizontal w
            ∧ c.r = w.r ∧ c.p = w.p ∧ c.pWidget = w.pWidget)
            cells (geometry_pass enter horizontal spacing cells l t) := by
  intro cells
  induction cells with
  | nil =>
    intro l t
    simp [geometry_pass, spaced_sizes]
  | cons w ws ih =>
    intro l t
    cases horizontal with
    | true =>
      cases ws with
      | nil =>
        simp [geometry_pass, spaced_sizes, a_size, a_start, cross_start, cross_size]
      | cons x xs =>
        obtain ⟨h1, h2, h3, h4⟩ := ih (l + (w.a.nWidth + spacing)) t
        unfold geometry_pass
        simp only [if_true, List.length_cons, gt_iff_lt, Nat.zero_lt_succ, add_size,
          List.map_cons, spaced_sizes, List.head?_cons, Option.mem_def,
          Option.some.injEq, forall_eq', List.chain'_cons', List.forall₂_cons]
        refine ⟨?_, ?_, ⟨?_, h3⟩, ?_, h4⟩
        · rw [h1]
          simp [a_size]
        · simp [a_start]
        · intro y hy
          have := h2 y hy
          simp only [if_true, a_start] at this
          simp [a_start, a_size, this]
        · simp [cross_start, cross_size]
    | false =>
      cases ws with
      | nil =>
        simp [geometry_pass, spaced_sizes, a_size, a_start, cross_start, cross_size]
      | cons x xs =>
        obtain ⟨h1, h2, h3, h4⟩ := ih l (t + (w.a.nHeight + spacing))
        unfold geometry_pass
        simp only [Bool.false_eq_true, if_false, List.length_cons, gt_iff_lt,
          Nat.zero_lt_succ, if_true, add_size,
          List.map_cons, spaced_sizes, List.head?_cons, Option.mem_def,
          Option.some.injEq, forall_eq', List.chain'_cons', List.forall₂_cons]
        refine ⟨?_, ?_, ⟨?_, h3⟩, ?_, h4⟩
        · rw [h1]
          simp [a_size]
        · simp [a_start]
        · intro y hy
          have := h2 y hy
          simp only [Bool.false_eq_true, if_false, a_start] at this
          simp [a_start, a_size, this]
        · simp [cross_start, cross_size]

/-! ## Box::allocate_proportional: the passes together -/

theorem total_size_first_pass (horizontal : Bool) (r : rectangle_t) :
    ∀ visible : List cell_t, (∀ w ∈ visible, hidden_widget w = false) →
      total_size horizontal (visible.map (first_pass_cell horizontal r))
        = (visible.map (min_alloc horizontal)).sum := by
  intro visible
  induction visible with
  | nil => intro _; simp [total_size]
  | cons w ws ih =>
    intro h
    have h1 := first_pass_cell_size horizontal r w (h w (List.mem_cons_self _ _))
    have h2 := ih (fun x hx => h x (List.mem_cons_of_mem _ hx))
    simp only [total_size, List.map_cons, List.sum_cons] at h2 ⊢
    rw [h1, h2]

theorem first_pass_sizes_nonneg (horizontal : Bool) (r : rectangle_t)
    (visible : List cell_t) (hvis : ∀ w ∈ visible, hidden_widget w = false) :
    ∀ c ∈ visible.map (first_pass_cell horizontal r), 0 ≤ a_size horizontal c := by
  intro c hc
  obtain ⟨w, hw, rfl⟩ := List.mem_map.1 hc
  rw [first_pass_cell_size horizontal r w (hvis w hw)]
  exact min_alloc_nonneg horizontal w

theorem after_first_pass_eq (horizontal : Bool) (spacing : Int) (r : rectangle_t)
    (visible : List cell_t) (hvis : ∀ w ∈ visible, hidden_widget w = false) :
    after_first_pass horizontal spacing r visible
      = (visible.map (first_pass_cell horizontal r),
          leftover horizontal spacing r visible,
          total_size horizontal
            ((visible.map (first_pass_cell horizontal r)).filter (expands horizontal)),
          ((visible.map (first_pass_cell horizontal r)).filter
            (expands horizontal)).length) := by
  unfold after_first_pass
  rw [first_pass_eq, total_size_first_pass horizontal r visible hvis]
  simp [leftover]

theorem after_second_pass_eq (horizontal : Bool) (spacing : Int) (r : rectangle_t)
    (visible : List cell_t) (hvis : ∀ w ∈ visible, hidden_widget w = false) :
    after_second_pass horizontal spacing r visible
      = second_pass horizontal
          (extent horizontal r - spacing * ((visible.length : Int) - 1))
          (visible.map (first_pass_cell horizontal r))
          (extent horizontal r - spacing * ((visible.length : Int) - 1)
            - total_size horizontal (visible.map (first_pass_cell horizontal r)))
          (total_size horizontal
            ((visible.map (first_pass_cell horizontal r)).filter (expands horizontal)))
          ((visible.map (first_pass_cell horizontal r)).filter
            (expands horizontal)).length := by
  unfold after_second_pass
  rw [after_first_pass_eq horizontal spacing r visible hvis,
    total_size_first_pass horizontal r visible hvis]
  rfl

theorem leftover_eq (horizontal : Bool) (spacing : Int) (r : rectangle_t)
    (visible : List cell_t) (hvis : ∀ w ∈ visible, hidden_widget w = false) :
    extent horizontal r - spacing * ((visible.length : Int) - 1)
        - total_size horizontal (visible.map (first_pass_cell horizontal r))
      = leftover horizontal spacing r visible := by
  rw [total_size_first_pass horizontal r visible hvis]
  rfl

/-- The passes of `Box::allocate_proportional` up to the fourth on a list of visible
children that is not empty: the loop of the fourth pass ends, every cell is the cell
of the first pass grown by some pixels, all cells are those of the first pass when the
leftover is not positive, and the sizes sum to the sizes after the second pass plus
the pixels handed out by the fourth. -/
theorem allocate_sizes_spec (horizontal : Bool) (spacing : Int) (r : rectangle_t)
    (visible : List cell_t) (hne : visible ≠ [])
    (hvis : ∀ w ∈ visible, hidden_widget w = false) :
    ∃ (out : List cell_t) (n1 : Int),
      allocate_sizes horizontal spacing r visible = some (out, n1)
        ∧ List.Forall₂ (grown horizontal) (visible.map (first_pass_cell horizontal r)) out
        ∧ (leftover horizontal spacing r visible ≤ 0 →
            out = visible.map (first_pass_cell horizontal r))
        ∧ n1 ≤ 0
        ∧ total_size horizontal out
          = total_size horizontal (after_second_pass horizontal spacing r visible).1
            + ((after_second_pass horizontal spacing r visible).2 - n1)
        ∧ List.Forall₂ (grown horizontal)
            (after_second_pass horizontal spacing r visible).1 out := by
  have hpos := first_pass_sizes_nonneg horizontal r visible hvis
  obtain ⟨s1, s2, s3, s4⟩ := second_pass_spec horizontal
    (extent horizontal r - spacing * ((visible.length : Int) - 1))
    (visible.map (first_pass_cell horizontal r)) hpos
  rw [← after_second_pass_eq horizontal spacing r visible hvis] at s1 s2 s3 s4
  rw [leftover_eq horizontal spacing r visible hvis] at s2 s3 s4
  have hne2 : (after_second_pass horizontal spacing r visible).1 ≠ [] := by
    intro h
    rw [h] at s1
    have := s1.length_eq
    simp only [List.length_map, List.length_nil] at this
    exact hne (List.length_eq_zero.1 this)
  obtain ⟨out, n1, e1, e2, e3, e4, e5, e6⟩ := fourth_pass_spec horizontal
    (after_second_pass horizontal spacing r visible).2.toNat
    (after_second_pass horizontal spacing r visible).1
    (after_second_pass horizontal spacing r visible).2 hne2 (Int.self_le_toNat _)
  refine ⟨out, n1, ?_, ?_, ?_, e4, e3, e2⟩
  · rw [allocate_sizes_eq]
    exact e1
  · exact forall₂_comp (fun x y z => grown_trans horizontal x y z) _ _ _ s1 e2
  · intro hl
    have h4 := s4 hl
    have h6 := e6 (by rw [h4]; exact hl)
    rw [h6.1, h4]

theorem forall₂_mem_right {α : Type} {R : α → α → Prop} :
    ∀ (l u : List α), List.Forall₂ R l u → ∀ c ∈ u, ∃ w ∈ l, R w c := by
  intro l u h
  induction h with
  | nil => intro c hc; simp at hc
  | cons hxy _ ih =>
    intro c hc
    rcases List.mem_cons.1 hc with rfl | hc
    · exact ⟨_, List.mem_cons_self _ _, hxy⟩
    · obtain ⟨w, hw, hr⟩ := ih c hc
      exact ⟨w, List.mem_cons_of_mem _ hw, hr⟩

theorem cross_size_add_size (horizontal : Bool) (w : cell_t) (d : Int) :
    cross_size horizontal (add_size horizontal w d) = cross_size horizontal w := by
  cases horizontal <;> simp [add_size, cross_size]

theorem cross_size_first_pass (horizontal : Bool) (r : rectangle_t) (w : cell_t)
    (hw : hidden_widget w = false) :
    cross_size horizontal (first_pass_cell horizontal r w)
      = if horizontal then r.nHeight else r.nWidth := by
  obtain ⟨h1, h2⟩ := first_pass_cell_cross r w hw
  cases horizontal <;> simp [cross_size, h1, h2]

theorem allocate_proportional_positions (enter : rectangle_t → padding_t → rectangle_t)
    (horizontal : Bool) (spacing : Int) (r : rectangle_t) (visible : List cell_t)
    (hne : visible ≠ []) (hvis : ∀ w ∈ visible, hidden_widget w = false) :
    ∃ (sizes : List cell_t) (n1 : Int) (out : List cell_t),
      allocate_sizes horizontal spacing r visible = some (sizes, n1)
        ∧ allocate_proportional enter horizontal spacing r visible
          = some (status_t.STATUS_OK, out)
        ∧ (∀ c ∈ out.head?, a_start horizontal c = if horizontal then r.nLeft else r.nTop)
        ∧ List.Chain' (fun c d => a_start horizontal d
            = a_start horizontal c + a_size horizontal c) out
        ∧ out.map (a_size horizontal) = spaced_sizes horizontal spacing sizes
        ∧ (∀ c ∈ out, cross_start horizontal c = (if horizontal then r.nTop else r.nLeft)
            ∧ cross_size horizontal c = (if horizontal then r.nHeight else r.nWidth))
        ∧ out.length = visible.length := by
  obtain ⟨sizes, n1, e1, e2, _⟩ := allocate_sizes_spec horizontal spacing r visible hne hvis
  obtain ⟨g1, g2, g3, g4⟩ := geometry_pass_spec enter horizontal spacing sizes r.nLeft r.nTop
  refine ⟨sizes, n1, geometry_pass enter horizontal spacing sizes r.nLeft r.nTop, e1, ?_,
    g2, g3, g1, ?_, ?_⟩
  · simp only [allocate_proportional, e1]
  · intro c hc
    obtain ⟨w, hw, hc1, hc2, _⟩ := forall₂_mem_right _ _ g4 c hc
    obtain ⟨v, hv, d, _, rfl⟩ := forall₂_mem_right _ _ e2 w hw
    obtain ⟨x, hx, rfl⟩ := List.mem_map.1 hv
    refine ⟨hc1, ?_⟩
    rw [hc2, cross_size_add_size, cross_size_first_pass horizontal r x (hvis x hx)]
  · have h1 := g4.length_eq
    have h2 := e2.length_eq
    simp only [List.length_map] at h2
    omega

/-- C15: the position pass of `Box::allocate_proportional` on a list of visible
children that is not empty. In a horizontal box the first cell starts at `r.nLeft`,
every following cell starts where the cell before it ends, the widths are the widths
after the fourth pass with the spacing added to every cell but the last, and every cell
has `nTop = r.nTop` and `nHeight = r.nHeight`; in a vertical box the same holds with
`nTop` and `nHeight` as the primary axis and `nLeft = r.nLeft`, `nWidth = r.nWidth`. -/
theorem C15_position_pass (enter : rectangle_t → padding_t → rectangle_t)
    (spacing : Int) (r : rectangle_t) (visible : List cell_t)
    (hne : visible ≠ []) (hvis : ∀ w ∈ visible, hidden_widget w = false) :
    (∃ (sizes : List cell_t) (n1 : Int) (out : List cell_t),
      allocate_sizes true spacing r visible = some (sizes, n1)
        ∧ allocate_proportional enter true spacing r visible
          = some (status_t.STATUS_OK, out)
        ∧ (∀ c ∈ out.head?, c.a.nLeft = r.nLeft)
        ∧ List.Chain' (fun c d => d.a.nLeft = c.a.nLeft + c.a.nWidth) out
        ∧ out.map (fun c => c.a.nWidth) = spaced_sizes true spacing sizes
        ∧ (∀ c ∈ out, c.a.nTop = r.nTop ∧ c.a.nHeight = r.nHeight)
        ∧ out.length = visible.length)
    ∧ (∃ (sizes : List cell_t) (n1 : Int) (out : List cell_t),
      allocate_sizes false spacing r visible = some (sizes, n1)
        ∧ allocate_proportional enter false spacing r visible
          = some (status_t.STATUS_OK, out)
        ∧ (∀ c ∈ out.head?, c.a.nTop = r.nTop)
        ∧ List.Chain' (fun c d => d.a.nTop = c.a.nTop + c.a.nHeight) out
        ∧ out.map (fun c => c.a.nHeight) = spaced_sizes false spacing sizes
        ∧ (∀ c ∈ out, c.a.nLeft = r.nLeft ∧ c.a.nWidth = r.nWidth)
        ∧ out.length = visible.length) := by
  constructor
  · obtain ⟨sizes, n1, out, h1, h2, h3, h4, h5, h6, h7⟩ :=
      allocate_proportional_positions enter true spacing r visible hne hvis
    refine ⟨sizes, n1, out, h1, h2, ?_, ?_, ?_, ?_, h7⟩
    · simpa [a_start] using h3
    · simpa [a_start, a_size] using h4
    · rw [← h5]
      simp [a_size]
    · simpa [cross_start, cross_size] using h6
  · obtain ⟨sizes, n1, out, h1, h2, h3, h4, h5, h6, h7⟩ :=
      allocate_proportional_positions enter false spacing r visible hne hvis
    refine ⟨sizes, n1, out, h1, h2, ?_, ?_, ?_, ?_, h7⟩
    · simpa [a_start] using h3
    · simpa [a_start, a_size] using h4
    · rw [← h5]
      simp [a_size]
    · simpa [cross_start, cross_size] using h6

/-- Witness of C15: three visible children of minimum size 32 by 32, spacing 8, in the
rectangle (5, 7, 136, 32): the cells start at 5, 53 and 101 and are 48, 48 and 40
wide. -/
theorem C15_position_pass_witness :
    three_children ≠ [] ∧ (∀ w ∈ three_children, hidden_widget w = false)
      ∧ (allocate_proportional (fun a _ => a) true 8 ⟨5, 7, 136, 32⟩ three_children).map
          (fun res => res.2.map (fun c => (c.a.nLeft, c.a.nTop, c.a.nWidth, c.a.nHeight)))
        = some [(5, 7, 48, 32), (53, 7, 48, 32), (101, 7, 40, 32)]
      ∧ ∃ (sizes : List cell_t) (n1 : Int) (out : List cell_t),
          allocate_sizes true 8 ⟨5, 7, 136, 32⟩ three_children = some (sizes, n1)
            ∧ allocate_proportional (fun a _ => a) true 8 ⟨5, 7, 136, 32⟩ three_children
              = some (status_t.STATUS_OK, out)
            ∧ (∀ c ∈ out.head?, c.a.nLeft = 5)
            ∧ List.Chain' (fun c d => d.a.nLeft = c.a.nLeft + c.a.nWidth) out
            ∧ out.map (fun c => c.a.nWidth) = spaced_sizes true 8 sizes
            ∧ (∀ c ∈ out, c.a.nTop = 7 ∧ c.a.nHeight = 32)
            ∧ out.length = three_children.length :=
  ⟨by decide, by decide, by rfl,
    (C15_position_pass (fun a _ => a) 8 ⟨5, 7, 136, 32⟩ three_children (by decide)
      (by decide)).1⟩

/-! ## Box::allocate_proportional: the distribution step -/

theorem forall₂_of_map_left {α : Type} {R T : α → α → Prop} (f : α → α) :
    ∀ (l u : List α), (∀ x ∈ l, ∀ c, R (f x) c → T x c) →
      List.Forall₂ R (l.map f) u → List.Forall₂ T l u := by
  intro l
  induction l with
  | nil =>
    intro u _ h
    cases h
    exact List.Forall₂.nil
  | cons x xs ih =>
    intro u hl h
    rw [List.map_cons] at h
    cases h with
    | cons hxy hrest =>
      exact List.Forall₂.cons (hl x (List.mem_cons_self _ _) _ hxy)
        (ih _ (fun y hy => hl y (List.mem_cons_of_mem _ hy)) hrest)

theorem forall₂_map_map {α : Type} {T : α → α → Prop} (f g : α → α) :
    ∀ l : List α, (∀ x ∈ l, T x (g (f x))) → List.Forall₂ T l ((l.map f).map g) := by
  intro l
  induction l with
  | nil => intro _; exact List.Forall₂.nil
  | cons x xs ih =>
    intro h
    exact List.Forall₂.cons (h x (List.mem_cons_self _ _))
      (ih (fun y hy => h y (List.mem_cons_of_mem _ hy)))

theorem filter_expands_first_pass (horizontal : Bool) (r : rectangle_t)
    (visible : List cell_t) :
    (visible.map (first_pass_cell horizontal r)).filter (expands horizontal)
      = (visible.filter (expands horizontal)).map (first_pass_cell horizontal r) := by
  induction visible with
  | nil => rfl
  | cons w ws ih =>
    cases he : expands horizontal w with
    | true =>
      have he1 : expands horizontal (first_pass_cell horizontal r w) = true := by
        rw [first_pass_cell_expands, he]
      rw [List.map_cons, List.filter_cons_of_pos he1, List.filter_cons_of_pos he,
        List.map_cons, ih]
    | false =>
      have hne : ¬ (expands horizontal w = true) := by rw [he]; simp
      have hne1 : ¬ (expands horizontal (first_pass_cell horizontal r w) = true) := by
        rw [first_pass_cell_expands, he]; simp
      rw [List.map_cons, List.filter_cons_of_neg hne1, List.filter_cons_of_neg hne, ih]

theorem expand_total_eq (horizontal : Bool) (r : rectangle_t) (visible : List cell_t)
    (hvis : ∀ w ∈ visible, hidden_widget w = false) :
    total_size horizontal
        ((visible.map (first_pass_cell horizontal r)).filter (expands horizontal))
      = ((visible.filter (expands horizontal)).map (min_alloc horizontal)).sum := by
  rw [filter_expands_first_pass]
  exact total_size_first_pass horizontal r _
    (fun w hw => hvis w (List.mem_of_mem_filter hw))

theorem expand_count_eq (horizontal : Bool) (r : rectangle_t) (visible : List cell_t) :
    ((visible.map (first_pass_cell horizontal r)).filter (expands horizontal)).length
      = (visible.filter (expands horizontal)).length := by
  rw [filter_expands_first_pass, List.length_map]

/-- The second pass on a list of visible children, with the quantities of the first
pass written out: the leftover, the sum of the minimum allocations of the expanding
children and their number. -/
theorem after_second_pass_visible (horizontal : Bool) (spacing : Int) (r : rectangle_t)
    (visible : List cell_t) (hvis : ∀ w ∈ visible, hidden_widget w = false) :
    after_second_pass horizontal spacing r visible
      = second_pass horizontal
          (extent horizontal r - spacing * ((visible.length : Int) - 1))
          (visible.map (first_pass_cell horizontal r))
          (leftover horizontal spacing r visible)
          (((visible.filter (expands horizontal)).map (min_alloc horizontal)).sum)
          (visible.filter (expands horizontal)).length := by
  rw [after_second_pass_eq horizontal spacing r visible hvis,
    leftover_eq horizontal spacing r visible hvis,
    expand_total_eq horizontal r visible hvis, expand_count_eq]

/-- C16, as amended: when the leftover `L` is positive and no visible child has the
expand flag, the distribution step gives the child `i` the share
`floor(a_i * L / (A + L))` of the leftover, where `a_i` is its minimum allocation and
`A` the sum of the minimum allocations: the divisor `n_size` is the allocated extent
less the spacing, that is `A + L`. -/
theorem C16_share_without_expand (horizontal : Bool) (spacing : Int) (r : rectangle_t)
    (visible : List cell_t) (hvis : ∀ w ∈ visible, hidden_widget w = false)
    (hexp : ∀ w ∈ visible, expands horizontal w = false)
    (hL : 0 < leftover horizontal spacing r visible) :
    List.Forall₂
        (fun w c => c = add_size horizontal (first_pass_cell horizontal r w)
            ((min_alloc horizontal w * leftover horizontal spacing r visible)
              / ((visible.map (min_alloc horizontal)).sum
                  + leftover horizontal spacing r visible))
          ∧ a_size horizontal c = min_alloc horizontal w
            + (min_alloc horizontal w * leftover horizontal spacing r visible)
              / ((visible.map (min_alloc horizontal)).sum
                  + leftover horizontal spacing r visible))
        visible (after_second_pass horizontal spacing r visible).1
      ∧ extent horizontal r - spacing * ((visible.length : Int) - 1)
        = (visible.map (min_alloc horizontal)).sum
          + leftover horizontal spacing r visible := by
  have hS : extent horizontal r - spacing * ((visible.length : Int) - 1)
      = (visible.map (min_alloc horizontal)).sum
        + leftover horizontal spacing r visible := by
    unfold leftover
    omega
  have hk : (visible.filter (expands horizontal)).length = 0 := by
    rw [List.length_eq_zero, List.filter_eq_nil_iff]
    intro w hw
    rw [hexp w hw]
    simp
  refine ⟨?_, hS⟩
  rw [after_second_pass_visible horizontal spacing r visible hvis]
  simp only [second_pass, hL, gt_iff_lt, if_true, hk, split_all_eq, hS]
  apply forall₂_map_map
  intro w hw
  rw [a_size_add_size, first_pass_cell_size horizontal r w (hvis w hw)]
  exact ⟨rfl, rfl⟩

/-- Witness of C16: three children of minimum width 32, spacing 8, width 136: the
leftover is 24 and the distribution step gives every child 32 * 24 / 120 = 6. -/
theorem C16_share_without_expand_witness :
    (∀ w ∈ three_children, hidden_widget w = false)
      ∧ (∀ w ∈ three_children, expands true w = false)
      ∧ 0 < leftover true 8 ⟨0, 0, 136, 32⟩ three_children
      ∧ extent true ⟨0, 0, 136, 32⟩ - 8 * ((three_children.length : Int) - 1)
        = (three_children.map (min_alloc true)).sum
          + leftover true 8 ⟨0, 0, 136, 32⟩ three_children
      ∧ (after_second_pass true 8 ⟨0, 0, 136, 32⟩ three_children).1.map (a_size true)
        = [38, 38, 38] :=
  ⟨by decide, by decide, by decide,
    (C16_share_without_expand true 8 ⟨0, 0, 136, 32⟩ three_children (by decide)
      (by decide) (by decide)).2,
    by decide⟩

/-- C16, counterexample: for three children of minimum width 32 with the leftover 24
(spacing 8, width 136) the share `floor(a_i * L / A)` is 32 * 24 / 96 = 8, but the
distribution step gives every child 6: the widths after it are 38, and 6 pixels are
left for the fourth pass. -/
theorem C16_share_is_six_not_eight :
    leftover true 8 ⟨0, 0, 136, 32⟩ three_children = 24
      ∧ three_children.map (min_alloc true) = [32, 32, 32]
      ∧ (32 * 24 : Int) / (32 + 32 + 32) = 8
      ∧ (after_second_pass true 8 ⟨0, 0, 136, 32⟩ three_children).1.map (a_size true)
        = [38, 38, 38]
      ∧ (after_second_pass true 8 ⟨0, 0, 136, 32⟩ three_children).2 = 6 := by
  refine ⟨by decide, by decide, by decide, by decide, by decide⟩

/-- C18: when the leftover `L` is positive and the minimum allocations of the
expanding visible children sum to `E > 0`, the distribution step gives every expanding
child `floor(a_i * L / E)` pixels and nothing to the other children; the pixels handed
out are not negative and at most `L` in total, `n_left` being what remains of `L`. -/
theorem C18_share_among_expanding (horizontal : Bool) (spacing : Int) (r : rectangle_t)
    (visible : List cell_t) (hvis : ∀ w ∈ visible, hidden_widget w = false)
    (hL : 0 < leftover horizontal spacing r visible)
    (hE : 0 < ((visible.filter (expands horizontal)).map (min_alloc horizontal)).sum) :
    List.Forall₂
        (fun w c => c = (if expands horizontal w then
            add_size horizontal (first_pass_cell horizontal r w)
              ((min_alloc horizontal w * leftover horizontal spacing r visible)
                / ((visible.filter (expands horizontal)).map (min_alloc horizontal)).sum)
            else first_pass_cell horizontal r w))
        visible (after_second_pass horizontal spacing r visible).1
      ∧ total_size horizontal (after_second_pass horizontal spacing r visible).1
        = (visible.map (min_alloc horizontal)).sum
          + (leftover horizontal spacing r visible
            - (after_second_pass horizontal spacing r visible).2)
      ∧ 0 ≤ (after_second_pass horizontal spacing r visible).2
      ∧ (after_second_pass horizontal spacing r visible).2
        ≤ leftover horizontal spacing r visible := by
  have hk : (visible.filter (expands horizontal)).length ≠ 0 := by
    intro h
    rw [List.length_eq_zero] at h
    rw [h] at hE
    simp at hE
  have hpos := first_pass_sizes_nonneg horizontal r visible hvis
  obtain ⟨_, s2, s3, _⟩ := second_pass_spec horizontal
    (extent horizontal r - spacing * ((visible.length : Int) - 1))
    (visible.map (first_pass_cell horizontal r)) hpos
  rw [← after_second_pass_eq horizontal spacing r visible hvis] at s2 s3
  rw [leftover_eq horizontal spacing r visible hvis] at s2 s3
  have hform : after_second_pass horizontal spacing r visible
      = ((visible.map (first_pass_cell horizontal r)).map (fun w =>
            if expands horizontal w then
              add_size horizontal w
                ((a_size horizontal w * leftover horizontal spacing r visible)
                  / ((visible.filter (expands horizontal)).map
                      (min_alloc horizontal)).sum)
            else w),
          leftover horizontal spacing r visible
            - (((visible.map (first_pass_cell horizontal r)).filter
                (expands horizontal)).map (fun w =>
                  (a_size horizontal w * leftover horizontal spacing r visible)
                    / ((visible.filter (expands horizontal)).map
                        (min_alloc horizontal)).sum)).sum) := by
    rw [after_second_pass_visible horizontal spacing r visible hvis]
    simp only [second_pass, hL, gt_iff_lt, if_true, hk, if_false, ne_of_gt hE,
      split_expand_eq, zero_add]
  refine ⟨?_, ?_, s2 hL, s3⟩
  · rw [hform]
    apply forall₂_map_map
    intro w hw
    rw [first_pass_cell_expands, first_pass_cell_size horizontal r w (hvis w hw)]
  · rw [hform]
    simp only []
    rw [← total_size_first_pass horizontal r visible hvis]
    generalize visible.map (first_pass_cell horizontal r) = cells
    generalize leftover horizontal spacing r visible = L
    generalize ((visible.filter (expands horizontal)).map (min_alloc horizontal)).sum = E
    induction cells with
    | nil => simp [total_size]
    | cons c cs ih =>
      cases he : expands horizontal c with
      | true =>
        rw [List.filter_cons_of_pos he]
        simp only [total_size, List.map_cons, he, if_true, List.sum_cons,
          a_size_add_size] at ih ⊢
        omega
      | false =>
        have hne : ¬ (expands horizontal c = true) := by rw [he]; simp
        rw [List.filter_cons_of_neg hne]
        simp only [total_size, List.map_cons, he, Bool.false_eq_true, if_false,
          List.sum_cons] at ih ⊢
        omega

/-- Witness of C18: children of minimum widths 10 (expanding), 20 and 30 (expanding)
in a width of 100 without spacing. -/
theorem C18_share_among_expanding_witness :
    (∀ w ∈ [new_cell (some { plain_widget 1 true 10 10 with hexpand := true }),
          new_cell (some (plain_widget 2 true 20 10)),
          new_cell (some { plain_widget 3 true 30 10 with hexpand := true })],
        hidden_widget w = false)
      ∧ (after_second_pass true 0 ⟨0, 0, 100, 10⟩
          [new_cell (some { plain_widget 1 true 10 10 with hexpand := true }),
           new_cell (some (plain_widget 2 true 20 10)),
           new_cell (some { plain_widget 3 true 30 10 with hexpand := true })]).1.map
          (a_size true) = [20, 20, 60]
      ∧ 0 ≤ (after_second_pass true 0 ⟨0, 0, 100, 10⟩
          [new_cell (some { plain_widget 1 true 10 10 with hexpand := true }),
           new_cell (some (plain_widget 2 true 20 10)),
           new_cell (some { plain_widget 3 true 30 10 with hexpand := true })]).2 :=
  ⟨by decide, by decide,
    (C18_share_among_expanding true 0 ⟨0, 0, 100, 10⟩
      [new_cell (some { plain_widget 1 true 10 10 with hexpand := true }),
       new_cell (some (plain_widget 2 true 20 10)),
       new_cell (some { plain_widget 3 true 30 10 with hexpand := true })]
      (by decide) (by decide) (by decide)).2.2.1⟩

/-- C17: when the leftover `L` is positive, `k >= 1` visible children have the expand
flag and all of them have the minimum allocation 0, the distribution step gives every
expanding child `floor(L / k)` pixels and nothing to the other children; the fourth
pass then ends, and after it the allocations of two expanding children differ by at
most one pixel. -/
theorem C17_even_split (horizontal : Bool) (spacing : Int) (r : rectangle_t)
    (visible : List cell_t) (hvis : ∀ w ∈ visible, hidden_widget w = false)
    (hL : 0 < leftover horizontal spacing r visible)
    (hk : 1 ≤ (visible.filter (expands horizontal)).length)
    (hzero : ∀ w ∈ visible, expands horizontal w = true → min_alloc horizontal w = 0) :
    List.Forall₂
        (fun w c => c = (if expands horizontal w then
            add_size horizontal (first_pass_cell horizontal r w)
              (leftover horizontal spacing r visible
                / ((visible.filter (expands horizontal)).length : Int))
            else first_pass_cell horizontal r w))
        visible (after_second_pass horizontal spacing r visible).1
      ∧ ∃ (sizes : List cell_t) (n1 : Int),
          allocate_sizes horizontal spacing r visible = some (sizes, n1)
            ∧ ∀ c1 ∈ sizes, ∀ c2 ∈ sizes, expands horizontal c1 = true →
                expands horizontal c2 = true →
                a_size horizontal c1 - a_size horizontal c2 ≤ 1
                  ∧ a_size horizontal c2 - a_size horizontal c1 ≤ 1 := by
  have hE : ((visible.filter (expands horizontal)).map (min_alloc horizontal)).sum = 0 := by
    apply List.sum_eq_zero
    intro x hx
    obtain ⟨w, hw, rfl⟩ := List.mem_map.1 hx
    have hw2 := List.mem_filter.1 hw
    exact hzero w hw2.1 hw2.2
  have hk0 : (visible.filter (expands horizontal)).length ≠ 0 := by omega
  have hkpos : 0 < ((visible.filter (expands horizontal)).length : Int) := by
    exact_mod_cast hk
  have hklen : ((visible.filter (expands horizontal)).length : Int) ≤ visible.length := by
    exact_mod_cast List.length_filter_le _ _
  have hform : after_second_pass horizontal spacing r visible
      = ((visible.map (first_pass_cell horizontal r)).map (fun w =>
            if expands horizontal w then
              add_size horizontal w (leftover horizontal spacing r visible
                / ((visible.filter (expands horizontal)).length : Int))
            else w),
          leftover horizontal spacing r visible
            - leftover horizontal spacing r visible
                / ((visible.filter (expands horizontal)).length : Int)
              * (((visible.map (first_pass_cell horizontal r)).filter
                  (expands horizontal)).length : Int)) := by
    rw [after_second_pass_visible horizontal spacing r visible hvis]
    simp only [second_pass, hL, gt_iff_lt, if_true, hk0, if_false, hE, split_even_eq,
      zero_add]
  have hstep : List.Forall₂
      (fun w c => c = (if expands horizontal w then
          add_size horizontal (first_pass_cell horizontal r w)
            (leftover horizontal spacing r visible
              / ((visible.filter (expands horizontal)).length : Int))
          else first_pass_cell horizontal r w))
      visible (after_second_pass horizontal spacing r visible).1 := by
    rw [hform]
    apply forall₂_map_map
    intro w _
    rw [first_pass_cell_expands]
  refine ⟨hstep, ?_⟩
  have hn2 : (after_second_pass horizontal spacing r visible).2
      = leftover horizontal spacing r visible
        % ((visible.filter (expands horizontal)).length : Int) := by
    rw [hform, expand_count_eq]
    simp only []
    have := Int.emod_add_ediv (leftover horizontal spacing r visible)
      ((visible.filter (expands horizontal)).length : Int)
    rw [mul_comm] at this
    omega
  have hn2a : 0 ≤ (after_second_pass horizontal spacing r visible).2 := by
    rw [hn2]; exact Int.emod_nonneg _ (ne_of_gt hkpos)
  have hn2b : (after_second_pass horizontal spacing r visible).2
      < ((after_second_pass horizontal spacing r visible).1.length : Int) := by
    have h1 : (after_second_pass horizontal spacing r visible).2
        < ((visible.filter (expands horizontal)).length : Int) := by
      rw [hn2]; exact Int.emod_lt_of_pos _ hkpos
    have h2 := hstep.length_eq
    rw [← h2]
    omega
  obtain ⟨sizes, n1, e1, e2⟩ := fourth_pass_short horizontal
    (after_second_pass horizontal spacing r visible).2.toNat
    (after_second_pass horizontal spacing r visible).1
    (after_second_pass horizontal spacing r visible).2 hn2a hn2b (Int.self_le_toNat _)
  refine ⟨sizes, n1, by rw [allocate_sizes_eq]; exact e1, ?_⟩
  have hval : ∀ c ∈ sizes, expands horizontal c = true →
      ∃ d : Int, (d = 0 ∨ d = 1) ∧ a_size horizontal c
        = leftover horizontal spacing r visible
            / ((visible.filter (expands horizontal)).length : Int) + d := by
    intro c hc hce
    obtain ⟨w2, hw2, d, hd, rfl⟩ := forall₂_mem_right _ _ e2 c hc
    obtain ⟨w, hw, hwc⟩ := forall₂_mem_right _ _ hstep w2 hw2
    rw [expands_add_size] at hce
    refine ⟨d, hd, ?_⟩
    rw [a_size_add_size, hwc]
    by_cases he : expands horizontal w = true
    · rw [if_pos he, a_size_add_size,
        first_pass_cell_size horizontal r w (hvis w hw), hzero w hw he]
      omega
    · rw [hwc, if_neg he, first_pass_cell_expands] at hce
      exact absurd hce he
  intro c1 hc1 c2 hc2 he1 he2
  obtain ⟨d1, hd1, h1⟩ := hval c1 hc1 he1
  obtain ⟨d2, hd2, h2⟩ := hval c2 hc2 he2
  constructor <;> omega

/-- Witness of C17: two expanding children without minimum size and one child of
minimum width 10, in a width of 25: the leftover 15 gives 7 to each expanding child,
and after the fourth pass the expanding children have 8 and 7. -/
theorem C17_even_split_witness :
    (∀ w ∈ [new_cell (some { plain_widget 1 true 0 0 with hexpand := true }),
          new_cell (some (plain_widget 2 true 10 10)),
          new_cell (some { plain_widget 3 true 0 0 with hexpand := true })],
        hidden_widget w = false)
      ∧ (after_second_pass true 0 ⟨0, 0, 25, 10⟩
          [new_cell (some { plain_widget 1 true 0 0 with hexpand := true }),
           new_cell (some (plain_widget 2 true 10 10)),
           new_cell (some { plain_widget 3 true 0 0 with hexpand := true })]).1.map
          (a_size true) = [7, 10, 7]
      ∧ (allocate_sizes true 0 ⟨0, 0, 25, 10⟩
          [new_cell (some { plain_widget 1 true 0 0 with hexpand := true }),
           new_cell (some (plain_widget 2 true 10 10)),
           new_cell (some { plain_widget 3 true 0 0 with hexpand := true })]).map
          (fun res => res.1.map (a_size true)) = some [8, 11, 7]
      ∧ ∃ (sizes : List cell_t) (n1 : Int),
          allocate_sizes true 0 ⟨0, 0, 25, 10⟩
            [new_cell (some { plain_widget 1 true 0 0 with hexpand := true }),
             new_cell (some (plain_widget 2 true 10 10)),
             new_cell (some { plain_widget 3 true 0 0 with hexpand := true })]
            = some (sizes, n1)
          ∧ ∀ c1 ∈ sizes, ∀ c2 ∈ sizes, expands true c1 = true → expands true c2 = true →
              a_size true c1 - a_size true c2 ≤ 1 ∧ a_size true c2 - a_size true c1 ≤ 1 :=
  ⟨by decide, by decide, by decide,
    (C17_even_split true 0 ⟨0, 0, 25, 10⟩
      [new_cell (some { plain_widget 1 true 0 0 with hexpand := true }),
       new_cell (some (plain_widget 2 true 10 10)),
       new_cell (some { plain_widget 3 true 0 0 with hexpand := true })]
      (by decide) (by decide) (by decide) (by decide)).2⟩

/-! ## Box::allocate_proportional: the minimum is kept -/

/-- C19: for every list of visible children that is not empty, every rectangle and
every spacing, `Box::allocate_proportional` returns; before the spacing is added to
the cells, the allocation of every child on the primary axis is at least its padding
plus its minimum size (when that is not negative), and equal to it for every child
when the leftover of the first pass is zero or negative; the position pass adds the
spacing to every cell but the last. -/
theorem C19_no_child_below_minimum (enter : rectangle_t → padding_t → rectangle_t)
    (horizontal : Bool) (spacing : Int) (r : rectangle_t) (visible : List cell_t)
    (hne : visible ≠ []) (hvis : ∀ w ∈ visible, hidden_widget w = false) :
    ∃ (sizes : List cell_t) (n1 : Int) (out : List cell_t),
      allocate_sizes horizontal spacing r visible = some (sizes, n1)
        ∧ allocate_proportional enter horizontal spacing r visible
          = some (status_t.STATUS_OK, out)
        ∧ out.map (a_size horizontal) = spaced_sizes horizontal spacing sizes
        ∧ List.Forall₂ (fun w c => min_alloc horizontal w ≤ a_size horizontal c)
            visible sizes
        ∧ (leftover horizontal spacing r visible ≤ 0 →
            List.Forall₂ (fun w c => a_size horizontal c = min_alloc horizontal w)
              visible sizes) := by
  obtain ⟨sizes, n1, e1, e2, e3, _⟩ :=
    allocate_sizes_spec horizontal spacing r visible hne hvis
  obtain ⟨g1, _⟩ := geometry_pass_spec enter horizontal spacing sizes r.nLeft r.nTop
  refine ⟨sizes, n1, geometry_pass enter horizontal spacing sizes r.nLeft r.nTop, e1, ?_,
    g1, ?_, ?_⟩
  · simp only [allocate_proportional, e1]
  · apply forall₂_of_map_left (first_pass_cell horizontal r) visible sizes _ e2
    intro w hw c hg
    obtain ⟨d, hd, rfl⟩ := hg
    rw [a_size_add_size, first_pass_cell_size horizontal r w (hvis w hw)]
    omega
  · intro hl
    rw [e3 hl]
    apply forall₂_map_self
    intro w hw
    exact first_pass_cell_size horizontal r w (hvis w hw)

/-- Witness of C19: three children of minimum width 32 with spacing 8 in a width of
100, which is less than the 112 they need: every child keeps the width 32. -/
theorem C19_no_child_below_minimum_witness :
    three_children ≠ [] ∧ (∀ w ∈ three_children, hidden_widget w = false)
      ∧ leftover true 8 ⟨0, 0, 100, 32⟩ three_children = -12
      ∧ (allocate_sizes true 8 ⟨0, 0, 100, 32⟩ three_children).map
          (fun res => res.1.map (a_size true)) = some [32, 32, 32]
      ∧ ∃ (sizes : List cell_t) (n1 : Int) (out : List cell_t),
          allocate_sizes true 8 ⟨0, 0, 100, 32⟩ three_children = some (sizes, n1)
            ∧ allocate_proportional (fun a _ => a) true 8 ⟨0, 0, 100, 32⟩ three_children
              = some (status_t.STATUS_OK, out)
            ∧ out.map (a_size true) = spaced_sizes true 8 sizes
            ∧ List.Forall₂ (fun w c => min_alloc true w ≤ a_size true c)
                three_children sizes
            ∧ (leftover true 8 ⟨0, 0, 100, 32⟩ three_children ≤ 0 →
                List.Forall₂ (fun w c => a_size true c = min_alloc true w)
                  three_children sizes) :=
  ⟨by decide, by decide, by decide, by decide,
    C19_no_child_below_minimum (fun a _ => a) true 8 ⟨0, 0, 100, 32⟩ three_children
      (by decide) (by decide)⟩

/-! ## Box::render -/

theorem visible_items_spec :
    ∀ vItems : List cell_t, ∀ wc ∈ visible_items vItems,
      wc ∈ vItems ∧ ∃ w, wc.pWidget = some w ∧ w.visible = true := by
  intro vItems
  induction vItems with
  | nil => intro wc h; simp [visible_items] at h
  | cons c cs ih =>
    intro wc h
    unfold visible_items at h
    cases hw : c.pWidget with
    | none =>
      rw [hw] at h
      obtain ⟨h1, h2⟩ := ih wc h
      exact ⟨List.mem_cons_of_mem _ h1, h2⟩
    | some w =>
      rw [hw] at h
      cases hv : w.visible with
      | false =>
        simp only [hv, Bool.not_false, if_true] at h
        obtain ⟨h1, h2⟩ := ih wc h
        exact ⟨List.mem_cons_of_mem _ h1, h2⟩
      | true =>
        simp only [hv, Bool.not_true, Bool.false_eq_true, if_false] at h
        rcases List.mem_cons.1 h with rfl | h
        · exact ⟨List.mem_cons_self _ _, w, hw, hv⟩
        · obtain ⟨h1, h2⟩ := ih wc h
          exact ⟨List.mem_cons_of_mem _ h1, h2⟩

theorem render_loop_forced :
    ∀ (cells : List cell_t) (pending : Nat → Bool),
      (render_loop true cells pending).1 = forced_calls cells
        ∧ ∀ w, (render_loop true cells pending).2 w
            = (pending w && decide (w ∉ held_widgets cells)) := by
  intro cells
  induction cells with
  | nil => intro pending; simp [render_loop, forced_calls, held_widgets]
  | cons wc rest ih =>
    intro pending
    unfold render_loop
    cases hw : wc.pWidget with
    | none =>
      obtain ⟨h1, h2⟩ := ih pending
      simp only [hw]
      refine ⟨?_, ?_⟩
      · rw [h1]
        simp [forced_calls, hw]
      · intro w
        rw [h2]
        simp [held_widgets, hw]
    | some wd =>
      obtain ⟨h1, h2⟩ := ih (commit_redraw pending wd.id)
      simp only [hw, Bool.true_or, if_true]
      refine ⟨?_, ?_⟩
      · rw [h1]
        simp [forced_calls, hw]
      · intro w
        rw [h2]
        simp only [commit_redraw, held_widgets, List.filterMap_cons, hw, Option.map_some',
          List.mem_cons, not_or]
        by_cases hwd : w = wd.id
        · simp [hwd]
        · simp [hwd]

theorem pending_calls_congr (p q : Nat → Bool) (cells : List cell_t)
    (h : ∀ w ∈ held_widgets cells, p w = q w) :
    pending_calls p cells = pending_calls q cells := by
  unfold pending_calls
  apply List.filterMap_congr
  intro w hw
  rw [h w hw]

theorem render_loop_pending :
    ∀ (cells : List cell_t) (pending : Nat → Bool), (held_widgets cells).Nodup →
      (render_loop false cells pending).1 = pending_calls pending cells
        ∧ ∀ w, (render_loop false cells pending).2 w
            = (pending w && decide (w ∉ held_widgets cells)) := by
  intro cells
  induction cells with
  | nil => intro pending _; simp [render_loop, pending_calls, held_widgets]
  | cons wc rest ih =>
    intro pending hnd
    unfold render_loop
    cases hw : wc.pWidget with
    | none =>
      have hh : held_widgets (wc :: rest) = held_widgets rest := by
        simp [held_widgets, hw]
      rw [hh] at hnd ⊢
      obtain ⟨h1, h2⟩ := ih pending hnd
      simp only [hw]
      refine ⟨?_, h2⟩
      rw [h1]
      simp [pending_calls, hh]
    | some wd =>
      have hh : held_widgets (wc :: rest) = wd.id :: held_widgets rest := by
        simp [held_widgets, hw]
      rw [hh] at hnd
      rw [List.nodup_cons] at hnd
      simp only [hw, Bool.false_or, Bool.false_eq_true, if_false, List.nil_append]
      cases hp : pending wd.id with
      | true =>
        obtain ⟨h1, h2⟩ := ih (commit_redraw pending wd.id) hnd.2
        simp only [if_true]
        refine ⟨?_, ?_⟩
        · rw [h1, pending_calls_congr (commit_redraw pending wd.id) pending rest (by
            intro w hw1
            have : w ≠ wd.id := fun he => hnd.1 (he ▸ hw1)
            simp [commit_redraw, this])]
          simp [pending_calls, hh, hp]
        · intro w
          rw [h2, hh]
          by_cases hwd : w = wd.id
          · simp [commit_redraw, hwd]
          · simp [commit_redraw, hwd]
      | false =>
        obtain ⟨h1, h2⟩ := ih pending hnd.2
        simp only [Bool.false_eq_true, if_false]
        refine ⟨?_, ?_⟩
        · rw [h1]
          simp [pending_calls, hh, hp]
        · intro w
          rw [h2, hh]
          by_cases hwd : w = wd.id
          · simp [hwd, hp]
          · simp [hwd]

theorem pending_calls_sublist (p q : Nat → Bool) (hpq : ∀ w, p w = true → q w = true) :
    ∀ ids : List Nat,
      (ids.filterMap (fun w => if p w then some (draw_call.render w false) else none)).Sublist
        (ids.filterMap (fun w => if q w then some (draw_call.render w false) else none)) := by
  intro ids
  induction ids with
  | nil => exact List.Sublist.slnil
  | cons w ws ih =>
    cases hp : p w with
    | true =>
      have hq := hpq w hp
      simp only [List.filterMap_cons, hp, hq, if_true]
      exact List.Sublist.cons₂ _ ih
    | false =>
      cases hq : q w with
      | true =>
        simp only [List.filterMap_cons, hp, hq, if_true, Bool.false_eq_true, if_false]
        exact List.Sublist.cons _ ih
      | false =>
        simp only [List.filterMap_cons, hp, hq, Bool.false_eq_true, if_false]
        exact ih

theorem render_loop_selective :
    ∀ (cells : List cell_t) (pending : Nat → Bool),
      (render_loop false cells pending).1.Sublist (pending_calls pending cells)
        ∧ (∀ w ∈ held_widgets cells, pending w = true →
            draw_call.render w false ∈ (render_loop false cells pending).1)
        ∧ ∀ w, (render_loop false cells pending).2 w
            = (pending w && decide (w ∉ held_widgets cells)) := by
  intro cells
  induction cells with
  | nil =>
    intro pending
    simp [render_loop, pending_calls, held_widgets]
  | cons wc rest ih =>
    intro pending
    unfold render_loop
    cases hw : wc.pWidget with
    | none =>
      have hh : held_widgets (wc :: rest) = held_widgets rest := by
        simp [held_widgets, hw]
      obtain ⟨h1, h2, h3⟩ := ih pending
      simp only [hw, hh, pending_calls] at h1 h2 h3 ⊢
      exact ⟨h1, h2, h3⟩
    | some wd =>
      have hh : held_widgets (wc :: rest) = wd.id :: held_widgets rest := by
        simp [held_widgets, hw]
      simp only [hw, Bool.false_or, Bool.false_eq_true, if_false, List.nil_append]
      cases hp : pending wd.id with
      | true =>
        obtain ⟨h1, h2, h3⟩ := ih (commit_redraw pending wd.id)
        simp only [if_true]
        refine ⟨?_, ?_, ?_⟩
        · have hsub := pending_calls_sublist (commit_redraw pending wd.id) pending (by
            intro w hw1
            simp only [commit_redraw] at hw1
            by_cases he : w = wd.id
            · simp [he] at hw1
            · simpa [he] using hw1) (held_widgets rest)
          simp only [pending_calls, hh, List.filterMap_cons, hp, if_true]
          exact List.Sublist.cons₂ _ (h1.trans hsub)
        · intro w hw1 hpw
          rw [hh] at hw1
          by_cases he : w = wd.id
          · rw [he]
            exact List.mem_cons_self _ _
          · rcases List.mem_cons.1 hw1 with h | h
            · exact absurd h he
            · exact List.mem_cons_of_mem _ (h2 w h (by simp [commit_redraw, he, hpw]))
        · intro w
          rw [h3, hh]
          by_cases hwd : w = wd.id
          · simp [commit_redraw, hwd]
          · simp [commit_redraw, hwd]
      | false =>
        obtain ⟨h1, h2, h3⟩ := ih pending
        simp only [Bool.false_eq_true, if_false]
        refine ⟨?_, ?_, ?_⟩
        · simp only [pending_calls, hh, List.filterMap_cons, hp, Bool.false_eq_true,
            if_false]
          exact h1
        · intro w hw1 hpw
          rw [hh] at hw1
          rcases List.mem_cons.1 hw1 with h | h
          · rw [h, hp] at hpw
            cases hpw
          · exact h2 w h hpw
        · intro w
          rw [h3, hh]
          by_cases hwd : w = wd.id
          · simp [hwd, hp]
          · simp [hwd]

/-- The loop of `Box::visible_items` keeps exactly the visible children, in child
order. -/
theorem visible_items_eq :
    ∀ vItems : List cell_t, visible_items vItems = visible_children vItems := by
  intro vItems
  induction vItems with
  | nil => rfl
  | cons c cs ih =>
    have e : visible_children (c :: cs)
        = if (match c.pWidget with
              | some wd => wd.visible
              | none => false) = true
          then c :: visible_children cs else visible_children cs := by
      simp only [visible_children, List.filter_cons]
    rw [e, ← ih]
    cases hw : c.pWidget with
    | none => simp [visible_items, hw]
    | some w => cases hv : w.visible <;> simp [visible_items, hw, hv]

/-- C20: `Box::render` when `visible_items` succeeds. The visible children are the
cells of the box, in child order, that hold a visible widget. With `force = false` and
`REDRAW_SURFACE` clear, every call made is the rendering with `force = false` of a
visible child whose redraw is pending (so there is no `fill_frame`), every such child
is rendered, the calls follow the child order, and in a box where no widget occupies
two cells they are exactly the renderings of the pending visible children in child
order. With `force = true` or `REDRAW_SURFACE` set and at least one visible child, the
calls made are, for every visible child in order, the `fill_frame` of its allocated
cell around its realized rectangle followed by its rendering with `force = true`,
whether or not its redraw is pending. In both cases the redraw of every visible child
is committed, and the pending flag of every other widget stays. -/
theorem C20_render_repaints_selectively (sSize : rectangle_t) (vItems : List cell_t)
    (pending : Nat → Bool) :
    (∀ c : cell_t, c ∈ visible_children vItems
        ↔ (c ∈ vItems ∧ ∃ w, c.pWidget = some w ∧ w.visible = true))
      ∧ ((∀ c ∈ (Box.render false sSize vItems false true pending).1,
          ∃ w, c = draw_call.render w false ∧ pending w = true
            ∧ w ∈ held_widgets (visible_children vItems))
        ∧ (∀ w ∈ held_widgets (visible_children vItems), pending w = true →
            draw_call.render w false ∈ (Box.render false sSize vItems false true pending).1)
        ∧ (Box.render false sSize vItems false true pending).1.Sublist
            (pending_calls pending (visible_children vItems))
        ∧ ((held_widgets (visible_children vItems)).Nodup →
            (Box.render false sSize vItems false true pending).1
              = pending_calls pending (visible_children vItems))
        ∧ (∀ w, (Box.render false sSize vItems false true pending).2 w
            = (pending w && decide (w ∉ held_widgets (visible_children vItems)))))
      ∧ (∀ redraw_surface force : Bool, (redraw_surface = true ∨ force = true) →
          visible_children vItems ≠ [] →
          (Box.render redraw_surface sSize vItems force true pending).1
              = forced_calls (visible_children vItems)
            ∧ (∀ w, (Box.render redraw_surface sSize vItems force true pending).2 w
                = (pending w && decide (w ∉ held_widgets (visible_children vItems))))) := by
  refine ⟨?_, ?_⟩
  · intro c
    unfold visible_children
    rw [List.mem_filter]
    constructor
    · rintro ⟨hc, hv⟩
      cases hw : c.pWidget with
      | none => rw [hw] at hv; simp at hv
      | some w => rw [hw] at hv; exact ⟨hc, w, rfl, hv⟩
    · rintro ⟨hc, w, hw, hv⟩
      refine ⟨hc, ?_⟩
      rw [hw]
      exact hv
  rw [← visible_items_eq vItems]
  constructor
  · obtain ⟨h1, h2, h3⟩ := render_loop_selective (visible_items vItems) pending
    have hr : Box.render false sSize vItems false true pending
        = render_loop false (visible_items vItems) pending := by
      simp [Box.render]
    rw [hr]
    refine ⟨?_, h2, h1, fun hnd =>
      (render_loop_pending (visible_items vItems) pending hnd).1, h3⟩
    intro c hc
    have hc1 := h1.subset hc
    simp only [pending_calls, List.mem_filterMap] at hc1
    obtain ⟨w, hw, hwc⟩ := hc1
    by_cases hp : pending w = true
    · simp only [hp, if_true, Option.some.injEq] at hwc
      exact ⟨w, hwc.symm, hp, hw⟩
    · simp [hp] at hwc
  · intro redraw_surface force hf hne
    have hr : Box.render redraw_surface sSize vItems force true pending
        = render_loop true (visible_items vItems) pending := by
      have he : (visible_items vItems).isEmpty = false := by
        cases hv : visible_items vItems with
        | nil => exact absurd hv hne
        | cons _ _ => rfl
      rcases hf with h | h <;> cases redraw_surface <;> cases force <;>
        simp_all [Box.render]
    rw [hr]
    exact render_loop_forced (visible_items vItems) pending

/-! ## TabControl::allocate_tabs -/

theorem allocate_tabs_step1_spec (tab_spacing : Int) (top_align : Bool) :
    ∀ (ws : List (Option Tab)) (x max_h : Int),
      (allocate_tabs_step1 tab_spacing top_align ws x max_h).1.map (fun t => t.widget)
          = visible_tabs ws
        ∧ (∀ t ∈ (allocate_tabs_step1 tab_spacing top_align ws x max_h).1,
            t.bounds.nTop = 0 ∧ t.bounds.nWidth = tab_width t.widget
              ∧ t.bounds.nHeight = tab_height t.widget)
        ∧ (∀ t ∈ (allocate_tabs_step1 tab_spacing top_align ws x max_h).1.head?,
            t.bounds.nLeft = x)
        ∧ List.Chain' (fun a b : tab_t =>
            b.bounds.nLeft = a.bounds.nLeft + a.bounds.nWidth + tab_spacing)
            (allocate_tabs_step1 tab_spacing top_align ws x max_h).1
        ∧ max_h ≤ (allocate_tabs_step1 tab_spacing top_align ws x max_h).2
        ∧ (∀ w ∈ visible_tabs ws,
            tab_height w ≤ (allocate_tabs_step1 tab_spacing top_align ws x max_h).2)
        ∧ ((allocate_tabs_step1 tab_spacing top_align ws x max_h).2 = max_h
            ∨ ∃ w ∈ visible_tabs ws,
                tab_height w = (allocate_tabs_step1 tab_spacing top_align ws x max_h).2) := by
  intro ws
  induction ws with
  | nil => intro x max_h; simp [allocate_tabs_step1, visible_tabs]
  | cons o ws ih =>
    intro x max_h
    cases o with
    | none =>
      simp only [allocate_tabs_step1, visible_tabs]
      exact ih x max_h
    | some w =>
      cases hv : w.visible_child with
      | false =>
        simp only [allocate_tabs_step1, visible_tabs, hv, Bool.not_false, if_true,
          Bool.false_eq_true, if_false]
        exact ih x max_h
      | true =>
        obtain ⟨h1, h2, h3, h4, h5, h6, h7⟩ :=
          ih (x + (tab_width w + tab_spacing)) (lsp_max max_h (tab_height w))
        have hm := lsp_max_eq max_h (tab_height w)
        simp only [allocate_tabs_step1, visible_tabs, hv, Bool.not_true,
          Bool.false_eq_true, if_false, if_true, List.map_cons, List.mem_cons,
          List.head?_cons, Option.mem_def, Option.some.injEq, List.chain'_cons']
        refine ⟨by rw [h1], ?_, ?_, ⟨?_, h4⟩, ?_, ?_, ?_⟩
        · intro t ht
          rcases ht with rfl | ht
          · exact ⟨rfl, rfl, rfl⟩
          · exact h2 t ht
        · intro t ht
          rw [← ht]
        · intro y hy
          rw [h3 y hy]
          ring
        · have := le_max_left max_h (tab_height w)
          omega
        · intro v hv1
          rcases hv1 with rfl | hv1
          · have := le_max_right max_h (tab_height v)
            omega
          · exact h6 v hv1
        · rcases h7 with h7 | ⟨v, hv1, hv2⟩
          · rcases le_total max_h (tab_height w) with hle | hle
            · right
              exact ⟨w, Or.inl rfl, by rw [h7, hm, max_eq_right hle]⟩
            · left
              rw [h7, hm, max_eq_left hle]
          · right
            exact ⟨v, Or.inr hv1, hv2⟩

theorem allocate_tabs_step2_eq (top_align : Bool) (max_h : Int) :
    ∀ (ts : List tab_t) (width : Int),
      allocate_tabs_step2 top_align max_h ts width
        = (ts.map (stretch_tab top_align max_h),
            match ts.getLast? with
            | some t => t.bounds.nLeft + t.bounds.nWidth
            | none => width) := by
  intro ts
  induction ts with
  | nil => intro width; simp [allocate_tabs_step2]
  | cons t ts ih =>
    intro width
    unfold allocate_tabs_step2
    simp only [ih, List.map_cons]
    cases ts with
    | nil => simp [stretch_tab]
    | cons u us =>
      rw [List.getLast?_cons_cons]
      cases h : (u :: us).getLast? with
      | none => simp at h
      | some x => rfl

theorem stretch_tab_fields (top_align : Bool) (max_h : Int) (t : tab_t) :
    (stretch_tab top_align max_h t).widget = t.widget
      ∧ (stretch_tab top_align max_h t).bounds.nLeft = t.bounds.nLeft
      ∧ (stretch_tab top_align max_h t).bounds.nTop = t.bounds.nTop
      ∧ (stretch_tab top_align max_h t).bounds.nWidth = t.bounds.nWidth
      ∧ (stretch_tab top_align max_h t).bounds.nHeight = max_h := by
  simp [stretch_tab]

theorem allocate_tabs_eq (tab_spacing : Int) (top_align : Bool)
    (vWidgets : List (Option Tab)) :
    allocate_tabs tab_spacing top_align vWidgets
      = (⟨0, 0,
          (match (allocate_tabs_step1 tab_spacing top_align vWidgets 0 0).1.getLast? with
            | some t => t.bounds.nLeft + t.bounds.nWidth
            | none => 0),
          (allocate_tabs_step1 tab_spacing top_align vWidgets 0 0).2⟩,
        (allocate_tabs_step1 tab_spacing top_align vWidgets 0 0).1.map
          (stretch_tab top_align
            (allocate_tabs_step1 tab_spacing top_align vWidgets 0 0).2)) := by
  simp only [allocate_tabs, allocate_tabs_step2_eq]

/-- C21: `TabControl::allocate_tabs` makes one record for every tab that is a visible
child, in the order of addition, and none for the other tabs; the bounds of the first
record start at x = 0, every following record starts at the left of the record before
it plus its width plus the tab spacing; every record has the top 0, the width computed
for its tab and the height of the heading area; that height is at least the height
computed for every tab and, when these heights are not negative and there is a tab, it
is the height of one of them; the width of the heading area is the right edge of the
last record; the area is 0 by 0 at (0, 0) when no tab is a visible child. -/
theorem C21_tab_heading_layout (tab_spacing : Int) (top_align : Bool)
    (vWidgets : List (Option Tab)) :
    (allocate_tabs tab_spacing top_align vWidgets).2.map (fun t => t.widget)
        = visible_tabs vWidgets
      ∧ (∀ t ∈ (allocate_tabs tab_spacing top_align vWidgets).2.head?, t.bounds.nLeft = 0)
      ∧ List.Chain' (fun a b : tab_t =>
          b.bounds.nLeft = a.bounds.nLeft + a.bounds.nWidth + tab_spacing)
          (allocate_tabs tab_spacing top_align vWidgets).2
      ∧ (∀ t ∈ (allocate_tabs tab_spacing top_align vWidgets).2,
          t.bounds.nTop = 0 ∧ t.bounds.nWidth = tab_width t.widget
            ∧ t.bounds.nHeight = (allocate_tabs tab_spacing top_align vWidgets).1.nHeight)
      ∧ (∀ w ∈ visible_tabs vWidgets,
          tab_height w ≤ (allocate_tabs tab_spacing top_align vWidgets).1.nHeight)
      ∧ ((∀ w ∈ visible_tabs vWidgets, 0 ≤ tab_height w) → visible_tabs vWidgets ≠ [] →
          ∃ w ∈ visible_tabs vWidgets,
            tab_height w = (allocate_tabs tab_spacing top_align vWidgets).1.nHeight)
      ∧ (∀ t ∈ (allocate_tabs tab_spacing top_align vWidgets).2.getLast?,
          (allocate_tabs tab_spacing top_align vWidgets).1.nWidth
            = t.bounds.nLeft + t.bounds.nWidth)
      ∧ (visible_tabs vWidgets = [] →
          allocate_tabs tab_spacing top_align vWidgets = (⟨0, 0, 0, 0⟩, []))
      ∧ (allocate_tabs tab_spacing top_align vWidgets).1.nLeft = 0
      ∧ (allocate_tabs tab_spacing top_align vWidgets).1.nTop = 0 := by
  obtain ⟨h1, h2, h3, h4, h5, h6, h7⟩ :=
    allocate_tabs_step1_spec tab_spacing top_align vWidgets 0 0
  rw [allocate_tabs_eq]
  generalize hts : (allocate_tabs_step1 tab_spacing top_align vWidgets 0 0).1 = ts at *
  generalize hmh : (allocate_tabs_step1 tab_spacing top_align vWidgets 0 0).2 = mh at *
  simp only []
  refine ⟨?_, ?_, ?_, ?_, h6, ?_, ?_, ?_, trivial, trivial⟩
  · rw [← h1, List.map_map]
    apply List.map_congr_left
    intro t _
    exact (stretch_tab_fields top_align mh t).1
  · intro t ht
    rw [List.head?_map] at ht
    simp only [Option.mem_def, Option.map_eq_some'] at ht
    obtain ⟨u, hu, rfl⟩ := ht
    rw [(stretch_tab_fields top_align mh u).2.1]
    exact h3 u hu
  · rw [List.chain'_map]
    refine h4.imp ?_
    intro a b hab
    rw [(stretch_tab_fields top_align mh a).2.1, (stretch_tab_fields top_align mh b).2.1,
      (stretch_tab_fields top_align mh a).2.2.2.1]
    exact hab
  · intro t ht
    obtain ⟨u, hu, rfl⟩ := List.mem_map.1 ht
    obtain ⟨f1, f2, f3, f4, f5⟩ := stretch_tab_fields top_align mh u
    obtain ⟨g1, g2, _⟩ := h2 u hu
    rw [f3, f4, f5, f1]
    exact ⟨g1, g2, rfl⟩
  · intro hnn hne
    rcases h7 with h7 | h7
    · obtain ⟨w, ws, hw⟩ := List.exists_cons_of_ne_nil hne
      refine ⟨w, by rw [hw]; exact List.mem_cons_self _ _, ?_⟩
      have hwm : w ∈ visible_tabs vWidgets := by rw [hw]; exact List.mem_cons_self _ _
      have := h6 w hwm
      have := hnn w hwm
      omega
    · exact h7
  · intro t ht
    rw [List.getLast?_map] at ht
    simp only [Option.mem_def, Option.map_eq_some'] at ht
    obtain ⟨u, hu, rfl⟩ := ht
    rw [hu]
    simp only []
    rw [(stretch_tab_fields top_align mh u).2.1, (stretch_tab_fields top_align mh u).2.2.2.1]
  · intro hnil
    rw [hnil] at h1
    have hts0 : ts = [] := List.map_eq_nil_iff.1 h1
    have hmh0 : mh = 0 := by
      rcases h7 with h7 | ⟨w, hw, _⟩
      · exact h7
      · rw [hnil] at hw
        simp at hw
    subst hts0
    subst hmh0
    rfl

theorem allocate_tabs_step1_text (tab_spacing : Int) (top_align : Bool) :
    ∀ (ws : List (Option Tab)) (x max_h : Int),
      ∀ t ∈ (allocate_tabs_step1 tab_spacing top_align ws x max_h).1,
        t.text = ⟨t.bounds.nLeft + (t.widget.border_rgap : Int) + (t.widget.tab_border : Int)
                    + (t.widget.padding.nLeft : Int),
                  t.bounds.nTop + (t.widget.padding.nTop : Int) + (t.widget.tab_border : Int)
                    + (if top_align then (t.widget.border_rgap : Int) else 0),
                  t.widget.text_width, t.widget.text_height⟩ := by
  intro ws
  induction ws with
  | nil => intro x max_h t ht; simp [allocate_tabs_step1] at ht
  | cons o ws ih =>
    intro x max_h t ht
    cases o with
    | none =>
      simp only [allocate_tabs_step1] at ht
      exact ih x max_h t ht
    | some w =>
      cases hv : w.visible_child with
      | false =>
        simp only [allocate_tabs_step1, hv, Bool.not_false, if_true] at ht
        exact ih x max_h t ht
      | true =>
        simp only [allocate_tabs_step1, hv, Bool.not_true, Bool.false_eq_true, if_false,
          List.mem_cons] at ht
        rcases ht with rfl | ht
        · rfl
        · exact ih _ _ t ht

/-- With the heading aligned to the top, the text rectangle of every record of
`TabControl::allocate_tabs` lies inside the bounds of the record, for tabs whose text
size is not negative. -/
theorem allocate_tabs_text_inside_top (tab_spacing : Int) (vWidgets : List (Option Tab))
    (hnn : ∀ w ∈ visible_tabs vWidgets, 0 ≤ w.text_width ∧ 0 ≤ w.text_height) :
    ∀ t ∈ (allocate_tabs tab_spacing true vWidgets).2,
      t.bounds.nLeft ≤ t.text.nLeft
        ∧ t.text.nLeft + t.text.nWidth ≤ t.bounds.nLeft + t.bounds.nWidth
        ∧ t.bounds.nTop ≤ t.text.nTop
        ∧ t.text.nTop + t.text.nHeight ≤ t.bounds.nTop + t.bounds.nHeight := by
  intro t ht
  obtain ⟨h1, h2, _, _, _, _, _⟩ := allocate_tabs_step1_spec tab_spacing true vWidgets 0 0
  have htext := allocate_tabs_step1_text tab_spacing true vWidgets 0 0
  rw [allocate_tabs_eq] at ht
  simp only [] at ht
  obtain ⟨u, hu, rfl⟩ := List.mem_map.1 ht
  obtain ⟨g1, g2, g3⟩ := h2 u hu
  have hw : u.widget ∈ visible_tabs vWidgets := by
    rw [← h1]
    exact List.mem_map_of_mem _ hu
  obtain ⟨n1, n2⟩ := hnn u.widget hw
  have ht1 := htext u hu
  simp only [stretch_tab, Bool.not_true, Bool.false_eq_true, if_false, ht1, g1, g2, g3,
    if_true, tab_width, tab_height]
  refine ⟨by omega, by omega, by omega, by omega⟩

/-- C22: evaluation at the failing input. With the heading at the bottom
(`top_align = false`) and two visible tabs whose texts are 10 and 30 high, without
border, rounding gap and padding, both records get the bounds from 0 to 30, but the
text rectangle of the first tab goes from -20 to 10: it starts 20 pixels above the
bounds of its tab. -/
theorem C22_bottom_text_leaves_bounds :
    (allocate_tabs 1 false [some (plain_tab 1 40 10), some (plain_tab 2 50 30)]).2.map
        (fun t => (t.bounds.nTop, t.bounds.nHeight, t.text.nTop, t.text.nHeight))
      = [(0, 30, -20, 30), (0, 30, 0, 30)] := by
  decide

/-! ## TabControl::current_tab -/

theorem first_visible_tab_eq_head :
    ∀ ws : List (Option Tab), first_visible_tab ws = (visible_tabs ws).head? := by
  intro ws
  induction ws with
  | nil => rfl
  | cons o ws ih =>
    cases o with
    | none => simpa [first_visible_tab, visible_tabs] using ih
    | some w =>
      cases hv : w.visible_child with
      | false => simpa [first_visible_tab, visible_tabs, hv] using ih
      | true => simp [first_visible_tab, visible_tabs, hv]

theorem mem_visible_tabs (t : Tab) :
    ∀ ws : List (Option Tab),
      t ∈ visible_tabs ws ↔ (some t ∈ ws ∧ t.visible_child = true) := by
  intro ws
  induction ws with
  | nil => simp [visible_tabs]
  | cons o ws ih =>
    cases o with
    | none => simp [visible_tabs, ih]
    | some w =>
      cases hv : w.visible_child with
      | false =>
        simp only [visible_tabs, hv, Bool.false_eq_true, if_false, ih, List.mem_cons,
          Option.some.injEq]
        constructor
        · rintro ⟨h1, h2⟩
          exact ⟨Or.inr h1, h2⟩
        · rintro ⟨h1 | h1, h2⟩
          · rw [h1, hv] at h2
            cases h2
          · exact ⟨h1, h2⟩
      | true =>
        simp only [visible_tabs, hv, if_true, List.mem_cons, ih, Option.some.injEq]
        constructor
        · rintro (h1 | ⟨h1, h2⟩)
          · exact ⟨Or.inl h1, by rw [h1, hv]⟩
          · exact ⟨Or.inr h1, h2⟩
        · rintro ⟨h1 | h1, h2⟩
          · exact Or.inl h1
          · exact Or.inr ⟨h1, h2⟩

/-- C25: `TabControl::current_tab` returns the selected tab when it is not `NULL`, is
contained in the list and is a visible child; otherwise it returns the first tab of the
list that is a visible child; it returns `NULL` exactly when no tab of the list is a
visible child; a tab it returns is a visible child and is contained in the list. -/
theorem C25_current_tab_is_valid (sSelected : Option Tab) (vWidgets : List (Option Tab)) :
    (∀ it, sSelected = some it → some it ∈ vWidgets → it.visible_child = true →
        current_tab sSelected vWidgets = some it)
      ∧ ((∀ it, sSelected = some it → ¬ (some it ∈ vWidgets ∧ it.visible_child = true)) →
          current_tab sSelected vWidgets = (visible_tabs vWidgets).head?)
      ∧ (current_tab sSelected vWidgets = none ↔ visible_tabs vWidgets = [])
      ∧ (∀ t, current_tab sSelected vWidgets = some t →
          t.visible_child = true ∧ some t ∈ vWidgets) := by
  have hhead : ∀ t, (visible_tabs vWidgets).head? = some t →
      t.visible_child = true ∧ some t ∈ vWidgets := by
    intro t ht
    have hm : t ∈ visible_tabs vWidgets := List.mem_of_mem_head? ht
    obtain ⟨h1, h2⟩ := (mem_visible_tabs t vWidgets).1 hm
    exact ⟨h2, h1⟩
  cases hs : sSelected with
  | none =>
    have hcur : current_tab none vWidgets = (visible_tabs vWidgets).head? := by
      simp only [current_tab, first_visible_tab_eq_head]
    rw [hcur]
    refine ⟨?_, fun _ => rfl, List.head?_eq_none_iff, hhead⟩
    intro it h
    cases h
  | some sel =>
    by_cases hc : some sel ∈ vWidgets ∧ sel.visible_child = true
    · have hcur : current_tab (some sel) vWidgets = some sel := by
        simp [current_tab, hc.1, hc.2]
      rw [hcur]
      refine ⟨?_, ?_, ?_, ?_⟩
      · intro it hit _ _
        rw [hit]
      · intro h
        exact absurd hc (h sel rfl)
      · constructor
        · intro h; cases h
        · intro h
          have : sel ∈ visible_tabs vWidgets := (mem_visible_tabs sel vWidgets).2 hc
          rw [h] at this
          simp at this
      · intro t ht
        cases ht
        exact ⟨hc.2, hc.1⟩
    · have hcur : current_tab (some sel) vWidgets = (visible_tabs vWidgets).head? := by
        simp only [current_tab, first_visible_tab_eq_head]
        rw [if_neg]
        simpa using hc
      rw [hcur]
      refine ⟨?_, fun _ => rfl, List.head?_eq_none_iff, hhead⟩
      intro it hit h1 h2
      cases hit
      exact absurd ⟨h1, h2⟩ hc

/-! ## TabControl::realize -/

/-- The vertical geometry of `TabControl::realize`: with the heading at the top the
strip starts at `r.nTop` and the content bounds start below the strip and the heading
spacing and end at the bottom of `r`; with the heading at the bottom the content
bounds start at `r.nTop`, and the strip is put at `r.nTop` plus the end of the content
bounds plus the heading spacing. -/
theorem realize_vertical (r : rectangle_t) (tab_spacing hd_spacing : Int)
    (top_align : Bool) (tab_left : Int) (vWidgets : List (Option Tab)) :
    (TabControl.realize r tab_spacing hd_spacing top_align tab_left vWidgets).2.1.nHeight
        = (allocate_tabs tab_spacing top_align vWidgets).1.nHeight
      ∧ (TabControl.realize r tab_spacing hd_spacing top_align tab_left vWidgets).1.nHeight
        = r.nHeight - ((allocate_tabs tab_spacing top_align vWidgets).1.nHeight + hd_spacing)
      ∧ (top_align = true →
          (TabControl.realize r tab_spacing hd_spacing top_align tab_left vWidgets).2.1.nTop
              = r.nTop
            ∧ (TabControl.realize r tab_spacing hd_spacing top_align tab_left vWidgets).1.nTop
              = r.nTop + (allocate_tabs tab_spacing top_align vWidgets).1.nHeight + hd_spacing)
      ∧ (top_align = false →
          (TabControl.realize r tab_spacing hd_spacing top_align tab_left vWidgets).1.nTop
              = r.nTop
            ∧ (TabControl.realize r tab_spacing hd_spacing top_align tab_left vWidgets).2.1.nTop
              = r.nTop + (r.nTop + r.nHeight
                  - (allocate_tabs tab_spacing top_align vWidgets).1.nHeight)) := by
  refine ⟨by cases top_align <;> simp [TabControl.realize], by cases top_align <;> simp [TabControl.realize], ?_, ?_⟩
  · intro h
    subst h
    simp only [TabControl.realize, if_true]
    constructor <;> omega
  · intro h
    subst h
    simp only [TabControl.realize, Bool.false_eq_true, if_false]
    refine ⟨trivial, ?_⟩
    omega

/-- C26: evaluation at the failing input. The rectangle (0, 10, 100, 100), one visible
tab 20 high, no heading spacing, the heading at the bottom: the content bounds go
from 10 to 90, and the heading strip is put at 100, from 100 to 120, while the widget
ends at 110: the strip is 10 pixels away from the content bounds and leaves the
widget. -/
theorem C26_bottom_heading_leaves_widget :
    (TabControl.realize ⟨0, 10, 100, 100⟩ 1 0 false 0 [some (plain_tab 1 40 20)]).1
        = ⟨0, 10, 100, 80⟩
      ∧ (TabControl.realize ⟨0, 10, 100, 100⟩ 1 0 false 0 [some (plain_tab 1 40 20)]).2.1
        = ⟨0, 100, 40, 20⟩ := by
  decide

/-! ## Box::allocate_proportional: the sum of the allocations -/

theorem total_size_map_add (horizontal : Bool) (f : cell_t → Int) :
    ∀ cells : List cell_t,
      total_size horizontal (cells.map (fun w => add_size horizontal w (f w)))
        = total_size horizontal cells + (cells.map f).sum := by
  intro cells
  induction cells with
  | nil => simp [total_size]
  | cons c cs ih =>
    simp only [total_size, List.map_cons, List.sum_cons, a_size_add_size] at ih ⊢
    omega

theorem total_size_map_add_expand (horizontal : Bool) (f : cell_t → Int) :
    ∀ cells : List cell_t,
      total_size horizontal (cells.map (fun w =>
          if expands horizontal w then add_size horizontal w (f w) else w))
        = total_size horizontal cells + ((cells.filter (expands horizontal)).map f).sum := by
  intro cells
  induction cells with
  | nil => simp [total_size]
  | cons c cs ih =>
    cases he : expands horizontal c with
    | true =>
      rw [List.filter_cons_of_pos he]
      simp only [total_size, List.map_cons, he, if_true, List.sum_cons,
        a_size_add_size] at ih ⊢
      omega
    | false =>
      have hne : ¬ (expands horizontal c = true) := by rw [he]; simp
      rw [List.filter_cons_of_neg hne]
      simp only [total_size, List.map_cons, he, Bool.false_eq_true, if_false,
        List.sum_cons] at ih ⊢
      omega

/-- The second pass adds to the cells, in total, what it takes from `n_left`. -/
theorem second_pass_total (horizontal : Bool) (n_size : Int) (cells : List cell_t)
    (n_left n_expand : Int) (n_exp : Nat)
    (hk : n_exp = (cells.filter (expands horizontal)).length) :
    total_size horizontal (second_pass horizontal n_size cells n_left n_expand n_exp).1
      = total_size horizontal cells
        + (n_left - (second_pass horizontal n_size cells n_left n_expand n_exp).2) := by
  unfold second_pass
  by_cases hl : n_left > 0
  · simp only [hl, if_true]
    by_cases h0 : n_exp = 0
    · simp only [h0, if_true, split_all_eq, zero_add, total_size_map_add]
      omega
    · simp only [h0, if_false]
      by_cases he : n_expand = 0
      · simp only [he, if_true, split_even_eq, zero_add]
        rw [total_size_map_add_expand horizontal (fun _ => n_left / (n_exp : Int))]
        simp only [List.map_const', List.sum_replicate, smul_eq_mul, hk]
        have : ((cells.filter (expands horizontal)).length : Int)
            * (n_left / ((cells.filter (expands horizontal)).length : Int))
            = n_left / ((cells.filter (expands horizontal)).length : Int)
              * ((cells.filter (expands horizontal)).length : Int) := mul_comm _ _
        simp only [nsmul_eq_mul] at *
        omega
      · simp only [he, if_false, split_expand_eq, zero_add]
        rw [total_size_map_add_expand horizontal
          (fun w => (a_size horizontal w * n_left) / n_expand)]
        omega
  · simp only [hl, if_false]
    omega

theorem spaced_sizes_sum (horizontal : Bool) (spacing : Int) :
    ∀ cells : List cell_t, cells ≠ [] →
      (spaced_sizes horizontal spacing cells).sum
        = total_size horizontal cells + spacing * ((cells.length : Int) - 1) := by
  intro cells
  induction cells with
  | nil => intro h; exact absurd rfl h
  | cons c cs ih =>
    intro _
    cases cs with
    | nil => simp [spaced_sizes, total_size]
    | cons d ds =>
      have := ih (by simp)
      simp only [spaced_sizes, List.sum_cons, total_size, List.map_cons,
        List.length_cons] at this ⊢
      push_cast at this ⊢
      linarith

/-- The sizes after the fourth pass of `Box::allocate_proportional` on a list of
visible children that is not empty sum to the minimum allocations plus the leftover
less the final `n_left`, which is zero or negative, and -1 at least when the leftover
is not negative. -/
theorem allocate_sizes_sum (horizontal : Bool) (spacing : Int) (r : rectangle_t)
    (visible : List cell_t) (hne : visible ≠ [])
    (hvis : ∀ w ∈ visible, hidden_widget w = false) :
    ∃ (sizes : List cell_t) (n1 : Int),
      allocate_sizes horizontal spacing r visible = some (sizes, n1)
        ∧ sizes.length = visible.length
        ∧ total_size horizontal sizes
          = (visible.map (min_alloc horizontal)).sum
            + leftover horizontal spacing r visible - n1
        ∧ n1 ≤ 0
        ∧ (0 ≤ leftover horizontal spacing r visible → -1 ≤ n1) := by
  have hpos := first_pass_sizes_nonneg horizontal r visible hvis
  obtain ⟨s1, s2, s3, s4⟩ := second_pass_spec horizontal
    (extent horizontal r - spacing * ((visible.length : Int) - 1))
    (visible.map (first_pass_cell horizontal r)) hpos
  have stot := second_pass_total horizontal
    (extent horizontal r - spacing * ((visible.length : Int) - 1))
    (visible.map (first_pass_cell horizontal r))
    (extent horizontal r - spacing * ((visible.length : Int) - 1)
      - total_size horizontal (visible.map (first_pass_cell horizontal r)))
    (total_size horizontal
      ((visible.map (first_pass_cell horizontal r)).filter (expands horizontal)))
    ((visible.map (first_pass_cell horizontal r)).filter (expands horizontal)).length rfl
  rw [← after_second_pass_eq horizontal spacing r visible hvis] at s1 s2 s3 s4 stot
  rw [leftover_eq horizontal spacing r visible hvis] at s2 s3 s4 stot
  rw [total_size_first_pass horizontal r visible hvis] at stot
  have hlen2 := s1.length_eq
  simp only [List.length_map] at hlen2
  have hne2 : (after_second_pass horizontal spacing r visible).1 ≠ [] := by
    intro h
    rw [h] at hlen2
    exact hne (List.length_eq_zero.1 hlen2)
  obtain ⟨out, n1, e1, e2, e3, e4, e5, e6⟩ := fourth_pass_spec horizontal
    (after_second_pass horizontal spacing r visible).2.toNat
    (after_second_pass horizontal spacing r visible).1
    (after_second_pass horizontal spacing r visible).2 hne2 (Int.self_le_toNat _)
  refine ⟨out, n1, by rw [allocate_sizes_eq]; exact e1, ?_, by omega, e4, ?_⟩
  · rw [← e2.length_eq, ← hlen2]
  · intro h0
    rcases lt_or_eq_of_le h0 with hl | hl
    · exact e5 (s2 hl)
    · have h4 := s4 (by omega)
      have : (after_second_pass horizontal spacing r visible).2 = 0 := by
        rw [h4]; exact hl.symm
      exact e5 (by omega)

/-- C23: for a list of visible children that is not empty and a leftover that is not
negative, `Box::allocate_proportional` returns, and the allocations of the cells on
the primary axis, spacing included, sum to at least the allocated extent `W` and at
most `W + 1`. -/
theorem C23_overshoot_at_most_one (enter : rectangle_t → padding_t → rectangle_t)
    (horizontal : Bool) (spacing : Int) (r : rectangle_t) (visible : List cell_t)
    (hne : visible ≠ []) (hvis : ∀ w ∈ visible, hidden_widget w = false)
    (h0 : 0 ≤ leftover horizontal spacing r visible) :
    ∃ out : List cell_t,
      allocate_proportional enter horizontal spacing r visible
          = some (status_t.STATUS_OK, out)
        ∧ extent horizontal r ≤ total_size horizontal out
        ∧ total_size horizontal out ≤ extent horizontal r + 1 := by
  obtain ⟨sizes, n1, e1, elen, etot, en1, en2⟩ :=
    allocate_sizes_sum horizontal spacing r visible hne hvis
  obtain ⟨g1, _⟩ := geometry_pass_spec enter horizontal spacing sizes r.nLeft r.nTop
  have hne1 : sizes ≠ [] := by
    intro h
    rw [h] at elen
    exact hne (List.length_eq_zero.1 elen.symm)
  have hsum : total_size horizontal
      (geometry_pass enter horizontal spacing sizes r.nLeft r.nTop)
      = extent horizontal r - n1 := by
    unfold total_size
    rw [g1, spaced_sizes_sum horizontal spacing sizes hne1, etot, elen]
    unfold leftover
    ring
  have hn := en2 h0
  refine ⟨geometry_pass enter horizontal spacing sizes r.nLeft r.nTop, ?_, ?_, ?_⟩
  · simp only [allocate_proportional, e1]
  · rw [hsum]; omega
  · rw [hsum]; omega

/-- Witness of C23: three children of minimum width 32, spacing 8, in the width 137:
the leftover is 25 and the cells sum to 138. -/
theorem C23_overshoot_at_most_one_witness :
    three_children ≠ [] ∧ (∀ w ∈ three_children, hidden_widget w = false)
      ∧ 0 ≤ leftover true 8 ⟨0, 0, 137, 32⟩ three_children
      ∧ (allocate_proportional (fun a _ => a) true 8 ⟨0, 0, 137, 32⟩ three_children).map
          (fun res => total_size true res.2) = some 138
      ∧ ∃ out : List cell_t,
          allocate_proportional (fun a _ => a) true 8 ⟨0, 0, 137, 32⟩ three_children
              = some (status_t.STATUS_OK, out)
            ∧ extent true ⟨0, 0, 137, 32⟩ ≤ total_size true out
            ∧ total_size true out ≤ extent true ⟨0, 0, 137, 32⟩ + 1 :=
  ⟨by decide, by decide, by decide, by rfl,
    C23_overshoot_at_most_one (fun a _ => a) true 8 ⟨0, 0, 137, 32⟩ three_children
      (by decide) (by decide) (by decide)⟩

/-! ## Box::allocate_proportional: termination and divisors -/

theorem checked_div_of_ne (a b : Int) (hb : b ≠ 0) : checked_div a b = some (a / b) := by
  simp [checked_div, hb]

theorem split_all_checked_eq (horizontal : Bool) (n_left n_size : Int) (hn : n_size ≠ 0) :
    ∀ (cells : List cell_t) (total : Int),
      split_all_checked horizontal n_left n_size cells total
        = some (split_all horizontal n_left n_size cells total) := by
  intro cells
  induction cells with
  | nil => intro total; rfl
  | cons c cs ih =>
    intro total
    simp only [split_all_checked, split_all, checked_div_of_ne _ _ hn, ih]

theorem split_expand_checked_eq (horizontal : Bool) (n_left n_expand : Int)
    (hn : n_expand ≠ 0) :
    ∀ (cells : List cell_t) (total : Int),
      split_expand_checked horizontal n_left n_expand cells total
        = some (split_expand horizontal n_left n_expand cells total) := by
  intro cells
  induction cells with
  | nil => intro total; rfl
  | cons c cs ih =>
    intro total
    cases he : expands horizontal c with
    | true =>
      simp only [split_expand_checked, split_expand, he, if_true,
        checked_div_of_ne _ _ hn, ih]
    | false =>
      simp only [split_expand_checked, split_expand, he, Bool.false_eq_true, if_false, ih]

/-- The second pass evaluates no division by zero when `n_size` is not zero whenever
`n_left` is positive. -/
theorem second_pass_checked_eq (horizontal : Bool) (n_size : Int) (cells : List cell_t)
    (n_left n_expand : Int) (n_exp : Nat) (hn : 0 < n_left → n_size ≠ 0) :
    second_pass_checked horizontal n_size cells n_left n_expand n_exp
      = some (second_pass horizontal n_size cells n_left n_expand n_exp) := by
  unfold second_pass_checked second_pass
  by_cases hl : n_left > 0
  · simp only [hl, if_true]
    by_cases h0 : n_exp = 0
    · simp only [h0, if_true, split_all_checked_eq horizontal n_left n_size (hn hl)]
    · simp only [h0, if_false]
      by_cases he : n_expand = 0
      · have hk : (n_exp : Int) ≠ 0 := by exact_mod_cast h0
        simp only [he, if_true, checked_div_of_ne _ _ hk]
      · simp only [he, if_false, split_expand_checked_eq horizontal n_left n_expand he]
  · simp only [hl, if_false]

/-- C24: for a list of visible children that is not empty, the passes of
`Box::allocate_proportional` up to the fourth return a result, the residual hand-out
loop ending within the `n_left` rounds it is given, the function returns
`STATUS_OK`, and the second pass with checked divisions has the result of the second
pass: no division by `n_size`, by the number of expanding children or by `n_expand`
is evaluated with a zero divisor. -/
theorem C24_terminates_without_zero_divisor (enter : rectangle_t → padding_t → rectangle_t)
    (horizontal : Bool) (spacing : Int) (r : rectangle_t) (visible : List cell_t)
    (hne : visible ≠ []) (hvis : ∀ w ∈ visible, hidden_widget w = false) :
    (∃ (sizes : List cell_t) (n1 : Int),
        fourth_pass horizontal (after_second_pass horizontal spacing r visible).2.toNat
            (after_second_pass horizontal spacing r visible).1
            (after_second_pass horizontal spacing r visible).2 = some (sizes, n1)
          ∧ allocate_sizes horizontal spacing r visible = some (sizes, n1))
      ∧ (∃ out : List cell_t,
          allocate_proportional enter horizontal spacing r visible
            = some (status_t.STATUS_OK, out))
      ∧ after_second_pass_checked horizontal spacing r visible
          = some (after_second_pass horizontal spacing r visible) := by
  obtain ⟨sizes, n1, e1, _⟩ := allocate_sizes_sum horizontal spacing r visible hne hvis
  refine ⟨⟨sizes, n1, ?_, e1⟩,
    ⟨geometry_pass enter horizontal spacing sizes r.nLeft r.nTop, ?_⟩, ?_⟩
  · rw [allocate_sizes_eq] at e1; exact e1
  · simp only [allocate_proportional, e1]
  · unfold after_second_pass_checked after_second_pass
    apply second_pass_checked_eq
    rw [after_first_pass_eq horizontal spacing r visible hvis]
    intro hl
    have hpos := first_pass_sizes_nonneg horizontal r visible hvis
    have hle := leftover_eq horizontal spacing r visible hvis
    have hsum : 0 ≤ total_size horizontal (visible.map (first_pass_cell horizontal r)) := by
      unfold total_size
      apply List.sum_nonneg
      intro x hx
      obtain ⟨w, hw, rfl⟩ := List.mem_map.1 hx
      exact hpos w hw
    simp only at hl
    omega

/-- Witness of C24: three children of minimum width 32, spacing 8, in the width 137. -/
theorem C24_terminates_without_zero_divisor_witness :
    three_children ≠ [] ∧ (∀ w ∈ three_children, hidden_widget w = false)
      ∧ allocate_sizes true 8 ⟨0, 0, 137, 32⟩ three_children ≠ none
      ∧ after_second_pass_checked true 8 ⟨0, 0, 137, 32⟩ three_children
          = some (after_second_pass true 8 ⟨0, 0, 137, 32⟩ three_children) :=
  ⟨by decide, by decide, by decide,
    (C24_terminates_without_zero_divisor (fun a _ => a) true 8 ⟨0, 0, 137, 32⟩
      three_children (by decide) (by decide)).2.2⟩

/-! ## TabControl::init -/

/-- C27: `TabControl::init` on a control without slots, with the slot identifiers 1 for
`SLOT_CHANGE` and 2 for `SLOT_SUBMIT`, `slot_on_change` at the address 100 and
`slot_on_submit` at the address 200: the call returns `STATUS_OK`, both slots hold
one binding, and it is the binding of `slot_on_change` in both: executing
`SLOT_SUBMIT` invokes the function at 100 and not the one at 200. -/
theorem C27_submit_runs_on_change :
    (TabControl.init recording_api status_t.STATUS_OK 1 2 100 7 true (true, true)
        (true, true) []).1 = some 0
      ∧ (TabControl.init recording_api status_t.STATUS_OK 1 2 100 7 true (true, true)
        (true, true) []).2 = [⟨1, [⟨100, 7, true⟩]⟩, ⟨2, [⟨100, 7, true⟩]⟩]
      ∧ invoked (TabControl.init recording_api status_t.STATUS_OK 1 2 100 7 true
        (true, true) (true, true) []).2 1 = some [100]
      ∧ invoked (TabControl.init recording_api status_t.STATUS_OK 1 2 100 7 true
        (true, true) (true, true) []).2 2 = some [100]
      ∧ invoked (TabControl.init recording_api status_t.STATUS_OK 1 2 100 7 true
        (true, true) (true, true) []).2 2 ≠ some [200] := by
  refine ⟨by decide, by decide, by decide, by decide, by decide⟩

/-! ## prop::Rectangle::override -/

/-- C28: on a bound property, `override(style, left, top, width, height)` is
`init(style, &rect)` for `rect = {left, top, width, height}` and `override(style)` is
`init(style, &rect)` for the zero rectangle: they write the four components with
`create_int`, make no call of `override_int`, and their calls differ from those of
`override(style, &rect)`. -/
theorem C28_override_creates_defaults (vAtoms : atoms_t) (sRect : rectangle_t)
    (left top width height : Int) :
    prop.Rectangle.override_ltwh ⟨true, vAtoms, sRect⟩ left top width height
        = prop.Rectangle.init_rect ⟨true, vAtoms, sRect⟩ ⟨left, top, width, height⟩
      ∧ prop.Rectangle.override ⟨true, vAtoms, sRect⟩
        = prop.Rectangle.init_rect ⟨true, vAtoms, sRect⟩ ⟨0, 0, 0, 0⟩
      ∧ (prop.Rectangle.override_ltwh ⟨true, vAtoms, sRect⟩ left top width height).2
        ≠ (prop.Rectangle.override_rect ⟨true, vAtoms, sRect⟩
            ⟨left, top, width, height⟩).2
      ∧ (prop.Rectangle.override ⟨true, vAtoms, sRect⟩).2
        ≠ (prop.Rectangle.override_rect ⟨true, vAtoms, sRect⟩ ⟨0, 0, 0, 0⟩).2
      ∧ (style_ref.style, style_call.create_int vAtoms.P_WIDTH width)
        ∈ (prop.Rectangle.override_ltwh ⟨true, vAtoms, sRect⟩ left top width height).2
      ∧ (style_ref.style, style_call.override_int vAtoms.P_WIDTH width)
        ∈ (prop.Rectangle.override_rect ⟨true, vAtoms, sRect⟩
            ⟨left, top, width, height⟩).2
      ∧ (∀ (ref : style_ref) (id v : Int), (ref, style_call.override_int id v)
        ∉ (prop.Rectangle.override_ltwh ⟨true, vAtoms, sRect⟩ left top width height).2)
      ∧ (∀ (ref : style_ref) (id v : Int), (ref, style_call.override_int id v)
        ∉ (prop.Rectangle.override ⟨true, vAtoms, sRect⟩).2) := by
  refine ⟨rfl, rfl, ?_, ?_, ?_, ?_, ?_, ?_⟩
  · simp [prop.Rectangle.override_ltwh, prop.Rectangle.init_rect,
      prop.Rectangle.override_rect]
  · simp [prop.Rectangle.override, prop.Rectangle.init_rect,
      prop.Rectangle.override_rect]
  · simp [prop.Rectangle.override_ltwh, prop.Rectangle.init_rect]
  · simp [prop.Rectangle.override_rect]
  · intro ref id v
    simp [prop.Rectangle.override_ltwh, prop.Rectangle.init_rect]
  · intro ref id v
    simp [prop.Rectangle.override, prop.Rectangle.init_rect]

/-! ## Rectangle: negative sizes -/

/-- C29: from the constructor state, the call `set_width(-5)` leaves the width -5 in
the property and the call `set_height(-5)` the height -5, for every binding and
style; `set_size(-5, -5)` leaves the size 0 by 0. -/
theorem C29_set_width_stores_negative (bound : Bool) (vAtoms : atoms_t) (st : Style) :
    (Rectangle.calls (Rectangle.ctor bound vAtoms) st
        [rect_call.set_width (-5)]).1.sRect = ⟨0, 0, -5, 0⟩
      ∧ (Rectangle.calls (Rectangle.ctor bound vAtoms) st
        [rect_call.set_height (-5)]).1.sRect = ⟨0, 0, 0, -5⟩
      ∧ (Rectangle.calls (Rectangle.ctor bound vAtoms) st
        [rect_call.set_position 1 2, rect_call.set_width (-5)]).1.sRect.nWidth < 0
      ∧ (Rectangle.calls (Rectangle.ctor bound vAtoms) st
        [rect_call.set_size (-5) (-5)]).1.sRect = ⟨0, 0, 0, 0⟩ := by
  refine ⟨?_, ?_, ?_, ?_⟩ <;>
    simp [Rectangle.calls, Rectangle.call, Rectangle.ctor, Rectangle.set_width,
      Rectangle.set_height, Rectangle.set_position, Rectangle.set_size, lsp_max]

/-! ## FileDialog: the bookmark menu -/

theorem parray_premove_length (ptr : Option Nat) :
    ∀ v : List (Option Nat), ptr ∈ v → (parray_premove v ptr).length + 1 = v.length := by
  intro v
  induction v with
  | nil => intro h; cases h
  | cons x xs ih =>
    intro h
    by_cases hx : x = ptr
    · simp [parray_premove, hx]
    · have hm : ptr ∈ xs := by
        rcases List.mem_cons.1 h with h1 | h1
        · exact absurd h1.symm hx
        · exact h1
      simp only [parray_premove, hx, if_false, List.length_cons]
      rw [ih hm]

theorem parray_premove_append (ptr x : Option Nat) :
    ∀ v : List (Option Nat), ptr ∈ v →
      parray_premove (v ++ [x]) ptr = parray_premove v ptr ++ [x] := by
  intro v
  induction v with
  | nil => intro h; cases h
  | cons y ys ih =>
    intro h
    by_cases hy : y = ptr
    · simp [parray_premove, hy]
    · have hm : ptr ∈ ys := by
        rcases List.mem_cons.1 h with h1 | h1
        · exact absurd h1.symm hy
        · exact h1
      have e := ih hm
      simp only [parray_premove, hy, if_false, List.cons_append]
      exact congrArg (fun t => y :: t) e

/-- C30: with the bookmarks 1, 2, 3 and the popup bookmark 2, `slot_on_bm_menu_last`
leaves the array 1, 3, `NULL`: the bookmark 2 is gone and a `NULL` entry is the last
one, where `slot_on_bm_menu_first` leaves 2, 1, 3. For every array and every popup
bookmark contained in it, `slot_on_bm_menu_last` leaves the array without the first
entry of that bookmark and with `NULL` as the last entry, and `slot_on_bm_menu_first`
the bookmark followed by the array without that entry. -/
theorem C30_menu_last_drops_bookmark (sync_bookmarks : List (Option Nat) → status_t) :
    (FileDialog.slot_on_bm_menu_last sync_bookmarks (some 2) true
        [some 1, some 2, some 3]).2 = [some 1, some 3, none]
      ∧ (FileDialog.slot_on_bm_menu_first sync_bookmarks (some 2) true
        [some 1, some 2, some 3]).2 = [some 2, some 1, some 3]
      ∧ (∀ (v : List (Option Nat)) (bm : Nat), some bm ∈ v →
          (FileDialog.slot_on_bm_menu_last sync_bookmarks (some bm) true v).2
              = parray_premove v (some bm) ++ [none]
            ∧ (FileDialog.slot_on_bm_menu_first sync_bookmarks (some bm) true v).2
              = some bm :: parray_premove v (some bm)) := by
  refine ⟨rfl, rfl, ?_⟩
  intro v bm hb
  have hlen := parray_premove_length (some bm) v hb
  constructor
  · simp only [FileDialog.slot_on_bm_menu_last, parray_append, if_true,
      parray_premove_append (some bm) none v hb, store_at, List.length_append,
      List.length_singleton]
    rw [if_neg (by omega)]
  · simp [FileDialog.slot_on_bm_menu_first, parray_prepend, parray_premove, store_at]

end lsp.tk
